import Mathlib

/-!
# cob_twist_controller: the stack-of-tasks solver

A shallow embedding of `StackOfTasksSolver::solve` and
`StackOfTasksSolver::processState`
(`cob_twist_controller/src/constraint_solvers/solvers/stack_of_tasks_solver.cpp`).

Modelling conventions:

* `double` is idealised as `ℚ` (exact arithmetic, no rounding, no infinities); where the
  rounding of doubles decides a property (the weights of the gradient budget) the
  arithmetic is repeated with an explicit rounding, `roundBinary64` for binary64;
* `Eigen::VectorXd` of length `n` is `Fin n → ℚ`, `Eigen::MatrixXd` is a Mathlib `Matrix`;
* member state of the solver is an explicit record that `solve` takes and returns;
* the two clock readings `ros::Time::now()` of a cycle are inputs of `solve`;
* the pseudo-inverse calculator `pinv_calc_` is a parameter (a pure function);
* the macros `START_CNT`, `ZERO_THRESHOLD`, `DIV0_SAFE` are parameters.
-/

namespace CobTwist

/-- Dense vector of doubles (`Eigen::VectorXd`, `KDL::JntArray`). -/
abbrev Vec (n : Nat) := Fin n → ℚ

/-- Dense matrix of doubles (`Eigen::MatrixXd`). -/
abbrev Mat (m n : Nat) := Matrix (Fin m) (Fin n) ℚ

/-- Modelled from the spec: the enumeration `EN_ConstraintStates` is declared in a header
that is not part of the sources; the spec gives `NORMAL < DANGER < CRITICAL`. -/
inductive EN_ConstraintStates where
  | NORMAL
  | DANGER
  | CRITICAL
  deriving DecidableEq, Repr

/-- Underlying integer of the enumeration, used by the `>` comparison in `processState`. -/
def EN_ConstraintStates.toNat : EN_ConstraintStates → Nat
  | .NORMAL => 0
  | .DANGER => 1
  | .CRITICAL => 2

/-- Modelled from the spec: the class `ConstraintState` (header not part of the sources):
a current and a previous severity, `isTransition = current != previous`. -/
structure ConstraintState where
  current_ : EN_ConstraintStates
  previous_ : EN_ConstraintStates
  deriving DecidableEq, Repr

def ConstraintState.getCurrent (c : ConstraintState) : EN_ConstraintStates := c.current_

def ConstraintState.getPrevious (c : ConstraintState) : EN_ConstraintStates := c.previous_

def ConstraintState.isTransition (c : ConstraintState) : Bool :=
  decide (c.current_ ≠ c.previous_)

/-- The fields of `TwistControllerParams` that `solve` reads (`k_H`, `priority_main`); every
other field of the parameter struct is kept in `rest` (it only travels to `pinv_calc_`). -/
structure TwistControllerParams (Ω : Type) where
  k_H : ℚ
  priority_main : Nat
  rest : Ω

/-- The struct `Task<PRIO>`: priority, id, task Jacobian (`rows × n`), task vector (`rows`),
active flag and the parameters / damping handed to the pseudo-inverse calculator. -/
structure Task (Ω D : Type) (n : Nat) where
  prio_ : Nat
  id_ : String
  rows : Nat
  task_jacobian_ : Mat rows n
  task_ : Vec rows
  is_active_ : Bool
  tcp_ : TwistControllerParams Ω
  db_ : D

/-- Modelled from the spec: `TaskStackController` lives in a header that is not part of the
sources. The stack is the list of its tasks in rank order. -/
abbrev TaskStackController (Ω D : Type) (n : Nat) := List (Task Ω D n)

namespace TaskStackController

variable {Ω D : Type} {n : Nat}

/-- Ordered insertion of a new task: before the first task of strictly larger priority
number, at the end when there is none. -/
def insertByPrio (t : Task Ω D n) : List (Task Ω D n) → List (Task Ω D n)
  | [] => [t]
  | u :: us => if t.prio_ < u.prio_ then t :: u :: us else u :: insertByPrio t us

/-- Modelled from the spec: `addTask(task)` inserts, or replaces by id. A task whose id is
already in the stack is refreshed in its slot and keeps its active flag; a new id is
inserted in priority order with the flag the task carries. -/
def addTask (t : Task Ω D n) (tasks : TaskStackController Ω D n) : TaskStackController Ω D n :=
  if tasks.any (fun u => decide (u.id_ = t.id_)) then
    tasks.map (fun u => if u.id_ = t.id_ then { t with is_active_ := u.is_active_ } else u)
  else
    insertByPrio t tasks

/-- Modelled from the spec: `activateTask(id)` sets the active flag of the task with this id. -/
def activateTask (task_id : String) (tasks : TaskStackController Ω D n) :
    TaskStackController Ω D n :=
  tasks.map (fun u => if u.id_ = task_id then { u with is_active_ := true } else u)

/-- Modelled from the spec: `deactivateTask(id)` clears the active flag of the task with
this id. -/
def deactivateTask (task_id : String) (tasks : TaskStackController Ω D n) :
    TaskStackController Ω D n :=
  tasks.map (fun u => if u.id_ = task_id then { u with is_active_ := false } else u)

/-- Modelled from the spec: the tasks that `beginTaskIter` / `nextActiveTask` yield until
`getTasksEnd`: the active tasks, in rank order. -/
def activeTasks (tasks : TaskStackController Ω D n) : List (Task Ω D n) :=
  tasks.filter (fun u => u.is_active_)

end TaskStackController

/-- The part of `JointStates` that the solver reads. -/
structure JointStates (n : Nat) where
  current_q_ : Vec n
  current_q_dot_ : Vec n

/-- The struct `KDL::JntArrayVel`: predicted positions `q` and velocities `qdot`. -/
structure JntArrayVel (n : Nat) where
  q : Vec n
  qdot : Vec n

/-- Modelled from the spec: the interface `ConstraintBase` (implementations are not part of
the sources). A constraint object is its internal state `self` together with its methods;
`update` returns the new internal state, the getters read it. The task id is a constant of
the object. -/
structure ConstraintBase (Ω D σ : Type) (n : Nat) where
  self : σ
  update : σ → JointStates n → JntArrayVel n → Mat 6 n → σ
  getState : σ → ConstraintState
  getPriorityAsNum : σ → ℚ
  getActivationGain : σ → ℚ
  getPartialValues : σ → Vec n
  getSelfMotionMagnitude : σ → Vec n → Vec n → ℚ
  createTask : σ → Task Ω D n
  getTaskId : String

/-- The macros of the solver that are defined in a header outside the sources. -/
structure SolverMacros where
  START_CNT : ℚ
  ZERO_THRESHOLD : ℚ
  DIV0_SAFE : ℚ

/-- The member `pinv_calc_`: `calculate(params, damping, jacobian)`. -/
abbrev PInvCalculator (Ω D : Type) (n : Nat) :=
  TwistControllerParams Ω → D → (m : Nat) → Mat m n → Mat n m

/-- Member state of `StackOfTasksSolver`. -/
structure StackOfTasksSolver (Ω D σ : Type) (n : Nat) where
  params_ : TwistControllerParams Ω
  damping_ : D
  jacobian_data_ : Mat 6 n
  constraints_ : List (ConstraintBase Ω D σ n)
  task_stack_controller_ : TaskStackController Ω D n
  last_time_ : ℚ
  in_cart_vel_damping_ : ℚ
  global_constraint_state_ : EN_ConstraintStates

variable {Ω D σ : Type} {n : Nat}

/-- The literal id of the main task. -/
def mainTaskId : String := "Main task"

/-- One call of `StackOfTasksSolver::processState` for the constraint `it`: returns the
solver after the call and the new value of the reference parameter `sum_of_gradient`. -/
def processState (K : SolverMacros) (s : StackOfTasksSolver Ω D σ n)
    (it : ConstraintBase Ω D σ n) (projector : Mat n n) (particular_solution : Vec n)
    (inv_sum_of_prios : ℚ) (sum_of_gradient : Vec n) :
    StackOfTasksSolver Ω D σ n × Vec n :=
  let q_dot_0 := it.getPartialValues it.self
  let activation_gain := it.getActivationGain it.self
  let tmpHomogeneousSolution := projector.mulVec q_dot_0
  let magnitude := it.getSelfMotionMagnitude it.self particular_solution tmpHomogeneousSolution
  let cstate := it.getState it.self
  let constr_prio := it.getPriorityAsNum it.self
  let inv_constr_prio := if constr_prio > K.ZERO_THRESHOLD then 1 / constr_prio else 1 / K.DIV0_SAFE
  let gpm_weighting := inv_constr_prio / inv_sum_of_prios
  let r : TaskStackController Ω D n × Vec n :=
    if cstate.isTransition then
      if cstate.getCurrent = EN_ConstraintStates.CRITICAL then
        let t := it.createTask it.self
        let factor := activation_gain * |magnitude|
        let t := { t with task_ := factor • t.task_ }
        (TaskStackController.activateTask it.getTaskId
          (TaskStackController.addTask t s.task_stack_controller_), sum_of_gradient)
      else if cstate.getCurrent = EN_ConstraintStates.DANGER then
        (TaskStackController.deactivateTask it.getTaskId s.task_stack_controller_,
          sum_of_gradient + (gpm_weighting * activation_gain * magnitude) • q_dot_0)
      else
        (TaskStackController.deactivateTask it.getTaskId s.task_stack_controller_,
          sum_of_gradient)
    else
      if cstate.getCurrent = EN_ConstraintStates.CRITICAL then
        let t := it.createTask it.self
        let factor := activation_gain * |magnitude|
        let t := { t with task_ := factor • t.task_ }
        (TaskStackController.addTask t s.task_stack_controller_, sum_of_gradient)
      else if cstate.getCurrent = EN_ConstraintStates.DANGER then
        (s.task_stack_controller_,
          sum_of_gradient + (gpm_weighting * activation_gain * magnitude) • q_dot_0)
      else
        (s.task_stack_controller_, sum_of_gradient)
  let g :=
    if cstate.getCurrent.toNat > s.global_constraint_state_.toNat then cstate.getCurrent
    else s.global_constraint_state_
  ({ s with task_stack_controller_ := r.1, global_constraint_state_ := g }, r.2)

/-- The joint-state prediction loop of `solve` (all joints). -/
def predictJointStates (particular_solution : Vec n) (cycle : ℚ) (joint_states : JointStates n) :
    JntArrayVel n :=
  { q := fun i => particular_solution i * cycle + joint_states.current_q_ i
    qdot := fun i => particular_solution i }

/-- First loop of `solve`: every constraint is updated with the predicted joint states, and
the inverse priorities of the constraints whose current state is `DANGER` are summed up.
Returns the updated constraints and the final `inv_sum_of_prionums`. -/
def firstIteration (K : SolverMacros) (joint_states : JointStates n)
    (predict_jnts_vel : JntArrayVel n) (jacobian_data_ : Mat 6 n) :
    List (ConstraintBase Ω D σ n) → ℚ → List (ConstraintBase Ω D σ n) × ℚ
  | [], inv_sum_of_prionums => ([], inv_sum_of_prionums)
  | it :: rest, inv_sum_of_prionums =>
    let it1 := { it with self := it.update it.self joint_states predict_jnts_vel jacobian_data_ }
    let constr_prio := it1.getPriorityAsNum it1.self
    let inv_sum1 :=
      if (it1.getState it1.self).getCurrent = EN_ConstraintStates.DANGER then
        inv_sum_of_prionums
          + (if constr_prio > K.ZERO_THRESHOLD then 1 / constr_prio else 1 / K.DIV0_SAFE)
      else inv_sum_of_prionums
    let r := firstIteration K joint_states predict_jnts_vel jacobian_data_ rest inv_sum1
    (it1 :: r.1, r.2)

/-- Second loop of `solve`: `processState` for every constraint, in iteration order. -/
def secondIteration (K : SolverMacros) (projector : Mat n n) (particular_solution : Vec n)
    (inv_sum_of_prionums : ℚ) :
    List (ConstraintBase Ω D σ n) → StackOfTasksSolver Ω D σ n → Vec n →
      StackOfTasksSolver Ω D σ n × Vec n
  | [], s, sum_of_gradient => (s, sum_of_gradient)
  | it :: rest, s, sum_of_gradient =>
    let r := processState K s it projector particular_solution inv_sum_of_prionums sum_of_gradient
    secondIteration K projector particular_solution inv_sum_of_prionums rest r.1 r.2

/-- Body of the active-task loop of `solve` for one task: the new `(q_i, projector_i)`. -/
def resolveTask (pinv_calc_ : PInvCalculator Ω D n) (acc : Vec n × Mat n n) (it : Task Ω D n) :
    Vec n × Mat n n :=
  let q_i := acc.1
  let projector_i := acc.2
  let J_task := it.task_jacobian_
  let J_temp := J_task * projector_i
  let v_task := it.task_
  let J_temp_inv := pinv_calc_ it.tcp_ it.db_ it.rows J_temp
  (q_i + J_temp_inv.mulVec (v_task - J_task.mulVec q_i), projector_i - J_temp_inv * J_temp)

/-- The active-task loop of `solve`, from `q_i = 0` and `projector_i = I`. -/
def resolveStack (pinv_calc_ : PInvCalculator Ω D n) (active : List (Task Ω D n)) :
    Vec n × Mat n n :=
  active.foldl (resolveTask pinv_calc_) (0, 1)

/-- The damping-counter update of `solve`. -/
def updateDamping (K : SolverMacros) (global_constraint_state_ : EN_ConstraintStates)
    (in_cart_vel_damping_ : ℚ) : ℚ :=
  if EN_ConstraintStates.CRITICAL = global_constraint_state_ then K.START_CNT
  else if in_cart_vel_damping_ > 1 then in_cart_vel_damping_ - 1 else 1

/-- Everything one call of `solve` computes: the returned joint velocities, the solver
afterwards, and the local variables that the properties below speak about. -/
structure SolveResult (Ω D σ : Type) (n : Nat) where
  qdots_out : Vec n
  solver : StackOfTasksSolver Ω D σ n
  particular_solution : Vec n
  predict_jnts_vel : JntArrayVel n
  inv_sum_of_prionums : ℚ
  sum_of_gradient : Vec n

/-- One call of `StackOfTasksSolver::solve`. `now1` and `now2` are the two readings of
`ros::Time::now()`. The `Task` constructor is declared outside the sources; following the
spec ("main task ... always active") a freshly constructed task has its active flag set. -/
def solve (K : SolverMacros) (pinv_calc_ : PInvCalculator Ω D n)
    (s : StackOfTasksSolver Ω D σ n) (in_cart_velocities : Vec 6)
    (joint_states : JointStates n) (now1 now2 : ℚ) : SolveResult Ω D σ n :=
  let s := { s with global_constraint_state_ := EN_ConstraintStates.NORMAL }
  let jacobianPseudoInverse := pinv_calc_ s.params_ s.damping_ 6 s.jacobian_data_
  let ident : Mat n n := 1
  let projector := ident - jacobianPseudoInverse * s.jacobian_data_
  let particular_solution := jacobianPseudoInverse.mulVec in_cart_velocities
  let cycle := now1 - s.last_time_
  let s := { s with last_time_ := now2 }
  let predict_jnts_vel := predictJointStates particular_solution cycle joint_states
  let r1 := firstIteration K joint_states predict_jnts_vel s.jacobian_data_ s.constraints_ 0
  let s := { s with constraints_ := r1.1 }
  let inv_sum_of_prionums := r1.2
  let r2 := secondIteration K projector particular_solution inv_sum_of_prionums
    s.constraints_ s 0
  let s := r2.1
  let sum_of_gradient := s.params_.k_H • r2.2
  let s := { s with
    in_cart_vel_damping_ := updateDamping K s.global_constraint_state_ s.in_cart_vel_damping_ }
  let scaled_in_cart_velocities : Vec 6 := (1 / s.in_cart_vel_damping_ ^ 2) • in_cart_velocities
  let t : Task Ω D n :=
    { prio_ := s.params_.priority_main
      id_ := mainTaskId
      rows := 6
      task_jacobian_ := s.jacobian_data_
      task_ := scaled_in_cart_velocities
      is_active_ := true
      tcp_ := s.params_
      db_ := s.damping_ }
  let s := { s with
    task_stack_controller_ := TaskStackController.addTask t s.task_stack_controller_ }
  let r3 := resolveStack pinv_calc_ (TaskStackController.activeTasks s.task_stack_controller_)
  { qdots_out := r3.1 + r3.2.mulVec sum_of_gradient
    solver := s
    particular_solution := particular_solution
    predict_jnts_vel := predict_jnts_vel
    inv_sum_of_prionums := inv_sum_of_prionums
    sum_of_gradient := sum_of_gradient }

/-- Inputs of one control cycle: the commanded twist, the joint states, the two clock
readings, and the chain Jacobian that the control loop stores in `jacobian_data_` before it
calls `solve`. -/
structure CycleInput (n : Nat) where
  in_cart_velocities : Vec 6
  joint_states : JointStates n
  now1 : ℚ
  now2 : ℚ
  jacobian : Mat 6 n

/-- One control cycle as the spec describes the caller: the chain Jacobian of the cycle is
stored in `jacobian_data_`, then `solve` is called. -/
def cycleStep (K : SolverMacros) (pinv_calc_ : PInvCalculator Ω D n)
    (s : StackOfTasksSolver Ω D σ n) (i : CycleInput n) : SolveResult Ω D σ n :=
  solve K pinv_calc_ { s with jacobian_data_ := i.jacobian } i.in_cart_velocities
    i.joint_states i.now1 i.now2

/-- The solver after a sequence of control cycles. -/
def runCycles (K : SolverMacros) (pinv_calc_ : PInvCalculator Ω D n) :
    StackOfTasksSolver Ω D σ n → List (CycleInput n) → StackOfTasksSolver Ω D σ n
  | s, [] => s
  | s, i :: rest => runCycles K pinv_calc_ (cycleStep K pinv_calc_ s i).solver rest

/-! ## Kinematic extensions (`kinematic_extension.cpp`) -/

/-- The field of `InvDiffKinSolverParams` that `create_extension` reads (`base_active`); all
other fields of the parameter struct are kept in `rest`. -/
structure InvDiffKinSolverParams (Ω : Type) where
  base_active : Bool
  rest : Ω

/-- A `KDL::Jacobian`: six rows and a number of columns fixed at run time. -/
abbrev Jacobian := (cols : Nat) × Mat 6 cols

/-- A `KDL::JntArray`: a vector whose length is fixed at run time. -/
abbrev JntArray := (rows : Nat) × Vec rows

/-- The object behind the `KinematicExtensionBase*` that `create_extension` returns: its
dynamic class together with the parameters handed to the constructor. The class
`KinematicExtensionBaseActive` derives from `KinematicExtension6D`. -/
inductive KinematicExtensionBase (Ω : Type) where
  | KinematicExtensionNone (params : InvDiffKinSolverParams Ω)
  | KinematicExtensionBaseActive (params : InvDiffKinSolverParams Ω)

/-- The factory `KinematicExtensionBuilder::create_extension`. -/
def KinematicExtensionBuilder.create_extension (params : InvDiffKinSolverParams Ω) :
    KinematicExtensionBase Ω :=
  if params.base_active then KinematicExtensionBase.KinematicExtensionBaseActive params
  else KinematicExtensionBase.KinematicExtensionNone params

/-- The method `KinematicExtensionNone::adjust_jacobian`. -/
def KinematicExtensionNone.adjust_jacobian (jac_chain : Jacobian) : Jacobian :=
  jac_chain

/-- The method `KinematicExtensionNone::process_result_extension`: returns at once; `w` is
the state of everything outside the object (publishers), which it leaves as it is. -/
def KinematicExtensionNone.process_result_extension {W : Type} (_q_dot_ik : JntArray) (w : W) :
    W :=
  w

/-- The method `KinematicExtension6D::adjust_jacobian_6d` (its body after the `return` is
commented out in the source). -/
def KinematicExtension6D.adjust_jacobian_6d (jac_chain : Jacobian) : Jacobian :=
  jac_chain

/-- The method `KinematicExtension6D::adjust_jacobian`. -/
def KinematicExtension6D.adjust_jacobian (jac_chain : Jacobian) : Jacobian :=
  KinematicExtension6D.adjust_jacobian_6d jac_chain

/-- The method `KinematicExtensionBaseActive::adjust_jacobian`. -/
def KinematicExtensionBaseActive.adjust_jacobian (jac_chain : Jacobian) : Jacobian :=
  KinematicExtension6D.adjust_jacobian_6d jac_chain

/-- The method `KinematicExtensionBaseActive::process_result_extension`: returns at once. -/
def KinematicExtensionBaseActive.process_result_extension {W : Type} (_q_dot_ik : JntArray)
    (w : W) : W :=
  w

/-- Virtual call of `adjust_jacobian` through the base-class pointer. -/
def KinematicExtensionBase.adjust_jacobian (keb : KinematicExtensionBase Ω)
    (jac_chain : Jacobian) : Jacobian :=
  match keb with
  | .KinematicExtensionNone _ => KinematicExtensionNone.adjust_jacobian jac_chain
  | .KinematicExtensionBaseActive _ => KinematicExtensionBaseActive.adjust_jacobian jac_chain

/-- Virtual call of `process_result_extension` through the base-class pointer. -/
def KinematicExtensionBase.process_result_extension {W : Type} (keb : KinematicExtensionBase Ω)
    (q_dot_ik : JntArray) (w : W) : W :=
  match keb with
  | .KinematicExtensionNone _ => KinematicExtensionNone.process_result_extension q_dot_ik w
  | .KinematicExtensionBaseActive _ =>
    KinematicExtensionBaseActive.process_result_extension q_dot_ik w

/-! ## Vocabulary of the specification -/

/-- Current severity of a constraint. -/
def currentOf (c : ConstraintBase Ω D σ n) : EN_ConstraintStates :=
  (c.getState c.self).getCurrent

/-- The constraint after its `update` call of a cycle. -/
def updated (joint_states : JointStates n) (predict_jnts_vel : JntArrayVel n)
    (jacobian_data_ : Mat 6 n) (c : ConstraintBase Ω D σ n) : ConstraintBase Ω D σ n :=
  { c with self := c.update c.self joint_states predict_jnts_vel jacobian_data_ }

/-- Inverse priority with the divide-by-zero guard, as the specification words it:
`1/priorityNumber`, or `1/DIV0_SAFE` for a priority number at or below the zero threshold. -/
def invPrio (K : SolverMacros) (c : ConstraintBase Ω D σ n) : ℚ :=
  if K.ZERO_THRESHOLD < c.getPriorityAsNum c.self then 1 / c.getPriorityAsNum c.self
  else 1 / K.DIV0_SAFE

/-- The constraints of a list whose current severity is `DANGER`. -/
def dangerOnes (cs : List (ConstraintBase Ω D σ n)) : List (ConstraintBase Ω D σ n) :=
  cs.filter (fun c => decide (currentOf c = EN_ConstraintStates.DANGER))

/-- Maximum of two severities under `NORMAL < DANGER < CRITICAL`. -/
def sevMax (a b : EN_ConstraintStates) : EN_ConstraintStates :=
  if a.toNat < b.toNat then b else a

/-- Maximum severity of a list of severities, `NORMAL` for the empty list. -/
def maxSeverity (l : List EN_ConstraintStates) : EN_ConstraintStates :=
  l.foldr sevMax EN_ConstraintStates.NORMAL

/-- Some constraint of the list is `CRITICAL`. -/
def anyCritical (cs : List (ConstraintBase Ω D σ n)) : Bool :=
  cs.any (fun c => decide (currentOf c = EN_ConstraintStates.CRITICAL))

/-- No cycle of the run has a `CRITICAL` constraint (after the updates of that cycle). -/
def noCriticalRun (K : SolverMacros) (pinv_calc_ : PInvCalculator Ω D n) :
    StackOfTasksSolver Ω D σ n → List (CycleInput n) → Bool
  | _, [] => true
  | s, i :: rest =>
    !(anyCritical (cycleStep K pinv_calc_ s i).solver.constraints_)
      && noCriticalRun K pinv_calc_ (cycleStep K pinv_calc_ s i).solver rest

/-- The term that a `DANGER` constraint adds to `sum_of_gradient`, with the guarded inverse
priority. -/
def gradientTerm (K : SolverMacros) (projector : Mat n n) (particular_solution : Vec n)
    (inv_sum_of_prios : ℚ) (c : ConstraintBase Ω D σ n) : Vec n :=
  (invPrio K c / inv_sum_of_prios * c.getActivationGain c.self
      * c.getSelfMotionMagnitude c.self particular_solution
          (projector.mulVec (c.getPartialValues c.self)))
    • c.getPartialValues c.self

/-- The term of the specification's table, with the unguarded `1/priorityNumber`. -/
def literalGradientTerm (projector : Mat n n) (particular_solution : Vec n)
    (inv_sum_of_prios : ℚ) (c : ConstraintBase Ω D σ n) : Vec n :=
  (1 / c.getPriorityAsNum c.self / inv_sum_of_prios * c.getActivationGain c.self
      * c.getSelfMotionMagnitude c.self particular_solution
          (projector.mulVec (c.getPartialValues c.self)))
    • c.getPartialValues c.self

/-- The null-space projector `I - pinv(J)·J` that `solve` hands to `processState`. -/
def projectorOf (pinv_calc_ : PInvCalculator Ω D n) (s : StackOfTasksSolver Ω D σ n) :
    Mat n n :=
  1 - pinv_calc_ s.params_ s.damping_ 6 s.jacobian_data_ * s.jacobian_data_

/-- The task that `processState` adds for a `CRITICAL` constraint: the task returned by
`createTask` with its task vector multiplied by `activation_gain * |magnitude|`. -/
def scaledTask (c : ConstraintBase Ω D σ n) (projector : Mat n n) (particular_solution : Vec n) :
    Task Ω D n :=
  { c.createTask c.self with
    task_ := (c.getActivationGain c.self
        * |c.getSelfMotionMagnitude c.self particular_solution
            (projector.mulVec (c.getPartialValues c.self))|) • (c.createTask c.self).task_ }

/-- Some task of the stack carries this id and is active. -/
def hasActive (task_id : String) (tasks : TaskStackController Ω D n) : Bool :=
  tasks.any (fun t => decide (t.id_ = task_id) && t.is_active_)

/-- The main task that `solve` builds: the chain Jacobian with the commanded twist scaled by
`1 / d^2` for the damping counter `d`. -/
def mainTaskOf (s : StackOfTasksSolver Ω D σ n) (d : ℚ) (in_cart_velocities : Vec 6) :
    Task Ω D n :=
  { prio_ := s.params_.priority_main
    id_ := mainTaskId
    rows := 6
    task_jacobian_ := s.jacobian_data_
    task_ := (1 / d ^ 2) • in_cart_velocities
    is_active_ := true
    tcp_ := s.params_
    db_ := s.damping_ }

/-- The solver between the two constraint passes of `solve`: global state reset, clock
stored, constraints updated. -/
def afterFirstPass (pinv_calc_ : PInvCalculator Ω D n) (s : StackOfTasksSolver Ω D σ n)
    (in_cart_velocities : Vec 6) (joint_states : JointStates n) (now1 now2 : ℚ) :
    StackOfTasksSolver Ω D σ n :=
  { s with
    global_constraint_state_ := EN_ConstraintStates.NORMAL
    last_time_ := now2
    constraints_ := s.constraints_.map
      (updated joint_states
        (predictJointStates
          ((pinv_calc_ s.params_ s.damping_ 6 s.jacobian_data_).mulVec in_cart_velocities)
          (now1 - s.last_time_) joint_states)
        s.jacobian_data_) }

/-- The behaviour of a constraint that the no-stale-task invariant relies on: the task it
creates carries its task id, and each `update` moves the current severity to the previous
one. -/
def wellBehaved (c : ConstraintBase Ω D σ n) : Prop :=
  (∀ st, (c.createTask st).id_ = c.getTaskId)
  ∧ ∀ st js p J, (c.getState (c.update st js p J)).previous_ = (c.getState st).current_

/-- Every constraint task that is active belongs to a constraint that is `CRITICAL`. -/
def noStaleTasks (s : StackOfTasksSolver Ω D σ n) : Prop :=
  ∀ c ∈ s.constraints_, c.getTaskId ≠ mainTaskId →
    hasActive c.getTaskId s.task_stack_controller_ = true →
    currentOf c = EN_ConstraintStates.CRITICAL

/-- The stack holds no active secondary task: every task other than the main task is
inactive, a main task in the stack is active, and there is at most one main task. -/
def onlyMainActive (tasks : TaskStackController Ω D n) : Prop :=
  (∀ t ∈ tasks, t.id_ ≠ mainTaskId → t.is_active_ = false)
  ∧ (∀ t ∈ tasks, t.id_ = mainTaskId → t.is_active_ = true)
  ∧ (tasks.filter (fun t => decide (t.id_ = mainTaskId))).length ≤ 1

/-- The matrix `X` is the exact (Moore-Penrose) pseudo-inverse of `M`: the four Penrose
conditions. -/
def isExactPinv {m : Nat} (M : Mat m n) (X : Mat n m) : Prop :=
  M * X * M = M ∧ X * M * X = X ∧ (M * X).transpose = M * X ∧ (X * M).transpose = X * M

/-- The weight `gpm_weighting` that `processState` computes for a constraint: its guarded
inverse priority divided by `inv_sum_of_prios`, in exact arithmetic (`gpmWeightingRounded` is
the same quotient with the rounding of doubles). -/
def gpmWeighting (K : SolverMacros) (inv_sum_of_prios : ℚ) (c : ConstraintBase Ω D σ n) : ℚ :=
  invPrio K c / inv_sum_of_prios

/-- The pseudo-inverse calculator is exact along the active-task loop: for every task of the
list, taken in order from the loop state `acc = (q_i, projector_i)`, the matrix it returns
for `J_task * projector_i` is the exact pseudo-inverse of that matrix. -/
def exactOnStack (pinv_calc_ : PInvCalculator Ω D n) :
    Vec n × Mat n n → List (Task Ω D n) → Prop
  | _, [] => True
  | acc, t :: rest =>
    isExactPinv (t.task_jacobian_ * acc.2)
        (pinv_calc_ t.tcp_ t.db_ t.rows (t.task_jacobian_ * acc.2))
      ∧ exactOnStack pinv_calc_ (resolveTask pinv_calc_ acc t) rest

/-- The loop state keeps task A: `J_A * q_i = v_A`, the projector annihilates `J_A` from the
right and is symmetric. -/
def keepsTask {a : Nat} (JA : Mat a n) (vA : Vec a) (acc : Vec n × Mat n n) : Prop :=
  JA.mulVec acc.1 = vA ∧ JA * acc.2 = 0 ∧ acc.2.transpose = acc.2

/-! ## Arithmetic of doubles with rounding -/

/-- Round to the nearest integer, ties to the even one. -/
def roundHalfEven (m : ℚ) : ℤ :=
  if m - ⌊m⌋ < 1 / 2 then ⌊m⌋
  else if 1 / 2 < m - ⌊m⌋ then ⌊m⌋ + 1
  else if ⌊m⌋ % 2 = 0 then ⌊m⌋ else ⌊m⌋ + 1

/-- The binary64 value of a real result: round to nearest, ties to even, with 53 significant
bits. The exponent range is taken as unbounded (overflow and subnormal numbers are left
out). -/
def roundBinary64 (x : ℚ) : ℚ :=
  if x < 0 then
    -((roundHalfEven (-x * 2 ^ (52 - Int.log 2 (-x))) : ℚ) * 2 ^ (Int.log 2 (-x) - 52))
  else (roundHalfEven (x * 2 ^ (52 - Int.log 2 x)) : ℚ) * 2 ^ (Int.log 2 x - 52)

/-- The guarded inverse priority of lines 68 and 126 with the rounding `fl` of the division. -/
def invPrioRounded (fl : ℚ → ℚ) (K : SolverMacros) (c : ConstraintBase Ω D σ n) : ℚ :=
  if K.ZERO_THRESHOLD < c.getPriorityAsNum c.self then fl (1 / c.getPriorityAsNum c.self)
  else fl (1 / K.DIV0_SAFE)

/-- The accumulation `inv_sum_of_prionums += ...` of the first loop of `solve` (lines 61-70,
on the constraints after their update) with the rounding `fl` of every division and
addition. -/
def invSumRounded (fl : ℚ → ℚ) (K : SolverMacros) :
    List (ConstraintBase Ω D σ n) → ℚ → ℚ
  | [], inv_sum_of_prionums => inv_sum_of_prionums
  | it :: rest, inv_sum_of_prionums =>
    invSumRounded fl K rest
      (if currentOf it = EN_ConstraintStates.DANGER then
        fl (inv_sum_of_prionums + invPrioRounded fl K it)
      else inv_sum_of_prionums)

/-- The weight `gpm_weighting` of `processState` (lines 125-128) with the rounding `fl` of
the two divisions. -/
def gpmWeightingRounded (fl : ℚ → ℚ) (K : SolverMacros) (inv_sum_of_prios : ℚ)
    (c : ConstraintBase Ω D σ n) : ℚ :=
  fl (invPrioRounded fl K c / inv_sum_of_prios)

/-- A sum of doubles computed from left to right, every addition rounded by `fl`. -/
def roundedSum (fl : ℚ → ℚ) : List ℚ → ℚ → ℚ
  | [], acc => acc
  | x :: rest, acc => roundedSum fl rest (fl (acc + x))

/-- The weights `gpm_weighting` of the `DANGER` constraints of a cycle, computed with the
rounding `fl`, in the order of the constraint set. -/
def roundedWeights (fl : ℚ → ℚ) (K : SolverMacros) (cs : List (ConstraintBase Ω D σ n)) :
    List ℚ :=
  (dangerOnes cs).map (gpmWeightingRounded fl K (invSumRounded fl K cs 0))

/-! ## Concrete inputs used by the examples -/

namespace Example

/-- Internal state of the scripted test constraint: its severity state and the severities
that the coming `update` calls will set. -/
abbrev Scripted := ConstraintState × List EN_ConstraintStates

/-- A test constraint on one joint. Each `update` sets the next severity of the script
(`previous := current; current := next`); when the script is used up the severity stays.
Priority number, activation gain and self-motion magnitude are constants. -/
def scripted (id : String) (prio gain mag : ℚ) (script : List EN_ConstraintStates) :
    ConstraintBase Unit Unit Scripted 1 :=
  { self := (⟨EN_ConstraintStates.NORMAL, EN_ConstraintStates.NORMAL⟩, script)
    update := fun st _ _ _ =>
      match st.2 with
      | [] => (⟨st.1.current_, st.1.current_⟩, [])
      | x :: xs => (⟨x, st.1.current_⟩, xs)
    getState := fun st => st.1
    getPriorityAsNum := fun _ => prio
    getActivationGain := fun _ => gain
    getPartialValues := fun _ _ => 1
    getSelfMotionMagnitude := fun _ _ _ => mag
    createTask := fun _ =>
      { prio_ := 1
        id_ := id
        rows := 1
        task_jacobian_ := 1
        task_ := fun _ => 1
        is_active_ := true
        tcp_ := ⟨1, 0, ()⟩
        db_ := () }
    getTaskId := id }

/-- A pseudo-inverse calculator for the examples: the transpose (the exact pseudo-inverse of
every matrix with orthonormal rows or columns, such as the identity). -/
def pinvT (n : Nat) : PInvCalculator Unit Unit n :=
  fun _ _ _ M => M.transpose

/-- Macro values for the examples (whole-number start count). -/
def macros40 : SolverMacros :=
  { START_CNT := 40, ZERO_THRESHOLD := 1 / 1000000000, DIV0_SAFE := 1 / 1000000 }

/-- Macro values with a start count that is not a whole number. -/
def macrosFrac : SolverMacros :=
  { START_CNT := 3 / 2, ZERO_THRESHOLD := 1 / 1000000000, DIV0_SAFE := 1 / 1000000 }

/-- The Jacobian of a one-joint chain that moves along `x`. -/
def jac1 : Mat 6 1 := fun i _ => if i = 0 then 1 else 0

/-- The commanded twist `[1,0,0,0,0,0]`. -/
def twistX : Vec 6 := fun i => if i = 0 then 1 else 0

/-- A one-joint solver in its start state (damping counter `1.0`, empty task stack, time
`0`) with the given constraints. -/
def solver1 (cs : List (ConstraintBase Unit Unit Scripted 1)) :
    StackOfTasksSolver Unit Unit Scripted 1 :=
  { params_ := ⟨1, 0, ()⟩
    damping_ := ()
    jacobian_data_ := jac1
    constraints_ := cs
    task_stack_controller_ := []
    last_time_ := 0
    in_cart_vel_damping_ := 1
    global_constraint_state_ := EN_ConstraintStates.NORMAL }

/-- The input of a cycle of the one-joint examples: twist `[1,0,0,0,0,0]`, joint at rest at
position `0`, both clock readings `t`. -/
def input1 (t : ℚ) : CycleInput 1 :=
  { in_cart_velocities := twistX
    joint_states := ⟨fun _ => 0, fun _ => 0⟩
    now1 := t
    now2 := t
    jacobian := jac1 }

/-- Two constraints that go to `DANGER` in the first cycle: one with a priority number below
the zero threshold and gain 1, one with priority number 1 and gain 0. -/
def twoDanger : StackOfTasksSolver Unit Unit Scripted 1 :=
  solver1 [scripted "a" (1 / 10000000000) 1 1 [EN_ConstraintStates.DANGER],
           scripted "b" 1 0 1 [EN_ConstraintStates.DANGER]]

/-- Two constraints that go to `DANGER` in the first cycle, with priority numbers 1 and 2. -/
def twoDangerAbove : StackOfTasksSolver Unit Unit Scripted 1 :=
  solver1 [scripted "a" 1 1 1 [EN_ConstraintStates.DANGER],
           scripted "b" 2 1 1 [EN_ConstraintStates.DANGER]]

/-- Joint states of the one-joint examples: at rest at position 0. -/
def rest1 : JointStates 1 := ⟨fun _ => 0, fun _ => 0⟩

/-- One constraint with priority number 0 that goes to `DANGER` in the first cycle. -/
def zeroPrio : ConstraintBase Unit Unit Scripted 1 :=
  scripted "z" 0 1 1 [EN_ConstraintStates.DANGER]

/-- A constraint that has just become `CRITICAL` (previous severity `NORMAL`), with
activation gain 2 and self-motion magnitude 0.5. -/
def critNow : ConstraintBase Unit Unit Scripted 1 :=
  { scripted "c" 1 2 (1 / 2) [] with
    self := (⟨EN_ConstraintStates.CRITICAL, EN_ConstraintStates.NORMAL⟩, []) }

/-- A solver with one constraint that is `CRITICAL` in the first cycle and `DANGER` in the
second. -/
def critThenDanger : StackOfTasksSolver Unit Unit Scripted 1 :=
  solver1 [scripted "c" 1 1 1 [EN_ConstraintStates.CRITICAL, EN_ConstraintStates.DANGER]]

/-- A six-joint solver with the identity as chain Jacobian, no constraints, an empty task
stack and the damping counter `d`. -/
def solver6 (d : ℚ) : StackOfTasksSolver Unit Unit Scripted 6 :=
  { params_ := ⟨1, 0, ()⟩
    damping_ := ()
    jacobian_data_ := 1
    constraints_ := []
    task_stack_controller_ := []
    last_time_ := 0
    in_cart_vel_damping_ := d
    global_constraint_state_ := EN_ConstraintStates.NORMAL }

/-- Joint states of the six-joint examples: at rest at position 0. -/
def rest6 : JointStates 6 := ⟨fun _ => 0, fun _ => 0⟩

/-- A solver with one constraint that is `CRITICAL` in the first cycle and `NORMAL` from the
second cycle on. -/
def critThenNormal : StackOfTasksSolver Unit Unit Scripted 1 :=
  solver1 [scripted "c" 1 1 1 [EN_ConstraintStates.CRITICAL, EN_ConstraintStates.NORMAL,
    EN_ConstraintStates.NORMAL]]

/-- Three constraints that go to `DANGER` in the first cycle, with priority numbers 0 (at the
zero threshold guard), 1 and 4. -/
def threeDanger : StackOfTasksSolver Unit Unit Scripted 1 :=
  solver1 [scripted "z" 0 1 1 [EN_ConstraintStates.DANGER],
           scripted "a" 1 1 1 [EN_ConstraintStates.DANGER],
           scripted "b" 4 1 1 [EN_ConstraintStates.DANGER]]

/-- Task A of the three-joint example: the first joint velocity must be 3. -/
def stackA : Task Unit Unit 3 :=
  { prio_ := 0
    id_ := "A"
    rows := 1
    task_jacobian_ := fun _ j => if j = 0 then 1 else 0
    task_ := fun _ => 3
    is_active_ := true
    tcp_ := ⟨1, 0, ()⟩
    db_ := () }

/-- Task B of the three-joint example: the first two joint velocities must add up to 5. -/
def stackB : Task Unit Unit 3 :=
  { prio_ := 1
    id_ := "B"
    rows := 1
    task_jacobian_ := fun _ j => if j = 2 then 0 else 1
    task_ := fun _ => 5
    is_active_ := true
    tcp_ := ⟨1, 0, ()⟩
    db_ := () }

/-- Task C of the three-joint example: all three joint velocities must add up to 7. -/
def stackC : Task Unit Unit 3 :=
  { prio_ := 2
    id_ := "C"
    rows := 1
    task_jacobian_ := fun _ _ => 1
    task_ := fun _ => 7
    is_active_ := true
    tcp_ := ⟨1, 0, ()⟩
    db_ := () }

/-- Three constraints with the priority numbers 1, 2 and 3 that go to `DANGER` in the first
cycle. -/
def prio123 : StackOfTasksSolver Unit Unit Scripted 1 :=
  solver1 [scripted "a" 1 1 1 [EN_ConstraintStates.DANGER],
           scripted "b" 2 1 1 [EN_ConstraintStates.DANGER],
           scripted "c" 3 1 1 [EN_ConstraintStates.DANGER]]

/-- Three constraints with the priority numbers 3, 5 and 7 that go to `DANGER` in the first
cycle. -/
def prio357 : StackOfTasksSolver Unit Unit Scripted 1 :=
  solver1 [scripted "a" 3 1 1 [EN_ConstraintStates.DANGER],
           scripted "b" 5 1 1 [EN_ConstraintStates.DANGER],
           scripted "c" 7 1 1 [EN_ConstraintStates.DANGER]]

end Example

end CobTwist

/-! # cob_omni_drive_controller: wheel parameter parsing

A shallow embedding of `param_parser.cpp`. The configuration values are `XmlRpc::XmlRpcValue`
trees; the URDF model, the tf buffer and the parameter server are inputs. A call that does
not return (an escaping `XmlRpcException`, a dereferenced null pointer) yields a `Fault`. -/

namespace CobOmniDrive

/-- An `XmlRpc::XmlRpcValue` (library type): its type tag with the value. A struct is the
sequence of its members in the order of its `std::map`, i.e. by key. The tags `TypeDateTime`
and `TypeBase64` are not used by the parser and are left out. -/
inductive XmlRpcValue where
  | TypeInvalid
  | TypeBoolean (b : Bool)
  | TypeInt (i : Int)
  | TypeDouble (d : ℚ)
  | TypeString (s : String)
  | TypeArray (a : List XmlRpcValue)
  | TypeStruct (m : List (String × XmlRpcValue))

/-- Ways in which a call ends without returning. -/
inductive Fault where
  | XmlRpcException
  | nullDereference
  | invalidUnionAccess
  deriving DecidableEq, Repr

/-- The member `XmlRpcValue::hasMember`: true for a struct that has the member. -/
def XmlRpcValue.hasMember (val : XmlRpcValue) (name : String) : Bool :=
  match val with
  | .TypeStruct m => m.any (fun e => decide (e.1 = name))
  | _ => false

/-- The member `operator[](name)` on a struct that has the member (the parser only calls it
after `hasMember`). -/
def XmlRpcValue.member (val : XmlRpcValue) (name : String) : XmlRpcValue :=
  match val with
  | .TypeStruct m =>
    match m.find? (fun e => decide (e.1 = name)) with
    | some e => e.2
    | none => .TypeInvalid
  | _ => .TypeInvalid

/-- The specialisation `read_typed<double>`: an int is converted, a double is returned, an
invalid value becomes the double zero (library rule of the conversion operator), every
other type makes the conversion operator throw (`none`). -/
def read_typed_double (val : XmlRpcValue) : Option ℚ :=
  match val with
  | .TypeInt i => some (i : ℚ)
  | .TypeDouble d => some d
  | .TypeInvalid => some 0
  | _ => none

/-- The instance `read_typed<std::string>`: a string is returned, an invalid value becomes
the empty string, every other type makes the conversion operator throw (`none`). -/
def read_typed_string (val : XmlRpcValue) : Option String :=
  match val with
  | .TypeString s => some s
  | .TypeInvalid => some ""
  | _ => none

/-- The template `read_optional`: returns the flag and the new content of the reference
`val`. A thrown `XmlRpcException` is caught and gives `false` with `val` untouched. -/
def read_optional {T : Type} (read_typed : XmlRpcValue → Option T) (val : T) (name : String)
    (wheel : XmlRpcValue) : Bool × T :=
  if wheel.hasMember name then
    match read_typed (wheel.member name) with
    | some v => (true, v)
    | none => (false, val)
  else (false, val)

/-- The template `read_with_default`. -/
def read_with_default {T : Type} (read_typed : XmlRpcValue → Option T) (val : T) (name : String)
    (wheel : XmlRpcValue) (dflt : T) : Bool × T :=
  if !(read_optional read_typed val name wheel).1 then (false, dflt)
  else (true, (read_optional read_typed val name wheel).2)

/-- The members of a `std::map` after `insert` of `(k, v)`: a key that is present keeps its
value. -/
def mapInsert (k : String) (v : XmlRpcValue) :
    List (String × XmlRpcValue) → List (String × XmlRpcValue)
  | [] => [(k, v)]
  | e :: rest =>
    if k < e.1 then (k, v) :: e :: rest
    else if k = e.1 then e :: rest
    else e :: mapInsert k v rest

/-- The members of a `std::map` after `map[k] = v`. -/
def mapAssign (k : String) (v : XmlRpcValue) :
    List (String × XmlRpcValue) → List (String × XmlRpcValue)
  | [] => [(k, v)]
  | e :: rest =>
    if k < e.1 then (k, v) :: e :: rest
    else if k = e.1 then (k, v) :: rest
    else e :: mapAssign k v rest

/-- A `MergedXmlRpcStruct` is an `XmlRpcValue` of type struct (every constructor asserts
it): its members. -/
abbrev MergedXmlRpcStruct := List (String × XmlRpcValue)

/-- The loop of the constructor `MergedXmlRpcStruct(a, b, recursive)` over the members of
`b`, on the members of the copy of `a`. -/
def mergeMembers (recursive : Bool) (a : List (String × XmlRpcValue)) :
    List (String × XmlRpcValue) → List (String × XmlRpcValue)
  | [] => a
  | (k, vb) :: rest =>
    match a.find? (fun e => decide (e.1 = k)) with
    | none => mergeMembers recursive (mapInsert k vb a) rest
    | some e =>
      if recursive then
        match e.2, vb with
        | .TypeStruct ma, .TypeStruct mb =>
          mergeMembers recursive (mapAssign k (.TypeStruct (mergeMembers true ma mb)) a) rest
        | _, _ => mergeMembers recursive a rest
      else mergeMembers recursive a rest
termination_by b => sizeOf b

/-- The constructor `MergedXmlRpcStruct(a, b)` (with `recursive = true`). The copy of `a`
must be a struct (`assertStruct`: an invalid value becomes the empty struct, any other type
throws); the members of `b` are then read through the struct accessor without a check. -/
def MergedXmlRpcStruct.merged (a b : XmlRpcValue) : Except Fault MergedXmlRpcStruct :=
  match a with
  | .TypeStruct ma =>
    match b with
    | .TypeStruct mb => .ok (mergeMembers true ma mb)
    | _ => .error Fault.invalidUnionAccess
  | .TypeInvalid =>
    match b with
    | .TypeStruct mb => .ok (mergeMembers true [] mb)
    | _ => .error Fault.invalidUnionAccess
  | _ => .error Fault.XmlRpcException

/-- The struct `urdf::Vector3`. -/
structure Vector3 where
  x : ℚ
  y : ℚ
  z : ℚ

/-- The struct `urdf::Pose` (only its position is read). -/
structure Pose where
  position : Vector3

/-- The part of `urdf::Joint` that the parser reads. -/
structure Joint where
  parent_link_name : String
  parent_to_joint_origin_transform : Pose

/-- A loaded `urdf::Model`: `getJoint` gives the joint with this name or a null pointer. -/
structure Model where
  getJoint : String → Option Joint

/-- The message part `geometry_msgs::Transform` (only its translation is read). -/
structure Transform where
  translation : Vector3

/-- The message `geometry_msgs::TransformStamped`. -/
structure TransformStamped where
  transform : Transform

/-- The `tf2_ros::Buffer` as the parser sees it: `lookupTransform(target, source, ...)` gives
a transform, or throws a `tf2::TransformException` (`none`). -/
structure Buffer where
  lookupTransform : String → String → Option TransformStamped

/-- The `ros::NodeHandle` as the parser sees it: `getParam(name, value)` finds the value or
fails; `robot_description` is the URDF model when `searchParam("robot_description", ...)`
and `model.initParam(...)` both succeed. -/
structure NodeHandle where
  getParam : String → Option XmlRpcValue
  robot_description : Option Model

/-- The struct `WheelGeom` (declared in a header outside the sources): the fields that
`parseWheelGeom` writes. -/
structure WheelGeom where
  steer_name : String
  drive_name : String
  dWheelXPosMM : ℚ
  dWheelYPosMM : ℚ
  dSteerDriveCoupling : ℚ
  dRadiusWheelMM : ℚ
  dDistSteerAxisToDriveWheelMM : ℚ

/-- The struct `UndercarriageGeom::WheelParams`. -/
structure UndercarriageGeom.WheelParams where
  geom : WheelGeom

/-- The guarded joint lookup that `parseWheelGeom` performs for the steer joint and for the
drive joint: `if(model && !name.empty()) joint = model->getJoint(name)`, a null pointer
(`none`) otherwise. -/
def getJointIfNamed (model : Option Model) (name : String) : Option Joint :=
  match model with
  | some m => if name ≠ "" then m.getJoint name else none
  | none => none

/-- The function `parseWheelGeom`. `geom` is the content of the reference on entry; the
result is the returned flag with the content of `geom` on return. `sqrt` is the library
square root. The node handle is only used for a log line and is left out. -/
def parseWheelGeom (sqrt : ℚ → ℚ) (geom : WheelGeom) (wheel : XmlRpcValue)
    (merged : MergedXmlRpcStruct) (buffer : Buffer) (model : Option Model) :
    Except Fault (Bool × WheelGeom) :=
  let geom := { geom with
    steer_name := (read_with_default read_typed_string geom.steer_name "steer" wheel "").2 }
  let geom := { geom with
    drive_name := (read_with_default read_typed_string geom.drive_name "drive" wheel "").2 }
  let geom := { geom with
    dSteerDriveCoupling :=
      (read_with_default read_typed_double geom.dSteerDriveCoupling "steer_drive_coupling"
        wheel 0).2 }
  let steer_joint : Option Joint := getJointIfNamed model geom.steer_name
  let steer_pos : Vector3 :=
    match steer_joint with
    | some j => j.parent_to_joint_origin_transform.position
    | none => ⟨0, 0, 0⟩
  let rx := read_optional read_typed_double steer_pos.x "x_pos" wheel
  let steer_pos := { steer_pos with x := rx.2 }
  if !rx.1 && steer_joint.isNone then .ok (false, geom) else
  let ry := read_optional read_typed_double steer_pos.y "y_pos" wheel
  let steer_pos := { steer_pos with y := ry.2 }
  if !ry.1 && steer_joint.isNone then .ok (false, geom) else
  let rz := read_optional read_typed_double steer_pos.z "wheel_radius" (.TypeStruct merged)
  let _steer_pos := { steer_pos with z := rz.2 }
  if !rz.1 && steer_joint.isNone then .ok (false, geom) else
  match steer_joint with
  | none => .error Fault.nullDereference
  | some j =>
    match buffer.lookupTransform j.parent_link_name "base_link" with
    | none => .ok (false, geom)
    | some transformStamped =>
      let steer_pos : Vector3 :=
        { x := transformStamped.transform.translation.x
          y := transformStamped.transform.translation.y
          z := transformStamped.transform.translation.z }
      if steer_pos.z = 0 then .ok (false, geom) else
      let geom := { geom with
        dWheelXPosMM := steer_pos.x * 1000
        dWheelYPosMM := steer_pos.y * 1000
        dRadiusWheelMM := |steer_pos.z * 1000| }
      let ro := read_optional read_typed_double 0 "wheel_offset" (.TypeStruct merged)
      if !ro.1 then
        let drive_joint : Option Joint := getJointIfNamed model geom.drive_name
        match drive_joint with
        | some dj =>
          let pos := dj.parent_to_joint_origin_transform.position
          let offset := sqrt (pos.x * pos.x + pos.y * pos.y)
          .ok (true, { geom with dDistSteerAxisToDriveWheelMM := offset * 1000 })
        | none => .ok (false, geom)
      else .ok (true, { geom with dDistSteerAxisToDriveWheelMM := ro.2 * 1000 })

/-- The specialisation `parseWheel<UndercarriageGeom::WheelParams>`. -/
def parseWheelUndercarriageGeom (sqrt : ℚ → ℚ) (params : UndercarriageGeom.WheelParams)
    (wheel : XmlRpcValue) (merged : MergedXmlRpcStruct) (buffer : Buffer)
    (model : Option Model) : Except Fault (Bool × UndercarriageGeom.WheelParams) :=
  match parseWheelGeom sqrt params.geom wheel merged buffer model with
  | .ok (b, g) => .ok (b, { params with geom := g })
  | .error f => .error f

/-- The struct that the array branch of `make_wheel_struct` builds: member `i` of the array
under the key `lexical_cast<std::string>(i)`. -/
def arrayToStruct : List XmlRpcValue → Nat → List (String × XmlRpcValue) →
    List (String × XmlRpcValue)
  | [], _, new_stuct => new_stuct
  | w :: rest, i, new_stuct => arrayToStruct rest (i + 1) (mapAssign (toString i) w new_stuct)

/-- The function `make_wheel_struct`: the returned flag with the content of `wheel_list` on
return. An empty array leaves an invalid value, whose `size()` throws. -/
def make_wheel_struct (wheel_list : XmlRpcValue) : Except Fault (Bool × XmlRpcValue) :=
  match wheel_list with
  | .TypeArray a =>
    match a with
    | [] => .error Fault.XmlRpcException
    | _ :: _ =>
      .ok (decide ((arrayToStruct a 0 []).length > 0), .TypeStruct (arrayToStruct a 0 []))
  | .TypeStruct m => .ok (decide (m.length > 0), .TypeStruct m)
  | other => .ok (false, other)

/-- The type of the template function `parseWheel<W>`. -/
abbrev ParseWheel (W : Type) :=
  W → XmlRpcValue → MergedXmlRpcStruct → Buffer → Option Model → Except Fault (Bool × W)

/-- The wheel loop of `parseWheels` from the member `it` on: the returned flag with the
content of `wheel_params` on return. `init` is the content of the fresh local `W params`. -/
def parseWheelsLoop {W : Type} (parseWheel : ParseWheel W) (init : W) (defaults : XmlRpcValue)
    (tfBuffer : Buffer) (model : Option Model) :
    List (String × XmlRpcValue) → List W → Except Fault (Bool × List W)
  | [], wheel_params => .ok (!wheel_params.isEmpty, wheel_params)
  | it :: rest, wheel_params =>
    match MergedXmlRpcStruct.merged it.2 defaults with
    | .error f => .error f
    | .ok merged =>
      match parseWheel init it.2 merged tfBuffer model with
      | .error f => .error f
      | .ok (false, _) => .ok (false, wheel_params)
      | .ok (true, params) =>
        parseWheelsLoop parseWheel init defaults tfBuffer model rest (wheel_params ++ [params])

/-- The members of the struct that `wheel_list.begin()` iterates over. -/
def XmlRpcValue.members (val : XmlRpcValue) : List (String × XmlRpcValue) :=
  match val with
  | .TypeStruct m => m
  | _ => []

/-- The template function `parseWheels<W>`. `wheel_params` is the content of the output
vector on entry; `tfBuffer` is what the transform listener provides. The result is the
returned flag with the content of `wheel_params` on return. -/
def parseWheels {W : Type} (parseWheel : ParseWheel W) (init : W) (_wheel_params : List W)
    (nh : NodeHandle) (tfBuffer : Buffer) (read_urdf : Bool) : Except Fault (Bool × List W) :=
  let model : Option Model := if read_urdf then nh.robot_description else none
  let defaults : XmlRpcValue := (nh.getParam "defaults").getD (.TypeStruct [])
  let wheel_params : List W := []
  match nh.getParam "wheels" with
  | none => .ok (false, wheel_params)
  | some wheel_list =>
    match make_wheel_struct wheel_list with
    | .error f => .error f
    | .ok (false, _) => .ok (false, wheel_params)
    | .ok (true, wheel_list) =>
      parseWheelsLoop parseWheel init defaults tfBuffer model wheel_list.members wheel_params

/-- The overload `parseWheelParams(std::vector<UndercarriageGeom::WheelParams>&, ...)`. -/
def parseWheelParams (sqrt : ℚ → ℚ) (init : UndercarriageGeom.WheelParams)
    (params : List UndercarriageGeom.WheelParams) (nh : NodeHandle) (tfBuffer : Buffer)
    (read_urdf : Bool) : Except Fault (Bool × List UndercarriageGeom.WheelParams) :=
  parseWheels (parseWheelUndercarriageGeom sqrt) init params nh tfBuffer read_urdf

/-! ## Vocabulary of the specification (wheel parsing) -/

/-- The steer name that `parseWheelGeom` stores: the member "steer" of the wheel, or the
empty string. -/
def steerNameOf (geom : WheelGeom) (wheel : XmlRpcValue) : String :=
  (read_with_default read_typed_string geom.steer_name "steer" wheel "").2

/-- The steer joint that `parseWheelGeom` resolves (null pointer: `none`). -/
def steerJointOf (geom : WheelGeom) (wheel : XmlRpcValue) (model : Option Model) :
    Option Joint :=
  getJointIfNamed model (steerNameOf geom wheel)

/-- All three of `x_pos`, `y_pos` (wheel) and `wheel_radius` (merged) can be read. -/
def allThreeRead (wheel : XmlRpcValue) (merged : MergedXmlRpcStruct) : Bool :=
  (read_optional read_typed_double 0 "x_pos" wheel).1
    && (read_optional read_typed_double 0 "y_pos" wheel).1
    && (read_optional read_typed_double 0 "wheel_radius" (.TypeStruct merged)).1

/-- The wheel `e` of the list parses: the merge with the defaults succeeds and `parseWheel`
returns true with the parameters `p`. -/
def parsesTo {W : Type} (parseWheel : ParseWheel W) (init : W) (defaults : XmlRpcValue)
    (tfBuffer : Buffer) (model : Option Model) (e : String × XmlRpcValue) (p : W) : Prop :=
  ∃ merged, MergedXmlRpcStruct.merged e.2 defaults = .ok merged
    ∧ parseWheel init e.2 merged tfBuffer model = .ok (true, p)

/-- The wheel `e` of the list fails to parse: `parseWheel` returns false for it. -/
def failsToParse {W : Type} (parseWheel : ParseWheel W) (init : W) (defaults : XmlRpcValue)
    (tfBuffer : Buffer) (model : Option Model) (e : String × XmlRpcValue) : Prop :=
  ∃ merged g, MergedXmlRpcStruct.merged e.2 defaults = .ok merged
    ∧ parseWheel init e.2 merged tfBuffer model = .ok (false, g)

/-- What `parseWheels` leaves in `wheel_params` when it returns false: nothing when the wheel
list is missing or invalid; otherwise the parameters of the wheels that precede the first
failing wheel, in order. -/
def leftOnFailure {W : Type} (parseWheel : ParseWheel W) (init : W) (nh : NodeHandle)
    (tfBuffer : Buffer) (read_urdf : Bool) (wheel_params : List W) : Prop :=
  (wheel_params = []
    ∧ (nh.getParam "wheels" = none
      ∨ ∃ wheel_list v, nh.getParam "wheels" = some wheel_list
          ∧ make_wheel_struct wheel_list = .ok (false, v)))
  ∨ ∃ wheel_list wheel_struct before failing after,
      nh.getParam "wheels" = some wheel_list
      ∧ make_wheel_struct wheel_list = .ok (true, wheel_struct)
      ∧ wheel_struct.members = before ++ failing :: after
      ∧ List.Forall₂
          (parsesTo parseWheel init ((nh.getParam "defaults").getD (.TypeStruct [])) tfBuffer
            (if read_urdf then nh.robot_description else none))
          before wheel_params
      ∧ failsToParse parseWheel init ((nh.getParam "defaults").getD (.TypeStruct [])) tfBuffer
          (if read_urdf then nh.robot_description else none) failing

/-! ## Concrete inputs used by the examples (wheel parsing) -/

namespace Example

/-- A wheel geometry with empty names and zero numbers (the reference on entry). -/
def geom0 : WheelGeom := ⟨"", "", 0, 0, 0, 0, 0⟩

/-- A URDF model with the single joint "steer_1", whose parent link is "leg_1". -/
def model1 : Model :=
  { getJoint := fun name => if name = "steer_1" then some ⟨"leg_1", ⟨⟨0, 0, 0⟩⟩⟩ else none }

/-- A tf buffer that knows the transform for "leg_1" with translation `(0.2, 0.1, z)`. -/
def bufferZ (z : ℚ) : Buffer :=
  { lookupTransform := fun target source =>
      if target = "leg_1" ∧ source = "base_link" then some ⟨⟨⟨1 / 5, 1 / 10, z⟩⟩⟩ else none }

/-- A tf buffer with the transform translation `(0.2, 0.1, 0.1)` for "leg_1". -/
def bufferUp : Buffer := bufferZ (1 / 10)

/-- The members of a wheel that names its steer joint and gives the wheel offset 0.02. -/
def jointWheel : List (String × XmlRpcValue) :=
  [("steer", .TypeString "steer_1"), ("wheel_offset", .TypeDouble (1 / 50))]

/-- The members of a wheel that gives `wheel_radius`, `x_pos` and `y_pos` as numbers and
names no joint. -/
def numbersWheel : List (String × XmlRpcValue) :=
  [("wheel_radius", .TypeDouble (1 / 20)), ("x_pos", .TypeDouble (1 / 5)),
   ("y_pos", .TypeDouble (1 / 10))]

/-- The geometry that `parseWheelGeom` stores for `jointWheel` with a transform whose
translation is `(0.2, 0.1, z)`, `|z| = 0.1`. -/
def jointWheelGeom : WheelGeom :=
  { steer_name := "steer_1"
    drive_name := ""
    dWheelXPosMM := 200
    dWheelYPosMM := 100
    dSteerDriveCoupling := 0
    dRadiusWheelMM := 100
    dDistSteerAxisToDriveWheelMM := 20 }

/-- A parameter server with a list of two wheels and a URDF model: the first wheel names its
steer joint and parses, the second wheel is an empty struct and fails. -/
def nhTwoWheels : NodeHandle :=
  { getParam := fun name =>
      if name = "wheels" then some (.TypeArray [.TypeStruct jointWheel, .TypeStruct []])
      else none
    robot_description := some model1 }

end Example

end CobOmniDrive

namespace CobTwist

variable {Ω D σ : Type} {n : Nat}

open Example

/-! ## The two constraint passes -/

theorem firstIteration_eq (K : SolverMacros) (js : JointStates n) (p : JntArrayVel n)
    (J : Mat 6 n) (cs : List (ConstraintBase Ω D σ n)) (acc : ℚ) :
    firstIteration K js p J cs acc
      = (cs.map (updated js p J),
          acc + ((dangerOnes (cs.map (updated js p J))).map (invPrio K)).sum) := by
  induction cs generalizing acc with
  | nil => simp [firstIteration, dangerOnes]
  | cons c cs ih =>
    have hstep : firstIteration K js p J (c :: cs) acc
        = (updated js p J c :: (firstIteration K js p J cs
            (if currentOf (updated js p J c) = EN_ConstraintStates.DANGER
              then acc + invPrio K (updated js p J c) else acc)).1,
          (firstIteration K js p J cs
            (if currentOf (updated js p J c) = EN_ConstraintStates.DANGER
              then acc + invPrio K (updated js p J c) else acc)).2) := rfl
    rw [hstep, ih]
    by_cases h2 : currentOf (updated js p J c) = EN_ConstraintStates.DANGER
    · simp [dangerOnes, List.filter_cons, h2, add_assoc]
    · simp [dangerOnes, List.filter_cons, h2]

theorem processState_global (K : SolverMacros) (s : StackOfTasksSolver Ω D σ n)
    (c : ConstraintBase Ω D σ n) (P : Mat n n) (ps : Vec n) (w : ℚ) (g : Vec n) :
    (processState K s c P ps w g).1.global_constraint_state_
      = sevMax s.global_constraint_state_ (currentOf c) := by
  simp [processState, sevMax, currentOf]

theorem processState_fields (K : SolverMacros) (s : StackOfTasksSolver Ω D σ n)
    (c : ConstraintBase Ω D σ n) (P : Mat n n) (ps : Vec n) (w : ℚ) (g : Vec n) :
    (processState K s c P ps w g).1.params_ = s.params_
    ∧ (processState K s c P ps w g).1.damping_ = s.damping_
    ∧ (processState K s c P ps w g).1.jacobian_data_ = s.jacobian_data_
    ∧ (processState K s c P ps w g).1.constraints_ = s.constraints_
    ∧ (processState K s c P ps w g).1.last_time_ = s.last_time_
    ∧ (processState K s c P ps w g).1.in_cart_vel_damping_ = s.in_cart_vel_damping_ := by
  simp [processState]

theorem secondIteration_fields (K : SolverMacros) (P : Mat n n) (ps : Vec n) (w : ℚ)
    (cs : List (ConstraintBase Ω D σ n)) (s : StackOfTasksSolver Ω D σ n) (g : Vec n) :
    (secondIteration K P ps w cs s g).1.params_ = s.params_
    ∧ (secondIteration K P ps w cs s g).1.damping_ = s.damping_
    ∧ (secondIteration K P ps w cs s g).1.jacobian_data_ = s.jacobian_data_
    ∧ (secondIteration K P ps w cs s g).1.constraints_ = s.constraints_
    ∧ (secondIteration K P ps w cs s g).1.last_time_ = s.last_time_
    ∧ (secondIteration K P ps w cs s g).1.in_cart_vel_damping_ = s.in_cart_vel_damping_ := by
  induction cs generalizing s g with
  | nil => simp [secondIteration]
  | cons c cs ih =>
    simp only [secondIteration]
    obtain ⟨h1, h2, h3, h4, h5, h6⟩ := ih (processState K s c P ps w g).1
      (processState K s c P ps w g).2
    obtain ⟨k1, k2, k3, k4, k5, k6⟩ := processState_fields K s c P ps w g
    exact ⟨h1.trans k1, h2.trans k2, h3.trans k3, h4.trans k4, h5.trans k5, h6.trans k6⟩

theorem secondIteration_global (K : SolverMacros) (P : Mat n n) (ps : Vec n) (w : ℚ)
    (cs : List (ConstraintBase Ω D σ n)) (s : StackOfTasksSolver Ω D σ n) (g : Vec n) :
    (secondIteration K P ps w cs s g).1.global_constraint_state_
      = (cs.map currentOf).foldl sevMax s.global_constraint_state_ := by
  induction cs generalizing s g with
  | nil => simp [secondIteration]
  | cons c cs ih =>
    simp only [secondIteration, List.map_cons, List.foldl_cons]
    rw [ih, processState_global]

/-! ## Severity maximum -/

theorem sevMax_assoc (a b c : EN_ConstraintStates) :
    sevMax (sevMax a b) c = sevMax a (sevMax b c) := by
  cases a <;> cases b <;> cases c <;> rfl

theorem sevMax_normal_left (a : EN_ConstraintStates) :
    sevMax EN_ConstraintStates.NORMAL a = a := by
  cases a <;> rfl

theorem foldl_sevMax (l : List EN_ConstraintStates) (a : EN_ConstraintStates) :
    l.foldl sevMax a = sevMax a (maxSeverity l) := by
  induction l generalizing a with
  | nil => cases a <;> rfl
  | cons x l ih =>
    simp only [List.foldl_cons, maxSeverity, List.foldr_cons]
    rw [ih, sevMax_assoc]
    rfl

theorem le_maxSeverity (l : List EN_ConstraintStates) (x : EN_ConstraintStates) (hx : x ∈ l) :
    x.toNat ≤ (maxSeverity l).toNat := by
  induction l with
  | nil => cases hx
  | cons y l ih =>
    have hstep : maxSeverity (y :: l) = sevMax y (maxSeverity l) := rfl
    rw [hstep]
    rcases List.mem_cons.mp hx with h | h
    · subst h
      unfold sevMax
      split_ifs with h1
      · exact Nat.le_of_lt h1
      · exact Nat.le_refl _
    · have := ih h
      unfold sevMax
      split_ifs with h1
      · exact this
      · omega

theorem maxSeverity_mem (l : List EN_ConstraintStates) :
    maxSeverity l = EN_ConstraintStates.NORMAL ∨ maxSeverity l ∈ l := by
  induction l with
  | nil => exact Or.inl rfl
  | cons y l ih =>
    have hstep : maxSeverity (y :: l) = sevMax y (maxSeverity l) := rfl
    rw [hstep]
    unfold sevMax
    split_ifs with h1
    · rcases ih with h | h
      · rw [h] at h1
        exact absurd h1 (Nat.not_lt_zero _)
      · exact Or.inr (List.mem_cons_of_mem _ h)
    · exact Or.inr (List.mem_cons_self _ _)

theorem maxSeverity_critical_iff (l : List EN_ConstraintStates) :
    maxSeverity l = EN_ConstraintStates.CRITICAL ↔ EN_ConstraintStates.CRITICAL ∈ l := by
  constructor
  · intro h
    rcases maxSeverity_mem l with h1 | h1
    · rw [h] at h1
      cases h1
    · rw [h] at h1
      exact h1
  · intro h
    have h1 := le_maxSeverity l _ h
    revert h1
    cases maxSeverity l <;> simp [EN_ConstraintStates.toNat]

/-! ## What one call of `solve` leaves in the solver -/

theorem solve_constraints (K : SolverMacros) (pinv_calc_ : PInvCalculator Ω D n)
    (s : StackOfTasksSolver Ω D σ n) (v : Vec 6) (js : JointStates n) (now1 now2 : ℚ) :
    (solve K pinv_calc_ s v js now1 now2).solver.constraints_
      = s.constraints_.map
          (updated js (solve K pinv_calc_ s v js now1 now2).predict_jnts_vel s.jacobian_data_) := by
  simp only [solve]
  rw [(secondIteration_fields _ _ _ _ _ _ _).2.2.2.1]
  simp only [firstIteration_eq]

theorem solve_global (K : SolverMacros) (pinv_calc_ : PInvCalculator Ω D n)
    (s : StackOfTasksSolver Ω D σ n) (v : Vec 6) (js : JointStates n) (now1 now2 : ℚ) :
    (solve K pinv_calc_ s v js now1 now2).solver.global_constraint_state_
      = maxSeverity ((solve K pinv_calc_ s v js now1 now2).solver.constraints_.map currentOf) := by
  rw [solve_constraints]
  simp only [solve]
  rw [secondIteration_global, foldl_sevMax, sevMax_normal_left]
  simp only [firstIteration_eq]

theorem solve_damping (K : SolverMacros) (pinv_calc_ : PInvCalculator Ω D n)
    (s : StackOfTasksSolver Ω D σ n) (v : Vec 6) (js : JointStates n) (now1 now2 : ℚ) :
    (solve K pinv_calc_ s v js now1 now2).solver.in_cart_vel_damping_
      = updateDamping K (solve K pinv_calc_ s v js now1 now2).solver.global_constraint_state_
          s.in_cart_vel_damping_ := by
  simp only [solve]
  rw [(secondIteration_fields _ _ _ _ _ _ _).2.2.2.2.2]

theorem solve_inv_sum (K : SolverMacros) (pinv_calc_ : PInvCalculator Ω D n)
    (s : StackOfTasksSolver Ω D σ n) (v : Vec 6) (js : JointStates n) (now1 now2 : ℚ) :
    (solve K pinv_calc_ s v js now1 now2).inv_sum_of_prionums
      = ((dangerOnes (solve K pinv_calc_ s v js now1 now2).solver.constraints_).map
          (invPrio K)).sum := by
  rw [solve_constraints]
  simp only [solve, firstIteration_eq, zero_add]

theorem anyCritical_iff (cs : List (ConstraintBase Ω D σ n)) :
    anyCritical cs = true ↔ maxSeverity (cs.map currentOf) = EN_ConstraintStates.CRITICAL := by
  rw [maxSeverity_critical_iff]
  simp [anyCritical, List.any_eq_true]

theorem anyCritical_false_iff (cs : List (ConstraintBase Ω D σ n)) :
    anyCritical cs = false ↔ maxSeverity (cs.map currentOf) ≠ EN_ConstraintStates.CRITICAL := by
  rw [Ne, ← anyCritical_iff]
  simp

/-- The counter after a cycle with a `CRITICAL` constraint. -/
theorem solve_damping_critical (K : SolverMacros) (pinv_calc_ : PInvCalculator Ω D n)
    (s : StackOfTasksSolver Ω D σ n) (v : Vec 6) (js : JointStates n) (now1 now2 : ℚ)
    (h : anyCritical (solve K pinv_calc_ s v js now1 now2).solver.constraints_ = true) :
    (solve K pinv_calc_ s v js now1 now2).solver.in_cart_vel_damping_ = K.START_CNT := by
  rw [solve_damping, solve_global, (anyCritical_iff _).mp h]
  simp [updateDamping]

/-- The counter after a cycle without a `CRITICAL` constraint. -/
theorem solve_damping_noncritical (K : SolverMacros) (pinv_calc_ : PInvCalculator Ω D n)
    (s : StackOfTasksSolver Ω D σ n) (v : Vec 6) (js : JointStates n) (now1 now2 : ℚ)
    (h : anyCritical (solve K pinv_calc_ s v js now1 now2).solver.constraints_ = false) :
    (solve K pinv_calc_ s v js now1 now2).solver.in_cart_vel_damping_
      = if s.in_cart_vel_damping_ > 1 then s.in_cart_vel_damping_ - 1 else 1 := by
  rw [solve_damping, solve_global]
  have h1 := (anyCritical_false_iff _).mp h
  simp only [updateDamping]
  rw [if_neg (fun h2 => h1 h2.symm)]

/-- A whole-number counter stays a whole number `≥ 1` when the start count is one. -/
theorem solve_damping_whole (K : SolverMacros) (pinv_calc_ : PInvCalculator Ω D n)
    (s : StackOfTasksSolver Ω D σ n) (v : Vec 6) (js : JointStates n) (now1 now2 : ℚ)
    (N : ℕ) (hN : 1 ≤ N) (hK : K.START_CNT = N)
    (M : ℕ) (hM : 1 ≤ M) (hs : s.in_cart_vel_damping_ = M) :
    ∃ M1 : ℕ, 1 ≤ M1
      ∧ (solve K pinv_calc_ s v js now1 now2).solver.in_cart_vel_damping_ = M1 := by
  cases h : anyCritical (solve K pinv_calc_ s v js now1 now2).solver.constraints_
  · rw [solve_damping_noncritical K pinv_calc_ s v js now1 now2 h, hs]
    by_cases h2 : (M : ℚ) > 1
    · rw [if_pos h2]
      have h3 : 1 < M := by exact_mod_cast h2
      refine ⟨M - 1, by omega, ?_⟩
      rw [Nat.cast_sub hM]
      simp
    · rw [if_neg h2]
      exact ⟨1, le_refl _, by simp⟩
  · rw [solve_damping_critical K pinv_calc_ s v js now1 now2 h, hK]
    exact ⟨N, hN, rfl⟩

/-- With a whole-number start count, a whole-number counter stays one over any run. -/
theorem runCycles_whole (K : SolverMacros) (pinv_calc_ : PInvCalculator Ω D n)
    (N : ℕ) (hN : 1 ≤ N) (hK : K.START_CNT = N) (inputs : List (CycleInput n))
    (s : StackOfTasksSolver Ω D σ n) (M : ℕ) (hM : 1 ≤ M) (hs : s.in_cart_vel_damping_ = M) :
    ∃ M1 : ℕ, 1 ≤ M1 ∧ (runCycles K pinv_calc_ s inputs).in_cart_vel_damping_ = M1 := by
  induction inputs generalizing s M with
  | nil => exact ⟨M, hM, hs⟩
  | cons i rest ih =>
    obtain ⟨M1, hM1, h1⟩ := solve_damping_whole K pinv_calc_
      { s with jacobian_data_ := i.jacobian } i.in_cart_velocities i.joint_states i.now1 i.now2
      N hN hK M hM hs
    exact ih _ M1 hM1 h1

/-- Closed form of the counter over a run without CRITICAL cycles. -/
theorem runCycles_decay (K : SolverMacros) (pinv_calc_ : PInvCalculator Ω D n)
    (inputs : List (CycleInput n)) (s : StackOfTasksSolver Ω D σ n) (N : ℕ) (hN : 1 ≤ N)
    (hs : s.in_cart_vel_damping_ = N)
    (hrun : noCriticalRun K pinv_calc_ s inputs = true) :
    (runCycles K pinv_calc_ s inputs).in_cart_vel_damping_
      = max ((N : ℚ) - inputs.length) 1 := by
  induction inputs generalizing s N with
  | nil =>
    have : (1 : ℚ) ≤ N := by exact_mod_cast hN
    simp [runCycles, hs, this]
  | cons i rest ih =>
    simp only [noCriticalRun, Bool.and_eq_true, Bool.not_eq_true'] at hrun
    have h1 : (cycleStep K pinv_calc_ s i).solver.in_cart_vel_damping_
        = if s.in_cart_vel_damping_ > 1 then s.in_cart_vel_damping_ - 1 else 1 :=
      solve_damping_noncritical K pinv_calc_
        { s with jacobian_data_ := i.jacobian } i.in_cart_velocities i.joint_states i.now1 i.now2
        hrun.1
    simp only [runCycles, List.length_cons, Nat.cast_add, Nat.cast_one]
    by_cases h2 : 1 < N
    · have h3 : (cycleStep K pinv_calc_ s i).solver.in_cart_vel_damping_ = ((N - 1 : ℕ) : ℚ) := by
        have : (1 : ℚ) < N := by exact_mod_cast h2
        rw [h1, hs, if_pos this, Nat.cast_sub hN]
        simp
      rw [ih _ (N - 1) (by omega) h3 hrun.2, Nat.cast_sub hN]
      congr 1
      simp
      ring
    · have hN1 : N = 1 := by omega
      subst hN1
      have h3 : (cycleStep K pinv_calc_ s i).solver.in_cart_vel_damping_ = ((1 : ℕ) : ℚ) := by
        rw [h1, hs]
        simp
      rw [ih _ 1 (le_refl _) h3 hrun.2]
      have hL : (0 : ℚ) ≤ (rest.length : ℚ) := by positivity
      rw [max_eq_right (by simp), max_eq_right (by simp; linarith)]

theorem processState_gradient (K : SolverMacros) (s : StackOfTasksSolver Ω D σ n)
    (c : ConstraintBase Ω D σ n) (P : Mat n n) (ps : Vec n) (w : ℚ) (g : Vec n) :
    (processState K s c P ps w g).2
      = if currentOf c = EN_ConstraintStates.DANGER then g + gradientTerm K P ps w c else g := by
  unfold processState gradientTerm invPrio currentOf
  by_cases hD : (c.getState c.self).getCurrent = EN_ConstraintStates.DANGER
  · cases hT : (c.getState c.self).isTransition <;> simp [hT, hD]
  · by_cases hC : (c.getState c.self).getCurrent = EN_ConstraintStates.CRITICAL
    · cases hT : (c.getState c.self).isTransition <;> simp [hT, hC]
    · cases hT : (c.getState c.self).isTransition <;> simp [hT, hD, hC]

theorem secondIteration_gradient (K : SolverMacros) (P : Mat n n) (ps : Vec n) (w : ℚ)
    (cs : List (ConstraintBase Ω D σ n)) (s : StackOfTasksSolver Ω D σ n) (g : Vec n) :
    (secondIteration K P ps w cs s g).2
      = g + ((dangerOnes cs).map (gradientTerm K P ps w)).sum := by
  induction cs generalizing s g with
  | nil => simp [secondIteration, dangerOnes]
  | cons c cs ih =>
    simp only [secondIteration]
    rw [ih, processState_gradient]
    by_cases h : currentOf c = EN_ConstraintStates.DANGER
    · simp [dangerOnes, List.filter_cons, h, add_assoc]
    · simp [dangerOnes, List.filter_cons, h]

theorem solve_particular (K : SolverMacros) (pinv_calc_ : PInvCalculator Ω D n)
    (s : StackOfTasksSolver Ω D σ n) (v : Vec 6) (js : JointStates n) (now1 now2 : ℚ) :
    (solve K pinv_calc_ s v js now1 now2).particular_solution
      = (pinv_calc_ s.params_ s.damping_ 6 s.jacobian_data_).mulVec v := rfl

theorem solve_gradient (K : SolverMacros) (pinv_calc_ : PInvCalculator Ω D n)
    (s : StackOfTasksSolver Ω D σ n) (v : Vec 6) (js : JointStates n) (now1 now2 : ℚ) :
    (solve K pinv_calc_ s v js now1 now2).sum_of_gradient
      = s.params_.k_H •
          ((dangerOnes (solve K pinv_calc_ s v js now1 now2).solver.constraints_).map
            (gradientTerm K (projectorOf pinv_calc_ s)
              (solve K pinv_calc_ s v js now1 now2).particular_solution
              (solve K pinv_calc_ s v js now1 now2).inv_sum_of_prionums)).sum := by
  rw [solve_constraints]
  simp only [solve]
  rw [secondIteration_gradient, (secondIteration_fields _ _ _ _ _ _ _).1]
  simp only [firstIteration_eq, zero_add, projectorOf]

theorem invPrio_pos (K : SolverMacros) (hZ : 0 ≤ K.ZERO_THRESHOLD) (hD : 0 < K.DIV0_SAFE)
    (c : ConstraintBase Ω D σ n) : 0 < invPrio K c := by
  unfold invPrio
  split_ifs with h
  · exact one_div_pos.mpr (lt_of_le_of_lt hZ h)
  · exact one_div_pos.mpr hD

theorem sum_invPrio_pos (K : SolverMacros) (hZ : 0 ≤ K.ZERO_THRESHOLD) (hD : 0 < K.DIV0_SAFE)
    (cs : List (ConstraintBase Ω D σ n)) (c : ConstraintBase Ω D σ n) (hc : c ∈ cs) :
    0 < (cs.map (invPrio K)).sum := by
  induction cs with
  | nil => cases hc
  | cons d cs ih =>
    simp only [List.map_cons, List.sum_cons]
    have hd := invPrio_pos K hZ hD d
    rcases List.mem_cons.mp hc with h | h
    · have : 0 ≤ (cs.map (invPrio K)).sum :=
        List.sum_nonneg (fun x hx => by
          obtain ⟨e, _, rfl⟩ := List.mem_map.mp hx
          exact le_of_lt (invPrio_pos K hZ hD e))
      linarith
    · have := ih h
      linarith

theorem processState_stack_critical (K : SolverMacros) (s : StackOfTasksSolver Ω D σ n)
    (c : ConstraintBase Ω D σ n) (P : Mat n n) (ps : Vec n) (w : ℚ) (g : Vec n)
    (hC : currentOf c = EN_ConstraintStates.CRITICAL) :
    (processState K s c P ps w g).1.task_stack_controller_
      = if (c.getState c.self).isTransition = true then
          TaskStackController.activateTask c.getTaskId
            (TaskStackController.addTask (scaledTask c P ps) s.task_stack_controller_)
        else TaskStackController.addTask (scaledTask c P ps) s.task_stack_controller_ := by
  have hC1 : (c.getState c.self).getCurrent = EN_ConstraintStates.CRITICAL := hC
  unfold processState scaledTask
  cases hT : (c.getState c.self).isTransition <;> simp [hT, hC1]

theorem processState_stack_noncritical (K : SolverMacros) (s : StackOfTasksSolver Ω D σ n)
    (c : ConstraintBase Ω D σ n) (P : Mat n n) (ps : Vec n) (w : ℚ) (g : Vec n)
    (hC : currentOf c ≠ EN_ConstraintStates.CRITICAL) :
    (processState K s c P ps w g).1.task_stack_controller_
      = if (c.getState c.self).isTransition = true then
          TaskStackController.deactivateTask c.getTaskId s.task_stack_controller_
        else s.task_stack_controller_ := by
  have hC1 : ¬ (c.getState c.self).getCurrent = EN_ConstraintStates.CRITICAL := hC
  unfold processState
  cases hT : (c.getState c.self).isTransition <;>
    by_cases hD : (c.getState c.self).getCurrent = EN_ConstraintStates.DANGER <;>
    simp [hT, hC1, hD]

theorem addTask_of_present (t : Task Ω D n) (tasks : TaskStackController Ω D n)
    (h : ∃ u ∈ tasks, u.id_ = t.id_) :
    TaskStackController.addTask t tasks
      = tasks.map (fun u => if u.id_ = t.id_ then { t with is_active_ := u.is_active_ } else u) := by
  unfold TaskStackController.addTask
  rw [if_pos]
  simpa [List.any_eq_true] using h

theorem addTask_of_absent (t : Task Ω D n) (tasks : TaskStackController Ω D n)
    (h : ¬ ∃ u ∈ tasks, u.id_ = t.id_) :
    TaskStackController.addTask t tasks = TaskStackController.insertByPrio t tasks := by
  unfold TaskStackController.addTask
  rw [if_neg]
  simpa [List.any_eq_true] using h

theorem mem_insertByPrio (t u : Task Ω D n) (tasks : List (Task Ω D n)) :
    u ∈ TaskStackController.insertByPrio t tasks ↔ u = t ∨ u ∈ tasks := by
  induction tasks with
  | nil => simp [TaskStackController.insertByPrio]
  | cons x xs ih =>
    unfold TaskStackController.insertByPrio
    split_ifs
    · simp
    · simp only [List.mem_cons, ih]
      tauto

theorem addTask_keeps_flags (t : Task Ω D n) (tasks : TaskStackController Ω D n)
    (h : ∃ u ∈ tasks, u.id_ = t.id_) :
    (TaskStackController.addTask t tasks).map (fun u => (u.id_, u.is_active_))
      = tasks.map (fun u => (u.id_, u.is_active_)) := by
  rw [addTask_of_present t tasks h, List.map_map]
  apply List.map_congr_left
  intro u _
  by_cases hu : u.id_ = t.id_
  · simp [hu]
  · simp [hu]

theorem addTask_refreshes (t : Task Ω D n) (tasks : TaskStackController Ω D n)
    (h : ∃ u ∈ tasks, u.id_ = t.id_) :
    ∀ u ∈ TaskStackController.addTask t tasks, u.id_ = t.id_ →
      u = { t with is_active_ := u.is_active_ } := by
  rw [addTask_of_present t tasks h]
  intro u hu hid
  obtain ⟨x, _, rfl⟩ := List.mem_map.mp hu
  by_cases hx : x.id_ = t.id_
  · simp [hx]
  · rw [if_neg hx] at hid
    exact absurd hid hx

theorem hasActive_iff (task_id : String) (tasks : TaskStackController Ω D n) :
    hasActive task_id tasks = true ↔ ∃ t ∈ tasks, t.id_ = task_id ∧ t.is_active_ = true := by
  simp [hasActive, List.any_eq_true]

theorem hasActive_addTask (task_id : String) (t : Task Ω D n)
    (tasks : TaskStackController Ω D n)
    (h : hasActive task_id (TaskStackController.addTask t tasks) = true) :
    hasActive task_id tasks = true ∨ t.id_ = task_id := by
  rw [hasActive_iff] at h
  obtain ⟨u, hu, hid, hact⟩ := h
  by_cases hp : ∃ x ∈ tasks, x.id_ = t.id_
  · rw [addTask_of_present t tasks hp] at hu
    obtain ⟨x, hx, rfl⟩ := List.mem_map.mp hu
    by_cases hxt : x.id_ = t.id_
    · rw [if_pos hxt] at hid
      exact Or.inr hid
    · rw [if_neg hxt] at hid hact
      exact Or.inl ((hasActive_iff _ _).mpr ⟨x, hx, hid, hact⟩)
  · rw [addTask_of_absent t tasks hp, mem_insertByPrio] at hu
    rcases hu with rfl | hu
    · exact Or.inr hid
    · exact Or.inl ((hasActive_iff _ _).mpr ⟨u, hu, hid, hact⟩)

theorem hasActive_activateTask (task_id j : String) (tasks : TaskStackController Ω D n)
    (h : hasActive task_id (TaskStackController.activateTask j tasks) = true) :
    hasActive task_id tasks = true ∨ j = task_id := by
  rw [hasActive_iff] at h
  obtain ⟨u, hu, hid, hact⟩ := h
  obtain ⟨x, hx, rfl⟩ := List.mem_map.mp hu
  by_cases hxt : x.id_ = j
  · rw [if_pos hxt] at hid
    exact Or.inr (hxt.symm.trans hid)
  · rw [if_neg hxt] at hid hact
    exact Or.inl ((hasActive_iff _ _).mpr ⟨x, hx, hid, hact⟩)

theorem hasActive_deactivateTask (task_id j : String) (tasks : TaskStackController Ω D n)
    (h : hasActive task_id (TaskStackController.deactivateTask j tasks) = true) :
    hasActive task_id tasks = true ∧ j ≠ task_id := by
  rw [hasActive_iff] at h
  obtain ⟨u, hu, hid, hact⟩ := h
  obtain ⟨x, hx, rfl⟩ := List.mem_map.mp hu
  by_cases hxt : x.id_ = j
  · rw [if_pos hxt] at hact
    simp at hact
  · rw [if_neg hxt] at hid hact
    refine ⟨(hasActive_iff _ _).mpr ⟨x, hx, hid, hact⟩, fun hj => hxt (hid.trans hj.symm)⟩

/-- Effect of one `processState` call on the activity of the tasks with a given id, for a
constraint whose created task carries the constraint's task id. -/
theorem hasActive_processState (K : SolverMacros) (s : StackOfTasksSolver Ω D σ n)
    (c : ConstraintBase Ω D σ n) (P : Mat n n) (ps : Vec n) (w : ℚ) (g : Vec n)
    (hown : (c.createTask c.self).id_ = c.getTaskId) (task_id : String)
    (h : hasActive task_id (processState K s c P ps w g).1.task_stack_controller_ = true) :
    (c.getTaskId = task_id ∧ currentOf c = EN_ConstraintStates.CRITICAL)
    ∨ (hasActive task_id s.task_stack_controller_ = true
        ∧ (c.getTaskId = task_id → (c.getState c.self).isTransition = false
            ∨ currentOf c = EN_ConstraintStates.CRITICAL)) := by
  by_cases hC : currentOf c = EN_ConstraintStates.CRITICAL
  · rw [processState_stack_critical K s c P ps w g hC] at h
    have hid : (scaledTask c P ps).id_ = c.getTaskId := hown
    split_ifs at h with hT
    · rcases hasActive_activateTask _ _ _ h with h1 | h1
      · rcases hasActive_addTask _ _ _ h1 with h2 | h2
        · exact Or.inr ⟨h2, fun _ => Or.inr hC⟩
        · exact Or.inl ⟨hid.symm.trans h2, hC⟩
      · exact Or.inl ⟨h1, hC⟩
    · rcases hasActive_addTask _ _ _ h with h2 | h2
      · exact Or.inr ⟨h2, fun _ => Or.inr hC⟩
      · exact Or.inl ⟨hid.symm.trans h2, hC⟩
  · rw [processState_stack_noncritical K s c P ps w g hC] at h
    split_ifs at h with hT
    · obtain ⟨h1, h2⟩ := hasActive_deactivateTask _ _ _ h
      exact Or.inr ⟨h1, fun hj => absurd hj h2⟩
    · refine Or.inr ⟨h, fun _ => Or.inl ?_⟩
      simpa using hT

theorem hasActive_secondIteration (K : SolverMacros) (P : Mat n n) (ps : Vec n) (w : ℚ)
    (cs : List (ConstraintBase Ω D σ n))
    (hown : ∀ c ∈ cs, (c.createTask c.self).id_ = c.getTaskId)
    (s : StackOfTasksSolver Ω D σ n) (g : Vec n) (task_id : String)
    (h : hasActive task_id (secondIteration K P ps w cs s g).1.task_stack_controller_ = true) :
    (∃ c ∈ cs, c.getTaskId = task_id ∧ currentOf c = EN_ConstraintStates.CRITICAL)
    ∨ (hasActive task_id s.task_stack_controller_ = true
        ∧ ∀ c ∈ cs, c.getTaskId = task_id → (c.getState c.self).isTransition = false
            ∨ currentOf c = EN_ConstraintStates.CRITICAL) := by
  induction cs generalizing s g with
  | nil => exact Or.inr ⟨h, fun c hc => absurd hc (List.not_mem_nil c)⟩
  | cons c cs ih =>
    simp only [secondIteration] at h
    rcases ih (fun d hd => hown d (List.mem_cons_of_mem _ hd)) _ _ h with h1 | ⟨h1, h2⟩
    · obtain ⟨d, hd, hd2⟩ := h1
      exact Or.inl ⟨d, List.mem_cons_of_mem _ hd, hd2⟩
    · rcases hasActive_processState K s c P ps w g (hown c (List.mem_cons_self _ _)) task_id h1
        with h3 | ⟨h3, h4⟩
      · exact Or.inl ⟨c, List.mem_cons_self _ _, h3⟩
      · refine Or.inr ⟨h3, fun d hd => ?_⟩
        rcases List.mem_cons.mp hd with rfl | hd
        · exact h4
        · exact h2 d hd

theorem secondIteration_params (K : SolverMacros) (P : Mat n n) (ps : Vec n) (w : ℚ)
    (cs : List (ConstraintBase Ω D σ n)) (s : StackOfTasksSolver Ω D σ n) (g : Vec n) :
    (secondIteration K P ps w cs s g).1.params_ = s.params_ :=
  (secondIteration_fields K P ps w cs s g).1

theorem secondIteration_damping (K : SolverMacros) (P : Mat n n) (ps : Vec n) (w : ℚ)
    (cs : List (ConstraintBase Ω D σ n)) (s : StackOfTasksSolver Ω D σ n) (g : Vec n) :
    (secondIteration K P ps w cs s g).1.damping_ = s.damping_ :=
  (secondIteration_fields K P ps w cs s g).2.1

theorem secondIteration_jacobian (K : SolverMacros) (P : Mat n n) (ps : Vec n) (w : ℚ)
    (cs : List (ConstraintBase Ω D σ n)) (s : StackOfTasksSolver Ω D σ n) (g : Vec n) :
    (secondIteration K P ps w cs s g).1.jacobian_data_ = s.jacobian_data_ :=
  (secondIteration_fields K P ps w cs s g).2.2.1

/-- The task stack after `solve`: the main task added to the stack that the second pass
leaves. -/
theorem solve_stack (K : SolverMacros) (pinv_calc_ : PInvCalculator Ω D n)
    (s : StackOfTasksSolver Ω D σ n) (v : Vec 6) (js : JointStates n) (now1 now2 : ℚ) :
    (solve K pinv_calc_ s v js now1 now2).solver.task_stack_controller_
      = TaskStackController.addTask
          (mainTaskOf s (solve K pinv_calc_ s v js now1 now2).solver.in_cart_vel_damping_ v)
          (secondIteration K (projectorOf pinv_calc_ s)
            (solve K pinv_calc_ s v js now1 now2).particular_solution
            (solve K pinv_calc_ s v js now1 now2).inv_sum_of_prionums
            (solve K pinv_calc_ s v js now1 now2).solver.constraints_
            (afterFirstPass pinv_calc_ s v js now1 now2) 0).1.task_stack_controller_ := by
  rw [solve_constraints]
  simp only [solve, firstIteration_eq, secondIteration_params, secondIteration_damping,
    secondIteration_jacobian, mainTaskOf, afterFirstPass, projectorOf, predictJointStates]

theorem solve_noStaleTasks (K : SolverMacros) (pinv_calc_ : PInvCalculator Ω D n)
    (s : StackOfTasksSolver Ω D σ n) (v : Vec 6) (js : JointStates n) (now1 now2 : ℚ)
    (hids : (s.constraints_.map (fun c => c.getTaskId)).Nodup)
    (hwb : ∀ c ∈ s.constraints_, wellBehaved c)
    (hinv : noStaleTasks s) :
    noStaleTasks (solve K pinv_calc_ s v js now1 now2).solver := by
  intro c hc hmain hact
  by_contra hC
  rw [solve_stack] at hact
  have hcs := solve_constraints K pinv_calc_ s v js now1 now2
  rcases hasActive_addTask _ _ _ hact with h1 | h1
  swap
  · exact hmain h1.symm
  have hown : ∀ d ∈ (solve K pinv_calc_ s v js now1 now2).solver.constraints_,
      (d.createTask d.self).id_ = d.getTaskId := by
    intro d hd
    rw [hcs] at hd
    obtain ⟨d0, hd0, rfl⟩ := List.mem_map.mp hd
    exact (hwb d0 hd0).1 _
  have hc2 := hc
  rw [hcs] at hc2
  obtain ⟨c0, hc0, hcu⟩ := List.mem_map.mp hc2
  rcases hasActive_secondIteration K _ _ _ _ hown _ 0 c.getTaskId h1 with h2 | ⟨h2, h3⟩
  · obtain ⟨d, hd, hdid, hdC⟩ := h2
    rw [hcs] at hd
    obtain ⟨d0, hd0, hdu⟩ := List.mem_map.mp hd
    have hid : d0.getTaskId = c0.getTaskId := by
      rw [← hdu, ← hcu] at hdid
      exact hdid
    have : d0 = c0 := List.inj_on_of_nodup_map hids hd0 hc0 hid
    subst this
    rw [← hdu, hcu] at hdC
    exact hC hdC
  · rcases h3 c hc rfl with h4 | h4
    swap
    · exact hC h4
    have h2 : hasActive c.getTaskId s.task_stack_controller_ = true := h2
    have hid : c.getTaskId = c0.getTaskId := by rw [← hcu]; rfl
    have hprev : (c.getState c.self).previous_ = (c0.getState c0.self).current_ := by
      rw [← hcu]
      exact (hwb c0 hc0).2 _ _ _ _
    have hcur : (c.getState c.self).current_ = (c.getState c.self).previous_ := by
      simpa [ConstraintState.isTransition] using h4
    have h0 : currentOf c0 = EN_ConstraintStates.CRITICAL := by
      refine hinv c0 hc0 ?_ ?_
      · rw [← hid]; exact hmain
      · rw [← hid]; exact h2
    apply hC
    show (c.getState c.self).current_ = _
    rw [hcur, hprev]
    exact h0

theorem wellBehaved_updated (js : JointStates n) (p : JntArrayVel n) (J : Mat 6 n)
    (c : ConstraintBase Ω D σ n) (h : wellBehaved c) : wellBehaved (updated js p J c) := h

theorem runCycles_noStaleTasks (K : SolverMacros) (pinv_calc_ : PInvCalculator Ω D n)
    (inputs : List (CycleInput n)) (s : StackOfTasksSolver Ω D σ n)
    (hids : (s.constraints_.map (fun c => c.getTaskId)).Nodup)
    (hwb : ∀ c ∈ s.constraints_, wellBehaved c)
    (hinv : noStaleTasks s) :
    noStaleTasks (runCycles K pinv_calc_ s inputs) := by
  induction inputs generalizing s with
  | nil => exact hinv
  | cons i rest ih =>
    simp only [runCycles]
    have hcs : (cycleStep K pinv_calc_ s i).solver.constraints_
        = s.constraints_.map (updated i.joint_states
            (cycleStep K pinv_calc_ s i).predict_jnts_vel i.jacobian) :=
      solve_constraints K pinv_calc_ { s with jacobian_data_ := i.jacobian }
        i.in_cart_velocities i.joint_states i.now1 i.now2
    apply ih
    · rw [hcs, List.map_map]
      exact hids
    · intro c hc
      rw [hcs] at hc
      obtain ⟨c0, hc0, rfl⟩ := List.mem_map.mp hc
      exact wellBehaved_updated _ _ _ c0 (hwb c0 hc0)
    · exact solve_noStaleTasks K pinv_calc_ { s with jacobian_data_ := i.jacobian }
        i.in_cart_velocities i.joint_states i.now1 i.now2 hids hwb hinv

theorem activeTasks_insertByPrio (t : Task Ω D n) (tasks : List (Task Ω D n))
    (ht : t.is_active_ = true) (h : ∀ u ∈ tasks, u.is_active_ = false) :
    TaskStackController.activeTasks (TaskStackController.insertByPrio t tasks) = [t] := by
  induction tasks with
  | nil => simp [TaskStackController.insertByPrio, TaskStackController.activeTasks, ht]
  | cons x xs ih =>
    have hx : x.is_active_ = false := h x (List.mem_cons_self _ _)
    have hxs : ∀ u ∈ xs, u.is_active_ = false := fun u hu => h u (List.mem_cons_of_mem _ hu)
    have hf : List.filter (fun u : Task Ω D n => u.is_active_) xs = [] := by
      rw [List.filter_eq_nil_iff]
      intro u hu
      simp [hxs u hu]
    unfold TaskStackController.insertByPrio
    split_ifs
    · simp [TaskStackController.activeTasks, List.filter_cons, ht, hx, hf]
    · have := ih hxs
      simp only [TaskStackController.activeTasks] at this ⊢
      rw [List.filter_cons, this]
      simp [hx]

theorem activeTasks_replace_main (t : Task Ω D n) (tasks : List (Task Ω D n))
    (hid : t.id_ = mainTaskId) (ht : t.is_active_ = true)
    (h1 : ∀ u ∈ tasks, u.id_ ≠ mainTaskId → u.is_active_ = false)
    (h2 : ∀ u ∈ tasks, u.id_ = mainTaskId → u.is_active_ = true) :
    TaskStackController.activeTasks
        (tasks.map (fun u => if u.id_ = t.id_ then { t with is_active_ := u.is_active_ } else u))
      = List.replicate (tasks.filter (fun u => decide (u.id_ = mainTaskId))).length t := by
  induction tasks with
  | nil => simp [TaskStackController.activeTasks]
  | cons x xs ih =>
    have ih1 := ih (fun u hu => h1 u (List.mem_cons_of_mem _ hu))
      (fun u hu => h2 u (List.mem_cons_of_mem _ hu))
    simp only [TaskStackController.activeTasks] at ih1 ⊢
    rw [List.map_cons, List.filter_cons, ih1]
    by_cases hx : x.id_ = mainTaskId
    · have hxa := h2 x (List.mem_cons_self _ _) hx
      have hfx : (if x.id_ = t.id_ then ({ t with is_active_ := x.is_active_ } : Task Ω D n)
          else x) = t := by
        rw [if_pos (hx.trans hid.symm), hxa, ← ht]
      rw [hfx]
      simp [hx, List.filter_cons, List.replicate_succ, ht]
    · have hxa := h1 x (List.mem_cons_self _ _) hx
      simp [hx, hid, hxa, List.filter_cons]

theorem activeTasks_addTask_main (t : Task Ω D n) (tasks : TaskStackController Ω D n)
    (hid : t.id_ = mainTaskId) (ht : t.is_active_ = true) (h : onlyMainActive tasks) :
    TaskStackController.activeTasks (TaskStackController.addTask t tasks) = [t] := by
  obtain ⟨h1, h2, h3⟩ := h
  by_cases hp : ∃ u ∈ tasks, u.id_ = t.id_
  · rw [addTask_of_present t tasks hp, activeTasks_replace_main t tasks hid ht h1 h2]
    obtain ⟨u, hu, hut⟩ := hp
    have hmem : u ∈ tasks.filter (fun u => decide (u.id_ = mainTaskId)) := by
      simp [List.mem_filter, hu, hut, hid]
    have hpos : 0 < (tasks.filter (fun u => decide (u.id_ = mainTaskId))).length :=
      List.length_pos_of_mem hmem
    have : (tasks.filter (fun u => decide (u.id_ = mainTaskId))).length = 1 := by omega
    rw [this]
    rfl
  · rw [addTask_of_absent t tasks hp]
    apply activeTasks_insertByPrio t tasks ht
    intro u hu
    apply h1 u hu
    intro hum
    exact hp ⟨u, hu, hum.trans hid.symm⟩

theorem processState_normal (K : SolverMacros) (s : StackOfTasksSolver Ω D σ n)
    (c : ConstraintBase Ω D σ n) (P : Mat n n) (ps : Vec n) (w : ℚ) (g : Vec n)
    (h : c.getState c.self = ⟨EN_ConstraintStates.NORMAL, EN_ConstraintStates.NORMAL⟩) :
    (processState K s c P ps w g).1.task_stack_controller_ = s.task_stack_controller_
    ∧ (processState K s c P ps w g).2 = g := by
  constructor
  · rw [processState_stack_noncritical K s c P ps w g (by simp [currentOf, h,
      ConstraintState.getCurrent])]
    simp [h, ConstraintState.isTransition]
  · rw [processState_gradient]
    simp [currentOf, h, ConstraintState.getCurrent]

theorem secondIteration_normal (K : SolverMacros) (P : Mat n n) (ps : Vec n) (w : ℚ)
    (cs : List (ConstraintBase Ω D σ n))
    (h : ∀ c ∈ cs, c.getState c.self
      = ⟨EN_ConstraintStates.NORMAL, EN_ConstraintStates.NORMAL⟩)
    (s : StackOfTasksSolver Ω D σ n) (g : Vec n) :
    (secondIteration K P ps w cs s g).1.task_stack_controller_ = s.task_stack_controller_
    ∧ (secondIteration K P ps w cs s g).2 = g := by
  induction cs generalizing s g with
  | nil => exact ⟨rfl, rfl⟩
  | cons c cs ih =>
    simp only [secondIteration]
    obtain ⟨h1, h2⟩ := processState_normal K s c P ps w g (h c (List.mem_cons_self _ _))
    obtain ⟨h3, h4⟩ := ih (fun d hd => h d (List.mem_cons_of_mem _ hd))
      (processState K s c P ps w g).1 (processState K s c P ps w g).2
    exact ⟨h3.trans h1, h4.trans h2⟩

theorem solve_gradient_eq (K : SolverMacros) (pinv_calc_ : PInvCalculator Ω D n)
    (s : StackOfTasksSolver Ω D σ n) (v : Vec 6) (js : JointStates n) (now1 now2 : ℚ) :
    (solve K pinv_calc_ s v js now1 now2).sum_of_gradient
      = s.params_.k_H •
          (secondIteration K (projectorOf pinv_calc_ s)
            (solve K pinv_calc_ s v js now1 now2).particular_solution
            (solve K pinv_calc_ s v js now1 now2).inv_sum_of_prionums
            (solve K pinv_calc_ s v js now1 now2).solver.constraints_
            (afterFirstPass pinv_calc_ s v js now1 now2) 0).2 := by
  rw [solve_constraints]
  simp only [solve, firstIteration_eq, secondIteration_params, afterFirstPass, projectorOf,
    predictJointStates]

/-- Output of a cycle in which every constraint stays `NORMAL` and no secondary task is
active: the pseudo-inverse solution of the damped command. -/
theorem solve_all_normal (K : SolverMacros) (pinv_calc_ : PInvCalculator Ω D n)
    (s : StackOfTasksSolver Ω D σ n) (v : Vec 6) (js : JointStates n) (now1 now2 : ℚ)
    (hN : ∀ c ∈ (solve K pinv_calc_ s v js now1 now2).solver.constraints_,
      c.getState c.self = ⟨EN_ConstraintStates.NORMAL, EN_ConstraintStates.NORMAL⟩)
    (hS : onlyMainActive s.task_stack_controller_) :
    (solve K pinv_calc_ s v js now1 now2).qdots_out
      = (pinv_calc_ s.params_ s.damping_ 6 s.jacobian_data_).mulVec
          ((1 / (solve K pinv_calc_ s v js now1 now2).solver.in_cart_vel_damping_ ^ 2) • v) := by
  have hq : (solve K pinv_calc_ s v js now1 now2).qdots_out
      = (resolveStack pinv_calc_ (TaskStackController.activeTasks
            (solve K pinv_calc_ s v js now1 now2).solver.task_stack_controller_)).1
        + (resolveStack pinv_calc_ (TaskStackController.activeTasks
            (solve K pinv_calc_ s v js now1 now2).solver.task_stack_controller_)).2.mulVec
          (solve K pinv_calc_ s v js now1 now2).sum_of_gradient := rfl
  obtain ⟨h1, h2⟩ := secondIteration_normal K (projectorOf pinv_calc_ s)
    (solve K pinv_calc_ s v js now1 now2).particular_solution
    (solve K pinv_calc_ s v js now1 now2).inv_sum_of_prionums
    (solve K pinv_calc_ s v js now1 now2).solver.constraints_ hN
    (afterFirstPass pinv_calc_ s v js now1 now2) 0
  have hstk : (afterFirstPass pinv_calc_ s v js now1 now2).task_stack_controller_
      = s.task_stack_controller_ := rfl
  rw [hq, solve_gradient_eq, h2, solve_stack, h1, hstk,
    activeTasks_addTask_main _ _ rfl rfl hS]
  simp [resolveStack, resolveTask, mainTaskOf]

/-- A correction through the exact pseudo-inverse of `J_B * P`, with `P` symmetric and
`J_A * P = 0`, is invisible to `J_A`. -/
theorem mul_pinv_eq_zero {a b : Nat} (JA : Mat a n) (JB : Mat b n) (P : Mat n n)
    (X : Mat n b) (hP : P.transpose = P) (hAP : JA * P = 0)
    (h2 : X * (JB * P) * X = X) (h4 : (X * (JB * P)).transpose = X * (JB * P)) :
    JA * X = 0 := by
  have hX : X = P * (JB.transpose * X.transpose * X) := by
    calc X = X * (JB * P) * X := h2.symm
      _ = (X * (JB * P)).transpose * X := by rw [h4]
      _ = P * (JB.transpose * X.transpose * X) := by
        rw [Matrix.transpose_mul, Matrix.transpose_mul, hP]
        simp only [Matrix.mul_assoc]
  rw [hX, ← Matrix.mul_assoc, hAP, Matrix.zero_mul]

theorem gpmWeighting_pos_le_one (K : SolverMacros) (hZ : 0 ≤ K.ZERO_THRESHOLD)
    (hD : 0 < K.DIV0_SAFE) (cs : List (ConstraintBase Ω D σ n)) (c : ConstraintBase Ω D σ n)
    (hc : c ∈ cs) :
    0 < gpmWeighting K (cs.map (invPrio K)).sum c
    ∧ gpmWeighting K (cs.map (invPrio K)).sum c ≤ 1 := by
  have hS := sum_invPrio_pos K hZ hD cs c hc
  have hle : invPrio K c ≤ (cs.map (invPrio K)).sum := by
    refine List.single_le_sum (fun x hx => ?_) _ (List.mem_map_of_mem _ hc)
    obtain ⟨e, _, rfl⟩ := List.mem_map.mp hx
    exact le_of_lt (invPrio_pos K hZ hD e)
  unfold gpmWeighting
  exact ⟨div_pos (invPrio_pos K hZ hD c) hS, (div_le_one hS).mpr hle⟩

theorem gpmWeighting_sum (K : SolverMacros) (hZ : 0 ≤ K.ZERO_THRESHOLD)
    (hD : 0 < K.DIV0_SAFE) (cs : List (ConstraintBase Ω D σ n)) (hne : cs ≠ []) :
    (cs.map (gpmWeighting K (cs.map (invPrio K)).sum)).sum = 1 := by
  obtain ⟨c, hc⟩ := List.exists_mem_of_ne_nil cs hne
  have hS := sum_invPrio_pos K hZ hD cs c hc
  have h1 : cs.map (gpmWeighting K (cs.map (invPrio K)).sum)
      = cs.map (fun d => invPrio K d * ((cs.map (invPrio K)).sum)⁻¹) := by
    apply List.map_congr_left
    intro d _
    simp only [gpmWeighting, div_eq_mul_inv]
  rw [h1, List.sum_map_mul_right]
  exact mul_inv_cancel₀ (ne_of_gt hS)

theorem exactOnStack_append (pinv_calc_ : PInvCalculator Ω D n) (l1 l2 : List (Task Ω D n))
    (acc : Vec n × Mat n n) (h : exactOnStack pinv_calc_ acc (l1 ++ l2)) :
    exactOnStack pinv_calc_ acc l1
    ∧ exactOnStack pinv_calc_ (l1.foldl (resolveTask pinv_calc_) acc) l2 := by
  induction l1 generalizing acc with
  | nil => exact ⟨trivial, h⟩
  | cons t l1 ih =>
    obtain ⟨h1, h2⟩ := h
    obtain ⟨h3, h4⟩ := ih _ h2
    exact ⟨⟨h1, h3⟩, h4⟩

/-- One iteration of the active-task loop for a later task keeps task A, when the calculator
is exact for the matrix of this iteration; the correction matrix of the iteration lies in
the null space of `J_A`. -/
theorem keepsTask_resolveTask {a : Nat} (pinv_calc_ : PInvCalculator Ω D n) (JA : Mat a n)
    (vA : Vec a) (acc : Vec n × Mat n n) (t : Task Ω D n) (h : keepsTask JA vA acc)
    (hx : isExactPinv (t.task_jacobian_ * acc.2)
      (pinv_calc_ t.tcp_ t.db_ t.rows (t.task_jacobian_ * acc.2))) :
    keepsTask JA vA (resolveTask pinv_calc_ acc t)
    ∧ JA * pinv_calc_ t.tcp_ t.db_ t.rows (t.task_jacobian_ * acc.2) = 0 := by
  obtain ⟨hq, hP0, hPs⟩ := h
  obtain ⟨_, hx2, _, hx4⟩ := hx
  have hz := mul_pinv_eq_zero JA t.task_jacobian_ acc.2 _ hPs hP0 hx2 hx4
  refine ⟨⟨?_, ?_, ?_⟩, hz⟩
  · simp only [resolveTask]
    rw [Matrix.mulVec_add, hq, Matrix.mulVec_mulVec, hz, Matrix.zero_mulVec, add_zero]
  · simp only [resolveTask]
    rw [Matrix.mul_sub, hP0, ← Matrix.mul_assoc, hz, Matrix.zero_mul, sub_zero]
  · simp only [resolveTask]
    rw [Matrix.transpose_sub, hPs, hx4]

theorem keepsTask_foldl {a : Nat} (pinv_calc_ : PInvCalculator Ω D n) (JA : Mat a n)
    (vA : Vec a) (l : List (Task Ω D n)) (acc : Vec n × Mat n n) (h : keepsTask JA vA acc)
    (hx : exactOnStack pinv_calc_ acc l) :
    keepsTask JA vA (l.foldl (resolveTask pinv_calc_) acc) := by
  induction l generalizing acc with
  | nil => exact h
  | cons t l ih =>
    obtain ⟨h1, h2⟩ := hx
    exact ih _ (keepsTask_resolveTask pinv_calc_ JA vA acc t h h1).1 h2

/-- The first iteration of the loop establishes task A, when the calculator is exact for
`J_A` and A is attainable. -/
theorem keepsTask_first (pinv_calc_ : PInvCalculator Ω D n) (A : Task Ω D n)
    (hx : isExactPinv (A.task_jacobian_ * (1 : Mat n n))
      (pinv_calc_ A.tcp_ A.db_ A.rows (A.task_jacobian_ * (1 : Mat n n))))
    (hatt : A.task_jacobian_.mulVec
        ((pinv_calc_ A.tcp_ A.db_ A.rows A.task_jacobian_).mulVec A.task_) = A.task_) :
    keepsTask A.task_jacobian_ A.task_ (resolveTask pinv_calc_ (0, 1) A) := by
  rw [Matrix.mul_one] at hx
  obtain ⟨hA1, _, _, hA4⟩ := hx
  refine ⟨?_, ?_, ?_⟩
  · simp only [resolveTask, Matrix.mul_one, Matrix.mulVec_zero, sub_zero, zero_add]
    exact hatt
  · simp only [resolveTask, Matrix.mul_one]
    rw [Matrix.mul_sub, Matrix.mul_one, ← Matrix.mul_assoc, hA1, sub_self]
  · simp only [resolveTask, Matrix.mul_one]
    rw [Matrix.transpose_sub, Matrix.transpose_one, hA4]

/-- The loop state of the three-joint example after task A. -/
theorem resolveTask_stackA :
    resolveTask (pinvT 3) (0, 1) stackA
      = (fun i => if i = 0 then 3 else 0, fun i j => if i = 0 then 0 else if i = j then 1 else 0) := by
  refine Prod.ext ?_ ?_
  · funext i
    fin_cases i <;>
      simp [resolveTask, pinvT, stackA, Matrix.mulVec, Matrix.dotProduct, Fin.sum_univ_succ]
  · funext i j
    fin_cases i <;> fin_cases j <;>
      simp [resolveTask, pinvT, stackA, Matrix.mul_apply, Matrix.sub_apply, Matrix.one_apply,
        Fin.sum_univ_succ]

/-- The loop state of the three-joint example after tasks A and B. -/
theorem resolveTask_stackB :
    resolveTask (pinvT 3)
        (fun i => if i = 0 then 3 else 0, fun i j => if i = 0 then 0 else if i = j then 1 else 0) stackB
      = (fun i => if i = 0 then 3 else if i = 1 then 2 else 0,
          fun i j => if i = 2 then (if j = 2 then 1 else 0) else 0) := by
  refine Prod.ext ?_ ?_
  · funext i
    fin_cases i
    · simp [resolveTask, pinvT, stackB, Matrix.mulVec, Matrix.dotProduct, Matrix.mul_apply,
        Fin.sum_univ_succ]
    · simp [resolveTask, pinvT, stackB, Matrix.mulVec, Matrix.dotProduct, Matrix.mul_apply,
        Fin.sum_univ_succ]
      norm_num
    · simp [resolveTask, pinvT, stackB, Matrix.mulVec, Matrix.dotProduct, Matrix.mul_apply,
        Fin.sum_univ_succ]
  · funext i j
    fin_cases i <;> fin_cases j <;>
      simp [resolveTask, pinvT, stackB, Matrix.mul_apply, Matrix.sub_apply,
        Fin.sum_univ_succ]

theorem exactOnStack_example :
    exactOnStack (pinvT 3) (0, 1) [stackA, stackB, stackC] := by
  refine ⟨?_, ?_, ?_, trivial⟩
  · refine ⟨?_, ?_, ?_, ?_⟩ <;>
      (ext i j; fin_cases i <;> fin_cases j <;>
        simp [pinvT, stackA, Matrix.mul_apply, Fin.sum_univ_succ])
  · rw [resolveTask_stackA]
    refine ⟨?_, ?_, ?_, ?_⟩ <;>
      (ext i j; fin_cases i <;> fin_cases j <;>
        simp [pinvT, stackB, Matrix.mul_apply, Fin.sum_univ_succ])
  · rw [resolveTask_stackA, resolveTask_stackB]
    refine ⟨?_, ?_, ?_, ?_⟩ <;>
      (ext i j; fin_cases i <;> fin_cases j <;>
        simp [pinvT, stackC, Matrix.mul_apply, Fin.sum_univ_succ])

theorem roundHalfEven_eq_of (m : ℚ) (k : ℤ) (h : |m - k| < 1 / 2) : roundHalfEven m = k := by
  obtain ⟨h1, h2⟩ := abs_lt.mp h
  have hf1 : (⌊m⌋ : ℚ) ≤ m := Int.floor_le m
  have hf2 : m < ⌊m⌋ + 1 := Int.lt_floor_add_one m
  unfold roundHalfEven
  split_ifs with c1 c2 c3
  · have a1 : ((⌊m⌋ : ℤ) : ℚ) < (k : ℚ) + 1 := by linarith
    have a2 : (k : ℚ) < ((⌊m⌋ : ℤ) : ℚ) + 1 := by linarith
    have b1 : ⌊m⌋ < k + 1 := by exact_mod_cast a1
    have b2 : k < ⌊m⌋ + 1 := by exact_mod_cast a2
    omega
  · have a1 : ((⌊m⌋ : ℤ) : ℚ) < (k : ℚ) := by linarith
    have a2 : (k : ℚ) < ((⌊m⌋ : ℤ) : ℚ) + 2 := by linarith
    have b1 : ⌊m⌋ < k := by exact_mod_cast a1
    have b2 : k < ⌊m⌋ + 2 := by exact_mod_cast a2
    omega
  · exfalso
    have hm : m - ⌊m⌋ = 1 / 2 := le_antisymm (not_lt.mp c2) (not_lt.mp c1)
    have a1 : ((⌊m⌋ : ℤ) : ℚ) < (k : ℚ) := by linarith
    have a2 : (k : ℚ) < ((⌊m⌋ : ℤ) : ℚ) + 1 := by linarith
    have b1 : ⌊m⌋ < k := by exact_mod_cast a1
    have b2 : k < ⌊m⌋ + 1 := by exact_mod_cast a2
    omega
  · exfalso
    have hm : m - ⌊m⌋ = 1 / 2 := le_antisymm (not_lt.mp c2) (not_lt.mp c1)
    have a1 : ((⌊m⌋ : ℤ) : ℚ) < (k : ℚ) := by linarith
    have a2 : (k : ℚ) < ((⌊m⌋ : ℤ) : ℚ) + 1 := by linarith
    have b1 : ⌊m⌋ < k := by exact_mod_cast a1
    have b2 : k < ⌊m⌋ + 1 := by exact_mod_cast a2
    omega

theorem roundHalfEven_abs_sub_le (m : ℚ) : |(roundHalfEven m : ℚ) - m| ≤ 1 / 2 := by
  have hf1 : (⌊m⌋ : ℚ) ≤ m := Int.floor_le m
  have hf2 : m < ⌊m⌋ + 1 := Int.lt_floor_add_one m
  unfold roundHalfEven
  rw [abs_le]
  split_ifs with c1 c2 c3
  · constructor <;> linarith
  · push_cast
    constructor <;> linarith
  · have hm : m - ⌊m⌋ = 1 / 2 := le_antisymm (not_lt.mp c2) (not_lt.mp c1)
    constructor <;> linarith
  · have hm : m - ⌊m⌋ = 1 / 2 := le_antisymm (not_lt.mp c2) (not_lt.mp c1)
    push_cast
    constructor <;> linarith

/-- Ties go to the even integer. -/
theorem roundHalfEven_eq_of_tie (m : ℚ) (k : ℤ) (h : |m - k| = 1 / 2) (hk : k % 2 = 0) :
    roundHalfEven m = k := by
  rcases abs_eq (by norm_num : (0 : ℚ) ≤ 1 / 2) |>.mp h with h1 | h1
  · have hf : ⌊m⌋ = k := by
      rw [Int.floor_eq_iff]
      constructor <;> linarith
    unfold roundHalfEven
    rw [hf]
    have hm : m - (k : ℚ) = 1 / 2 := h1
    rw [hm]
    norm_num
    omega
  · have hf : ⌊m⌋ = k - 1 := by
      rw [Int.floor_eq_iff]
      push_cast
      constructor <;> linarith
    unfold roundHalfEven
    rw [hf]
    have hm : m - ((k - 1 : ℤ) : ℚ) = 1 / 2 := by
      push_cast
      linarith
    rw [hm]
    norm_num
    omega

/-- The value of `roundBinary64` at a number of the binade `[2^e, 2^(e+1))`. -/
theorem roundBinary64_eq_round (x : ℚ) (e : ℤ) (h1 : (2 : ℚ) ^ e ≤ x)
    (h2 : x < (2 : ℚ) ^ (e + 1)) :
    roundBinary64 x = (roundHalfEven (x * (2 : ℚ) ^ (52 - e)) : ℚ) * (2 : ℚ) ^ (e - 52) := by
  have hx : 0 < x := lt_of_lt_of_le (zpow_pos (by norm_num) e) h1
  have hlog : Int.log 2 x = e := by
    have a1 : e ≤ Int.log 2 x := (Int.zpow_le_iff_le_log (by norm_num) hx).mp (by exact_mod_cast h1)
    have a2 : Int.log 2 x < e + 1 :=
      (Int.lt_zpow_iff_log_lt (by norm_num) hx).mp (by exact_mod_cast h2)
    omega
  unfold roundBinary64
  rw [if_neg (not_lt.mpr (le_of_lt hx)), hlog]

/-- A number of the binade `[2^e, 2^(e+1))` whose scaled significand is nearer than one half
to the integer `k` is rounded to `k * 2^(e-52)`. -/
theorem roundBinary64_eq_of (x : ℚ) (e k : ℤ) (y : ℚ) (h1 : (2 : ℚ) ^ e ≤ x)
    (h2 : x < (2 : ℚ) ^ (e + 1)) (hk : |x * (2 : ℚ) ^ (52 - e) - k| < 1 / 2)
    (hy : y = k * (2 : ℚ) ^ (e - 52)) : roundBinary64 x = y := by
  rw [roundBinary64_eq_round x e h1 h2, roundHalfEven_eq_of _ k hk, hy]

/-- A number of the binade `[2^e, 2^(e+1))` whose scaled significand is half-way between two
integers is rounded to the even one, `k`. -/
theorem roundBinary64_eq_of_tie (x : ℚ) (e k : ℤ) (y : ℚ) (h1 : (2 : ℚ) ^ e ≤ x)
    (h2 : x < (2 : ℚ) ^ (e + 1)) (hk : |x * (2 : ℚ) ^ (52 - e) - k| = 1 / 2)
    (hev : k % 2 = 0) (hy : y = k * (2 : ℚ) ^ (e - 52)) : roundBinary64 x = y := by
  rw [roundBinary64_eq_round x e h1 h2, roundHalfEven_eq_of_tie _ k hk hev, hy]

/-- Relative error of `roundBinary64`: at most `2^-53`. -/
theorem roundBinary64_rel_error (x : ℚ) (hx : 0 < x) :
    (1 - 1 / 2 ^ 53) * x ≤ roundBinary64 x ∧ roundBinary64 x ≤ (1 + 1 / 2 ^ 53) * x := by
  have hle : ((2 : ℕ) : ℚ) ^ Int.log 2 x ≤ x := Int.zpow_log_le_self (by norm_num) hx
  have hle2 : (2 : ℚ) ^ Int.log 2 x ≤ x := by exact_mod_cast hle
  have hr := roundHalfEven_abs_sub_le (x * 2 ^ (52 - Int.log 2 x))
  have hp : (0 : ℚ) < 2 ^ (Int.log 2 x - 52) := zpow_pos (by norm_num) _
  have hsplit : (2 : ℚ) ^ (Int.log 2 x - 52) = 2 ^ Int.log 2 x / 2 ^ 52 := by
    rw [zpow_sub₀ (by norm_num)]
    norm_num
  have hm : x * (2 : ℚ) ^ (52 - Int.log 2 x) * 2 ^ (Int.log 2 x - 52) = x := by
    rw [mul_assoc, ← zpow_add₀ (by norm_num)]
    simp
  have hd : roundBinary64 x - x
      = ((roundHalfEven (x * 2 ^ (52 - Int.log 2 x)) : ℚ) - x * 2 ^ (52 - Int.log 2 x))
          * 2 ^ (Int.log 2 x - 52) := by
    unfold roundBinary64
    rw [if_neg (not_lt.mpr (le_of_lt hx)), sub_mul, hm]
  obtain ⟨hr1, hr2⟩ := abs_le.mp hr
  have hb : (2 : ℚ) ^ (Int.log 2 x - 52) * (1 / 2) ≤ 1 / 2 ^ 53 * x := by
    rw [hsplit]
    have : (2 : ℚ) ^ Int.log 2 x / 2 ^ 52 * (1 / 2) = 1 / 2 ^ 53 * 2 ^ Int.log 2 x := by
      norm_num
      ring
    rw [this]
    exact mul_le_mul_of_nonneg_left hle2 (by norm_num)
  have hup : roundBinary64 x - x ≤ 2 ^ (Int.log 2 x - 52) * (1 / 2) := by
    rw [hd]
    have := mul_le_mul_of_nonneg_left hr2 (le_of_lt hp)
    linarith
  have hlo : -(2 ^ (Int.log 2 x - 52) * (1 / 2)) ≤ roundBinary64 x - x := by
    rw [hd]
    have := mul_le_mul_of_nonneg_left hr1 (le_of_lt hp)
    linarith
  constructor <;> linarith

/-- A left-to-right sum of positive numbers with rounded additions stays within the factors
`(1 - u)^k` and `(1 + u)^k` of the exact sum, `k` the number of additions. -/
theorem roundedSum_bounds (fl : ℚ → ℚ) (u : ℚ) (hu0 : 0 ≤ u) (hu1 : u < 1)
    (hfl : ∀ x, 0 < x → (1 - u) * x ≤ fl x ∧ fl x ≤ (1 + u) * x)
    (l : List ℚ) (hpos : ∀ x ∈ l, 0 < x) (acc E : ℚ) (k : ℕ) (hE : 0 ≤ E)
    (hlo : (1 - u) ^ k * E ≤ acc) (hhi : acc ≤ (1 + u) ^ k * E) :
    (1 - u) ^ (k + l.length) * (E + l.sum) ≤ roundedSum fl l acc
    ∧ roundedSum fl l acc ≤ (1 + u) ^ (k + l.length) * (E + l.sum) := by
  induction l generalizing acc E k with
  | nil => simpa [roundedSum] using ⟨hlo, hhi⟩
  | cons a l ih =>
    have ha : 0 < a := hpos a (List.mem_cons_self _ _)
    have h1u : 0 < 1 - u := by linarith
    have hpk : 0 ≤ (1 - u) ^ k := pow_nonneg (le_of_lt h1u) k
    have hpk1 : (1 - u) ^ k ≤ 1 := pow_le_one₀ (le_of_lt h1u) (by linarith)
    have hqk1 : 1 ≤ (1 + u) ^ k := one_le_pow₀ (by linarith)
    have hacc : 0 ≤ acc := le_trans (mul_nonneg hpk hE) hlo
    obtain ⟨f1, f2⟩ := hfl (acc + a) (by linarith)
    have hlo2 : (1 - u) ^ (k + 1) * (E + a) ≤ fl (acc + a) := by
      have : (1 - u) ^ k * a ≤ a := by nlinarith
      have h3 : (1 - u) ^ (k + 1) * (E + a) = (1 - u) * ((1 - u) ^ k * E + (1 - u) ^ k * a) := by
        ring
      rw [h3]
      refine le_trans (mul_le_mul_of_nonneg_left ?_ (le_of_lt h1u)) f1
      linarith
    have hhi2 : fl (acc + a) ≤ (1 + u) ^ (k + 1) * (E + a) := by
      have : a ≤ (1 + u) ^ k * a := by nlinarith
      have h3 : (1 + u) ^ (k + 1) * (E + a) = (1 + u) * ((1 + u) ^ k * E + (1 + u) ^ k * a) := by
        ring
      rw [h3]
      refine le_trans f2 (mul_le_mul_of_nonneg_left ?_ (by linarith))
      linarith
    have := ih (fun x hx => hpos x (List.mem_cons_of_mem _ hx)) (fl (acc + a)) (E + a) (k + 1)
      (by linarith) hlo2 hhi2
    simp only [roundedSum, List.length_cons, List.sum_cons]
    have e1 : k + (l.length + 1) = k + 1 + l.length := by omega
    have e2 : E + (a + l.sum) = E + a + l.sum := by ring
    rw [e1, e2]
    exact this

/-- Weights `fl (a / S)` of positive numbers `a` over their rounded sum `S`: they are
positive, and they and their sum stay within rounding factors of 1. -/
theorem rounded_weights_bounds (fl : ℚ → ℚ) (u : ℚ) (hu0 : 0 ≤ u) (hu1 : u < 1)
    (hfl : ∀ x, 0 < x → (1 - u) * x ≤ fl x ∧ fl x ≤ (1 + u) * x)
    (l : List ℚ) (hpos : ∀ x ∈ l, 0 < x) (hne : l ≠ []) :
    0 < roundedSum fl l 0
    ∧ (∀ a ∈ l, 0 < fl (a / roundedSum fl l 0)
        ∧ fl (a / roundedSum fl l 0) ≤ (1 + u) / (1 - u) ^ l.length)
    ∧ (1 - u) / (1 + u) ^ l.length ≤ (l.map (fun a => fl (a / roundedSum fl l 0))).sum
    ∧ (l.map (fun a => fl (a / roundedSum fl l 0))).sum ≤ (1 + u) / (1 - u) ^ l.length := by
  have h1u : 0 < 1 - u := by linarith
  have h1p : 0 < 1 + u := by linarith
  have hpn : 0 < (1 - u) ^ l.length := pow_pos h1u _
  have hqn : 0 < (1 + u) ^ l.length := pow_pos h1p _
  obtain ⟨b1, b2⟩ := roundedSum_bounds fl u hu0 hu1 hfl l hpos 0 0 0 (le_refl _) (by simp)
    (by simp)
  simp only [zero_add] at b1 b2
  have hA : 0 < l.sum := by
    obtain ⟨a, ha⟩ := List.exists_mem_of_ne_nil l hne
    have := List.single_le_sum (fun x hx => le_of_lt (hpos x hx)) a ha
    linarith [hpos a ha]
  have hS : 0 < roundedSum fl l 0 := lt_of_lt_of_le (mul_pos hpn hA) b1
  have hAS1 : l.sum / roundedSum fl l 0 ≤ 1 / (1 - u) ^ l.length := by
    rw [div_le_div_iff₀ hS hpn]
    linarith
  have hAS2 : 1 / (1 + u) ^ l.length ≤ l.sum / roundedSum fl l 0 := by
    rw [div_le_div_iff₀ hqn hS]
    linarith
  have hw : ∀ a ∈ l, (1 - u) * (a / roundedSum fl l 0) ≤ fl (a / roundedSum fl l 0)
      ∧ fl (a / roundedSum fl l 0) ≤ (1 + u) * (a / roundedSum fl l 0) :=
    fun a ha => hfl _ (div_pos (hpos a ha) hS)
  have hsum1 : (1 - u) * (l.sum / roundedSum fl l 0)
      ≤ (l.map (fun a => fl (a / roundedSum fl l 0))).sum := by
    have e : (1 - u) * (l.sum / roundedSum fl l 0)
        = (l.map (fun a => (1 - u) * (a / roundedSum fl l 0))).sum := by
      rw [List.sum_map_mul_left]
      congr 1
      simp only [div_eq_mul_inv]
      rw [List.sum_map_mul_right]
      simp
    rw [e]
    exact List.sum_le_sum (fun a ha => (hw a ha).1)
  have hsum2 : (l.map (fun a => fl (a / roundedSum fl l 0))).sum
      ≤ (1 + u) * (l.sum / roundedSum fl l 0) := by
    have e : (1 + u) * (l.sum / roundedSum fl l 0)
        = (l.map (fun a => (1 + u) * (a / roundedSum fl l 0))).sum := by
      rw [List.sum_map_mul_left]
      congr 1
      simp only [div_eq_mul_inv]
      rw [List.sum_map_mul_right]
      simp
    rw [e]
    exact List.sum_le_sum (fun a ha => (hw a ha).2)
  refine ⟨hS, fun a ha => ⟨?_, ?_⟩, ?_, ?_⟩
  · exact lt_of_lt_of_le (mul_pos h1u (div_pos (hpos a ha) hS)) (hw a ha).1
  · have hle : a ≤ l.sum := List.single_le_sum (fun x hx => le_of_lt (hpos x hx)) a ha
    have h3 : a / roundedSum fl l 0 ≤ l.sum / roundedSum fl l 0 :=
      div_le_div_of_nonneg_right hle (le_of_lt hS)
    calc fl (a / roundedSum fl l 0) ≤ (1 + u) * (a / roundedSum fl l 0) := (hw a ha).2
      _ ≤ (1 + u) * (1 / (1 - u) ^ l.length) :=
        mul_le_mul_of_nonneg_left (le_trans h3 hAS1) (le_of_lt h1p)
      _ = (1 + u) / (1 - u) ^ l.length := by ring
  · calc (1 - u) / (1 + u) ^ l.length = (1 - u) * (1 / (1 + u) ^ l.length) := by ring
      _ ≤ (1 - u) * (l.sum / roundedSum fl l 0) :=
        mul_le_mul_of_nonneg_left hAS2 (le_of_lt h1u)
      _ ≤ _ := hsum1
  · calc (l.map (fun a => fl (a / roundedSum fl l 0))).sum
        ≤ (1 + u) * (l.sum / roundedSum fl l 0) := hsum2
      _ ≤ (1 + u) * (1 / (1 - u) ^ l.length) :=
        mul_le_mul_of_nonneg_left hAS1 (le_of_lt h1p)
      _ = (1 + u) / (1 - u) ^ l.length := by ring

theorem invSumRounded_eq (fl : ℚ → ℚ) (K : SolverMacros) (cs : List (ConstraintBase Ω D σ n))
    (acc : ℚ) :
    invSumRounded fl K cs acc
      = roundedSum fl ((dangerOnes cs).map (invPrioRounded fl K)) acc := by
  induction cs generalizing acc with
  | nil => rfl
  | cons c cs ih =>
    simp only [invSumRounded]
    rw [ih]
    by_cases h : currentOf c = EN_ConstraintStates.DANGER
    · simp [dangerOnes, List.filter_cons, h, roundedSum]
    · simp [dangerOnes, List.filter_cons, h]

theorem invPrioRounded_pos (fl : ℚ → ℚ) (u : ℚ) (hu1 : u < 1)
    (hfl : ∀ x, 0 < x → (1 - u) * x ≤ fl x ∧ fl x ≤ (1 + u) * x)
    (K : SolverMacros) (hZ : 0 ≤ K.ZERO_THRESHOLD) (hD : 0 < K.DIV0_SAFE)
    (c : ConstraintBase Ω D σ n) : 0 < invPrioRounded fl K c := by
  have h1u : 0 < 1 - u := by linarith
  unfold invPrioRounded
  split_ifs with h
  · have hx : (0 : ℚ) < 1 / c.getPriorityAsNum c.self := one_div_pos.mpr (lt_of_le_of_lt hZ h)
    exact lt_of_lt_of_le (mul_pos h1u hx) (hfl _ hx).1
  · have hx : (0 : ℚ) < 1 / K.DIV0_SAFE := one_div_pos.mpr hD
    exact lt_of_lt_of_le (mul_pos h1u hx) (hfl _ hx).1

/-- With exact arithmetic in place of the rounding, the rounded inverse priority is the one
of the embedding of `solve`. -/
theorem invPrioRounded_id (K : SolverMacros) (c : ConstraintBase Ω D σ n) :
    invPrioRounded (fun x => x) K c = invPrio K c := by
  unfold invPrioRounded invPrio
  split_ifs <;> rfl

theorem gpmWeightingRounded_id (K : SolverMacros) (w : ℚ) (c : ConstraintBase Ω D σ n) :
    gpmWeightingRounded (fun x => x) K w c = gpmWeighting K w c := by
  unfold gpmWeightingRounded gpmWeighting
  rw [invPrioRounded_id]

theorem invSumRounded_id (K : SolverMacros) (cs : List (ConstraintBase Ω D σ n)) :
    invSumRounded (fun x => x) K cs 0 = ((dangerOnes cs).map (invPrio K)).sum := by
  rw [invSumRounded_eq]
  have h2 : (dangerOnes cs).map (invPrioRounded (fun x => x) K)
      = (dangerOnes cs).map (invPrio K) :=
    List.map_congr_left (fun d _ => invPrioRounded_id K d)
  rw [h2]
  generalize (dangerOnes cs).map (invPrio K) = l
  have h3 : ∀ (l : List ℚ) (acc : ℚ), roundedSum (fun x => x) l acc = acc + l.sum := by
    intro l
    induction l with
    | nil => intro acc; simp [roundedSum]
    | cons a l ih => intro acc; simp [roundedSum, ih, add_assoc]
  rw [h3]
  simp

theorem roundHalfEven_floor_le (m : ℚ) : ⌊m⌋ ≤ roundHalfEven m ∧ roundHalfEven m ≤ ⌊m⌋ + 1 := by
  unfold roundHalfEven
  split_ifs <;> constructor <;> omega

theorem roundHalfEven_mono (m m2 : ℚ) (h : m ≤ m2) : roundHalfEven m ≤ roundHalfEven m2 := by
  rcases lt_or_eq_of_le (Int.floor_mono h) with hf | hf
  · have a1 := (roundHalfEven_floor_le m).2
    have a2 := (roundHalfEven_floor_le m2).1
    omega
  · unfold roundHalfEven
    rw [← hf]
    split_ifs <;> first | omega | (exfalso; linarith)

/-- The value of `roundBinary64` at a positive number, with the bounds of its significand. -/
theorem roundBinary64_pos_form (x : ℚ) (hx : 0 < x) :
    roundBinary64 x
        = (roundHalfEven (x * 2 ^ (52 - Int.log 2 x)) : ℚ) * 2 ^ (Int.log 2 x - 52)
    ∧ (2 : ℤ) ^ 52 ≤ roundHalfEven (x * 2 ^ (52 - Int.log 2 x))
    ∧ roundHalfEven (x * 2 ^ (52 - Int.log 2 x)) ≤ (2 : ℤ) ^ 53 := by
  have hle : ((2 : ℕ) : ℚ) ^ Int.log 2 x ≤ x := Int.zpow_log_le_self (by norm_num) hx
  have hle2 : (2 : ℚ) ^ Int.log 2 x ≤ x := by exact_mod_cast hle
  have hlt : x < ((2 : ℕ) : ℚ) ^ (Int.log 2 x + 1) := Int.lt_zpow_succ_log_self (by norm_num) x
  have hlt2 : x < (2 : ℚ) ^ (Int.log 2 x + 1) := by exact_mod_cast hlt
  have hp : (0 : ℚ) < 2 ^ (52 - Int.log 2 x) := zpow_pos (by norm_num) _
  have hm1 : (2 : ℚ) ^ 52 ≤ x * 2 ^ (52 - Int.log 2 x) := by
    have := mul_le_mul_of_nonneg_right hle2 (le_of_lt hp)
    rw [← zpow_add₀ (by norm_num)] at this
    have e : Int.log 2 x + (52 - Int.log 2 x) = 52 := by ring
    rw [e] at this
    exact_mod_cast this
  have hm2 : x * 2 ^ (52 - Int.log 2 x) < (2 : ℚ) ^ 53 := by
    have := mul_lt_mul_of_pos_right hlt2 hp
    rw [← zpow_add₀ (by norm_num)] at this
    have e : Int.log 2 x + 1 + (52 - Int.log 2 x) = 53 := by ring
    rw [e] at this
    exact_mod_cast this
  have f1 : (2 : ℤ) ^ 52 ≤ ⌊x * (2 : ℚ) ^ (52 - Int.log 2 x)⌋ := by
    rw [Int.le_floor]
    exact_mod_cast hm1
  have f2 : ⌊x * (2 : ℚ) ^ (52 - Int.log 2 x)⌋ < (2 : ℤ) ^ 53 := by
    rw [Int.floor_lt]
    exact_mod_cast hm2
  have g := roundHalfEven_floor_le (x * 2 ^ (52 - Int.log 2 x))
  refine ⟨?_, by omega, by omega⟩
  unfold roundBinary64
  rw [if_neg (not_lt.mpr (le_of_lt hx))]

/-- Rounding a binary64 value again does not change it. -/
theorem roundBinary64_idem (x : ℚ) (hx : 0 < x) :
    roundBinary64 (roundBinary64 x) = roundBinary64 x := by
  obtain ⟨hf, k1, k2⟩ := roundBinary64_pos_form x hx
  generalize roundHalfEven (x * 2 ^ (52 - Int.log 2 x)) = k at hf k1 k2
  generalize Int.log 2 x = e at hf
  have k1q : (2 : ℚ) ^ 52 ≤ (k : ℚ) := by exact_mod_cast k1
  have hpe : (0 : ℚ) < 2 ^ (e - 52) := zpow_pos (by norm_num) _
  have he : (2 : ℚ) ^ e = 2 ^ 52 * 2 ^ (e - 52) := by
    have : (2 : ℚ) ^ e = 2 ^ ((52 : ℤ) + (e - 52)) := by congr 1; ring
    rw [this, zpow_add₀ (by norm_num)]
    norm_num
  have he1 : (2 : ℚ) ^ (e + 1) = 2 ^ 53 * 2 ^ (e - 52) := by
    have : (2 : ℚ) ^ (e + 1) = 2 ^ ((53 : ℤ) + (e - 52)) := by congr 1; ring
    rw [this, zpow_add₀ (by norm_num)]
    norm_num
  have hinv : (2 : ℚ) ^ (e - 52) * 2 ^ (52 - e) = 1 := by
    rw [← zpow_add₀ (by norm_num)]
    simp
  rcases lt_or_eq_of_le k2 with hk | hk
  · have hkq : (k : ℚ) < 2 ^ 53 := by exact_mod_cast hk
    refine roundBinary64_eq_of _ e k _ ?_ ?_ ?_ hf
    · rw [hf, he]
      exact mul_le_mul_of_nonneg_right k1q (le_of_lt hpe)
    · rw [hf, he1]
      exact mul_lt_mul_of_pos_right hkq hpe
    · rw [hf, mul_assoc, hinv]
      norm_num
  · have hkq : (k : ℚ) = 2 ^ 53 := by exact_mod_cast hk
    have he2 : (2 : ℚ) ^ (e + 1 + 1) = 2 ^ 54 * 2 ^ (e - 52) := by
      have : (2 : ℚ) ^ (e + 1 + 1) = 2 ^ ((54 : ℤ) + (e - 52)) := by congr 1; ring
      rw [this, zpow_add₀ (by norm_num)]
      norm_num
    have hinv2 : (2 : ℚ) ^ (e - 52) * 2 ^ (52 - (e + 1)) = 1 / 2 := by
      rw [← zpow_add₀ (by norm_num)]
      have : e - 52 + (52 - (e + 1)) = -1 := by ring
      rw [this]
      norm_num
    refine roundBinary64_eq_of _ (e + 1) ((2 : ℤ) ^ 52) _ ?_ ?_ ?_ ?_
    · rw [hf, he1, hkq]
    · rw [hf, he2, hkq]
      exact mul_lt_mul_of_pos_right (by norm_num) hpe
    · rw [hf, hkq, mul_assoc, hinv2]
      norm_num
    · rw [hf, hkq]
      have : (2 : ℚ) ^ (e + 1 - 52) = 2 * 2 ^ (e - 52) := by
        have : (2 : ℚ) ^ (e + 1 - 52) = 2 ^ ((1 : ℤ) + (e - 52)) := by congr 1; ring
        rw [this, zpow_add₀ (by norm_num)]
        norm_num
      rw [this]
      push_cast
      ring

/-- The rounding `roundBinary64` is monotone on the positive numbers. -/
theorem roundBinary64_mono (x y : ℚ) (hx : 0 < x) (hxy : x ≤ y) :
    roundBinary64 x ≤ roundBinary64 y := by
  have hy : 0 < y := lt_of_lt_of_le hx hxy
  obtain ⟨fx, _, x2⟩ := roundBinary64_pos_form x hx
  obtain ⟨fy, y1, _⟩ := roundBinary64_pos_form y hy
  rw [fx, fy]
  rcases lt_or_eq_of_le (Int.log_mono_right hx hxy : Int.log 2 x ≤ Int.log 2 y) with hl | hl
  · have x2q : (roundHalfEven (x * 2 ^ (52 - Int.log 2 x)) : ℚ) ≤ 2 ^ 53 := by exact_mod_cast x2
    have y1q : (2 : ℚ) ^ 52 ≤ (roundHalfEven (y * 2 ^ (52 - Int.log 2 y)) : ℚ) := by
      exact_mod_cast y1
    have hpx : (0 : ℚ) < 2 ^ (Int.log 2 x - 52) := zpow_pos (by norm_num) _
    have hpy : (0 : ℚ) < 2 ^ (Int.log 2 y - 52) := zpow_pos (by norm_num) _
    have s1 : (2 : ℚ) ^ 53 * 2 ^ (Int.log 2 x - 52) = 2 ^ (Int.log 2 x + 1) := by
      have : (2 : ℚ) ^ (Int.log 2 x + 1) = 2 ^ ((53 : ℤ) + (Int.log 2 x - 52)) := by
        congr 1; ring
      rw [this, zpow_add₀ (by norm_num)]
      norm_num
    have s2 : (2 : ℚ) ^ 52 * 2 ^ (Int.log 2 y - 52) = 2 ^ Int.log 2 y := by
      have : (2 : ℚ) ^ Int.log 2 y = 2 ^ ((52 : ℤ) + (Int.log 2 y - 52)) := by
        congr 1; ring
      rw [this, zpow_add₀ (by norm_num)]
      norm_num
    have s3 : (2 : ℚ) ^ (Int.log 2 x + 1) ≤ 2 ^ Int.log 2 y :=
      zpow_le_zpow_right₀ (by norm_num) (by omega)
    calc (roundHalfEven (x * 2 ^ (52 - Int.log 2 x)) : ℚ) * 2 ^ (Int.log 2 x - 52)
        ≤ 2 ^ 53 * 2 ^ (Int.log 2 x - 52) := mul_le_mul_of_nonneg_right x2q (le_of_lt hpx)
      _ = 2 ^ (Int.log 2 x + 1) := s1
      _ ≤ 2 ^ Int.log 2 y := s3
      _ = 2 ^ 52 * 2 ^ (Int.log 2 y - 52) := s2.symm
      _ ≤ _ := mul_le_mul_of_nonneg_right y1q (le_of_lt hpy)
  · rw [← hl]
    have hp : (0 : ℚ) < 2 ^ (52 - Int.log 2 x) := zpow_pos (by norm_num) _
    have hpx : (0 : ℚ) < 2 ^ (Int.log 2 x - 52) := zpow_pos (by norm_num) _
    have hm := roundHalfEven_mono _ _ (mul_le_mul_of_nonneg_right hxy (le_of_lt hp))
    have hmq : (roundHalfEven (x * 2 ^ (52 - Int.log 2 x)) : ℚ)
        ≤ (roundHalfEven (y * 2 ^ (52 - Int.log 2 x)) : ℚ) := by exact_mod_cast hm
    exact mul_le_mul_of_nonneg_right hmq (le_of_lt hpx)

theorem roundBinary64_one : roundBinary64 1 = 1 := by
  refine roundBinary64_eq_of 1 0 ((2 : ℤ) ^ 52) 1 ?_ ?_ ?_ ?_ <;> norm_num

/-- A rounded sum is at least its start value, when rounding is monotone and leaves rounded
values alone. -/
theorem roundedSum_ge_acc (fl : ℚ → ℚ)
    (hmono : ∀ x y, 0 < x → x ≤ y → fl x ≤ fl y) (hidem : ∀ x, 0 < x → fl (fl x) = fl x)
    (l : List ℚ) (hpos : ∀ x ∈ l, 0 < x) (acc : ℚ) (hacc : 0 < acc) (hfix : fl acc = acc) :
    acc ≤ roundedSum fl l acc := by
  induction l generalizing acc with
  | nil => simp [roundedSum]
  | cons a l ih =>
    have ha : 0 < a := hpos a (List.mem_cons_self _ _)
    have h1 : acc ≤ fl (acc + a) := by
      have := hmono acc (acc + a) hacc (by linarith)
      rwa [hfix] at this
    have := ih (fun x hx => hpos x (List.mem_cons_of_mem _ hx)) (fl (acc + a))
      (lt_of_lt_of_le hacc h1) (hidem _ (by linarith))
    simp only [roundedSum]
    linarith

/-- A rounded sum of rounded positive values is at least each of them. -/
theorem roundedSum_ge_mem (fl : ℚ → ℚ)
    (hmono : ∀ x y, 0 < x → x ≤ y → fl x ≤ fl y) (hidem : ∀ x, 0 < x → fl (fl x) = fl x)
    (l : List ℚ) (hpos : ∀ x ∈ l, 0 < x) (hfix : ∀ x ∈ l, fl x = x) (acc : ℚ) (hacc : 0 ≤ acc)
    (a : ℚ) (ha : a ∈ l) : a ≤ roundedSum fl l acc := by
  induction l generalizing acc with
  | nil => simp at ha
  | cons b l ih =>
    have hb : 0 < b := hpos b (List.mem_cons_self _ _)
    have h1 : b ≤ fl (acc + b) := by
      have := hmono b (acc + b) hb (by linarith)
      rwa [hfix b (List.mem_cons_self _ _)] at this
    simp only [roundedSum]
    rcases List.mem_cons.mp ha with rfl | hmem
    · exact le_trans h1 (roundedSum_ge_acc fl hmono hidem l
        (fun x hx => hpos x (List.mem_cons_of_mem _ hx)) _ (lt_of_lt_of_le hb h1)
        (hidem _ (by linarith)))
    · exact ih (fun x hx => hpos x (List.mem_cons_of_mem _ hx))
        (fun x hx => hfix x (List.mem_cons_of_mem _ hx)) _ (le_trans (le_of_lt hb) h1) hmem

theorem invPrioRounded_fix (fl : ℚ → ℚ) (hidem : ∀ x, 0 < x → fl (fl x) = fl x)
    (K : SolverMacros) (hZ : 0 ≤ K.ZERO_THRESHOLD) (hD : 0 < K.DIV0_SAFE)
    (c : ConstraintBase Ω D σ n) : fl (invPrioRounded fl K c) = invPrioRounded fl K c := by
  unfold invPrioRounded
  split_ifs with h
  · exact hidem _ (one_div_pos.mpr (lt_of_le_of_lt hZ h))
  · exact hidem _ (one_div_pos.mpr hD)

/-- The rounded weights of the `DANGER` constraints: each one is in (0, 1], and their sum is
1 up to the rounding factors of the additions and divisions. -/
theorem gpmWeightingRounded_bounds (fl : ℚ → ℚ) (u : ℚ) (hu0 : 0 ≤ u) (hu1 : u < 1)
    (hfl : ∀ x, 0 < x → (1 - u) * x ≤ fl x ∧ fl x ≤ (1 + u) * x)
    (hmono : ∀ x y, 0 < x → x ≤ y → fl x ≤ fl y) (hidem : ∀ x, 0 < x → fl (fl x) = fl x)
    (hone : fl 1 = 1)
    (K : SolverMacros) (hZ : 0 ≤ K.ZERO_THRESHOLD) (hD : 0 < K.DIV0_SAFE)
    (cs : List (ConstraintBase Ω D σ n)) (hne : dangerOnes cs ≠ []) :
    (∀ c ∈ dangerOnes cs,
      0 < gpmWeightingRounded fl K (invSumRounded fl K cs 0) c
      ∧ gpmWeightingRounded fl K (invSumRounded fl K cs 0) c ≤ 1)
    ∧ (1 - u) / (1 + u) ^ (dangerOnes cs).length
        ≤ ((dangerOnes cs).map (gpmWeightingRounded fl K (invSumRounded fl K cs 0))).sum
    ∧ ((dangerOnes cs).map (gpmWeightingRounded fl K (invSumRounded fl K cs 0))).sum
        ≤ (1 + u) / (1 - u) ^ (dangerOnes cs).length := by
  rw [invSumRounded_eq]
  have hpos : ∀ x ∈ (dangerOnes cs).map (invPrioRounded fl K), 0 < x := by
    intro x hx
    obtain ⟨c, _, rfl⟩ := List.mem_map.mp hx
    exact invPrioRounded_pos fl u hu1 hfl K hZ hD c
  have hfix : ∀ x ∈ (dangerOnes cs).map (invPrioRounded fl K), fl x = x := by
    intro x hx
    obtain ⟨c, _, rfl⟩ := List.mem_map.mp hx
    exact invPrioRounded_fix fl hidem K hZ hD c
  have hne2 : (dangerOnes cs).map (invPrioRounded fl K) ≠ [] := by
    simpa using hne
  obtain ⟨hS, hw, hs1, hs2⟩ := rounded_weights_bounds fl u hu0 hu1 hfl _ hpos hne2
  have hmap : (dangerOnes cs).map
        (gpmWeightingRounded fl K
          (roundedSum fl ((dangerOnes cs).map (invPrioRounded fl K)) 0))
      = ((dangerOnes cs).map (invPrioRounded fl K)).map
          (fun a => fl (a / roundedSum fl ((dangerOnes cs).map (invPrioRounded fl K)) 0)) := by
    rw [List.map_map]
    rfl
  rw [hmap]
  rw [List.length_map] at hs1 hs2
  refine ⟨fun c hc => ?_, hs1, hs2⟩
  have hmem : invPrioRounded fl K c ∈ (dangerOnes cs).map (invPrioRounded fl K) :=
    List.mem_map_of_mem _ hc
  refine ⟨(hw _ hmem).1, ?_⟩
  have hle := roundedSum_ge_mem fl hmono hidem _ hpos hfix 0 (le_refl _) _ hmem
  have hq : invPrioRounded fl K c
      / roundedSum fl ((dangerOnes cs).map (invPrioRounded fl K)) 0 ≤ 1 :=
    (div_le_one hS).mpr hle
  have := hmono _ 1 (div_pos (hpos _ hmem) hS) hq
  rw [hone] at this
  exact this

theorem roundedWeights_eq (fl : ℚ → ℚ) (K : SolverMacros)
    (cs : List (ConstraintBase Ω D σ n)) :
    roundedWeights fl K cs
      = ((dangerOnes cs).map (invPrioRounded fl K)).map
          (fun a => fl (a / roundedSum fl ((dangerOnes cs).map (invPrioRounded fl K)) 0)) := by
  unfold roundedWeights
  rw [invSumRounded_eq, List.map_map]
  rfl

theorem invPrioRounded_prio123 (fl : ℚ → ℚ) :
    (dangerOnes (solve macros40 (pinvT 1) prio123 twistX rest1 0 0).solver.constraints_).map
        (invPrioRounded fl macros40)
      = [fl (1 / 1), fl (1 / 2), fl (1 / 3)] := by
  rw [solve_constraints]
  simp [prio123, solver1, dangerOnes, updated, scripted, currentOf, ConstraintState.getCurrent,
    invPrioRounded, macros40]
  norm_num

/-- The binary64 weights of the three `DANGER` constraints with the priority numbers
1, 2 and 3. -/
theorem roundedWeights_prio123 :
    roundedWeights roundBinary64 macros40
        (solve macros40 (pinvT 1) prio123 twistX rest1 0 0).solver.constraints_
      = [4913017775313269 / 9007199254740992, 4913017775313269 / 18014398509481984,
         3275345183542179 / 18014398509481984] := by
  have v0 : roundBinary64 (1 / 1) = 1 :=
    roundBinary64_eq_of _ 0 4503599627370496 _ (by norm_num) (by norm_num)
      (by norm_num [abs_lt]) (by norm_num)
  have v1 : roundBinary64 (1 / 2) = 1 / 2 :=
    roundBinary64_eq_of _ (-1) 4503599627370496 _ (by norm_num) (by norm_num)
      (by norm_num [abs_lt]) (by norm_num)
  have v2 : roundBinary64 (1 / 3) = 6004799503160661 / 18014398509481984 :=
    roundBinary64_eq_of _ (-2) 6004799503160661 _ (by norm_num) (by norm_num)
      (by norm_num [abs_lt]) (by norm_num)
  have s0 : roundBinary64 (0 + 1) = 1 :=
    roundBinary64_eq_of _ 0 4503599627370496 _ (by norm_num) (by norm_num)
      (by norm_num [abs_lt]) (by norm_num)
  have s1 : roundBinary64 (1 + 1 / 2) = 3 / 2 :=
    roundBinary64_eq_of _ 0 6755399441055744 _ (by norm_num) (by norm_num)
      (by norm_num [abs_lt]) (by norm_num)
  have s2 : roundBinary64 (3 / 2 + 6004799503160661 / 18014398509481984)
      = 8256599316845909 / 4503599627370496 :=
    roundBinary64_eq_of _ 0 8256599316845909 _ (by norm_num) (by norm_num)
      (by norm_num [abs_lt]) (by norm_num)
  have w0 : roundBinary64 (1 / (8256599316845909 / 4503599627370496))
      = 4913017775313269 / 9007199254740992 :=
    roundBinary64_eq_of _ (-1) 4913017775313269 _ (by norm_num) (by norm_num)
      (by norm_num [abs_lt]) (by norm_num)
  have w1 : roundBinary64 (1 / 2 / (8256599316845909 / 4503599627370496))
      = 4913017775313269 / 18014398509481984 :=
    roundBinary64_eq_of _ (-2) 4913017775313269 _ (by norm_num) (by norm_num)
      (by norm_num [abs_lt]) (by norm_num)
  have w2 : roundBinary64 (6004799503160661 / 18014398509481984 / (8256599316845909 / 4503599627370496))
      = 3275345183542179 / 18014398509481984 :=
    roundBinary64_eq_of _ (-3) 6550690367084358 _ (by norm_num) (by norm_num)
      (by norm_num [abs_lt]) (by norm_num)
  rw [roundedWeights_eq, invPrioRounded_prio123]
  simp only [roundedSum, List.map]
  rw [v0, v1, v2, s0, s1, s2, w0, w1, w2]

/-- The binary64 sum, from left to right, of the weights of `roundedWeights_prio123`. -/
theorem roundedSum_prio123 :
    roundedSum roundBinary64
        [4913017775313269 / 9007199254740992, 4913017775313269 / 18014398509481984,
         3275345183542179 / 18014398509481984] 0
      = 4503599627370497 / 4503599627370496 := by
  have t0 : roundBinary64 (0 + 4913017775313269 / 9007199254740992)
      = 4913017775313269 / 9007199254740992 :=
    roundBinary64_eq_of _ (-1) 4913017775313269 _ (by norm_num) (by norm_num)
      (by norm_num [abs_lt]) (by norm_num)
  have t1 : roundBinary64 (4913017775313269 / 9007199254740992 + 4913017775313269 / 18014398509481984)
      = 460595416435619 / 562949953421312 :=
    roundBinary64_eq_of_tie _ (-1) 7369526662969904 _ (by norm_num) (by norm_num)
      (by norm_num [abs_of_nonneg, abs_of_nonpos]) (by norm_num) (by norm_num)
  have t2 : roundBinary64 (460595416435619 / 562949953421312 + 3275345183542179 / 18014398509481984)
      = 4503599627370497 / 4503599627370496 :=
    roundBinary64_eq_of _ 0 4503599627370497 _ (by norm_num) (by norm_num)
      (by norm_num [abs_lt]) (by norm_num)
  simp only [roundedSum]
  rw [t0, t1, t2]

theorem invPrioRounded_prio357 (fl : ℚ → ℚ) :
    (dangerOnes (solve macros40 (pinvT 1) prio357 twistX rest1 0 0).solver.constraints_).map
        (invPrioRounded fl macros40)
      = [fl (1 / 3), fl (1 / 5), fl (1 / 7)] := by
  rw [solve_constraints]
  simp [prio357, solver1, dangerOnes, updated, scripted, currentOf, ConstraintState.getCurrent,
    invPrioRounded, macros40]
  norm_num

/-- The binary64 weights of the three `DANGER` constraints with the priority numbers
3, 5 and 7. -/
theorem roundedWeights_prio357 :
    roundedWeights roundBinary64 macros40
        (solve macros40 (pinvT 1) prio357 twistX rest1 0 0).solver.constraints_
      = [8880337293406611 / 18014398509481984, 5328202376043967 / 18014398509481984,
         7611717680062809 / 36028797018963968] := by
  have v0 : roundBinary64 (1 / 3) = 6004799503160661 / 18014398509481984 :=
    roundBinary64_eq_of _ (-2) 6004799503160661 _ (by norm_num) (by norm_num)
      (by norm_num [abs_lt]) (by norm_num)
  have v1 : roundBinary64 (1 / 5) = 3602879701896397 / 18014398509481984 :=
    roundBinary64_eq_of _ (-3) 7205759403792794 _ (by norm_num) (by norm_num)
      (by norm_num [abs_lt]) (by norm_num)
  have v2 : roundBinary64 (1 / 7) = 2573485501354569 / 18014398509481984 :=
    roundBinary64_eq_of _ (-3) 5146971002709138 _ (by norm_num) (by norm_num)
      (by norm_num [abs_lt]) (by norm_num)
  have s0 : roundBinary64 (0 + 6004799503160661 / 18014398509481984)
      = 6004799503160661 / 18014398509481984 :=
    roundBinary64_eq_of _ (-2) 6004799503160661 _ (by norm_num) (by norm_num)
      (by norm_num [abs_lt]) (by norm_num)
  have s1 : roundBinary64 (6004799503160661 / 18014398509481984 + 3602879701896397 / 18014398509481984)
      = 4803839602528529 / 9007199254740992 :=
    roundBinary64_eq_of _ (-1) 4803839602528529 _ (by norm_num) (by norm_num)
      (by norm_num [abs_lt]) (by norm_num)
  have s2 : roundBinary64 (4803839602528529 / 9007199254740992 + 2573485501354569 / 18014398509481984)
      = 3045291176602907 / 4503599627370496 :=
    roundBinary64_eq_of_tie _ (-1) 6090582353205814 _ (by norm_num) (by norm_num)
      (by norm_num [abs_of_nonneg, abs_of_nonpos]) (by norm_num) (by norm_num)
  have w0 : roundBinary64 (6004799503160661 / 18014398509481984 / (3045291176602907 / 4503599627370496))
      = 8880337293406611 / 18014398509481984 :=
    roundBinary64_eq_of _ (-2) 8880337293406611 _ (by norm_num) (by norm_num)
      (by norm_num [abs_lt]) (by norm_num)
  have w1 : roundBinary64 (3602879701896397 / 18014398509481984 / (3045291176602907 / 4503599627370496))
      = 5328202376043967 / 18014398509481984 :=
    roundBinary64_eq_of _ (-2) 5328202376043967 _ (by norm_num) (by norm_num)
      (by norm_num [abs_lt]) (by norm_num)
  have w2 : roundBinary64 (2573485501354569 / 18014398509481984 / (3045291176602907 / 4503599627370496))
      = 7611717680062809 / 36028797018963968 :=
    roundBinary64_eq_of _ (-3) 7611717680062809 _ (by norm_num) (by norm_num)
      (by norm_num [abs_lt]) (by norm_num)
  rw [roundedWeights_eq, invPrioRounded_prio357]
  simp only [roundedSum, List.map]
  rw [v0, v1, v2, s0, s1, s2, w0, w1, w2]

/-- The binary64 sum, from left to right, of the weights of `roundedWeights_prio357`. -/
theorem roundedSum_prio357 :
    roundedSum roundBinary64
        [8880337293406611 / 18014398509481984, 5328202376043967 / 18014398509481984,
         7611717680062809 / 36028797018963968] 0
      = 9007199254740991 / 9007199254740992 := by
  have t0 : roundBinary64 (0 + 8880337293406611 / 18014398509481984)
      = 8880337293406611 / 18014398509481984 :=
    roundBinary64_eq_of _ (-2) 8880337293406611 _ (by norm_num) (by norm_num)
      (by norm_num [abs_lt]) (by norm_num)
  have t1 : roundBinary64 (8880337293406611 / 18014398509481984 + 5328202376043967 / 18014398509481984)
      = 7104269834725289 / 9007199254740992 :=
    roundBinary64_eq_of _ (-1) 7104269834725289 _ (by norm_num) (by norm_num)
      (by norm_num [abs_lt]) (by norm_num)
  have t2 : roundBinary64 (7104269834725289 / 9007199254740992 + 7611717680062809 / 36028797018963968)
      = 9007199254740991 / 9007199254740992 :=
    roundBinary64_eq_of _ (-1) 9007199254740991 _ (by norm_num) (by norm_num)
      (by norm_num [abs_lt]) (by norm_num)
  simp only [roundedSum]
  rw [t0, t1, t2]

theorem all_danger_prio (p1 p2 p3 : ℚ) :
    ∀ c ∈ (solve macros40 (pinvT 1)
        (solver1 [scripted "a" p1 1 1 [EN_ConstraintStates.DANGER],
                  scripted "b" p2 1 1 [EN_ConstraintStates.DANGER],
                  scripted "c" p3 1 1 [EN_ConstraintStates.DANGER]])
        twistX rest1 0 0).solver.constraints_,
      currentOf c = EN_ConstraintStates.DANGER := by
  rw [solve_constraints]
  simp [solver1, updated, scripted, currentOf, ConstraintState.getCurrent]

/-! ## Claims -/

/-- C1 (amended): for every solve cycle in which every constraint's severity stays NORMAL
(current = previous = NORMAL, including the empty constraint set) and the task stack holds
no active secondary task, the joint velocity command returned by `solve` equals
pinv(J) * (in_cart_velocities / d^2), where d is the damping counter after the cycle
(c - 1.0 for a counter c > 1.0 before the cycle, else 1.0). It equals the particular
solution pinv(J) * in_cart_velocities when the counter has decayed, that is when the counter
before the cycle is at most 1.0 or equal to 2.0. -/
theorem all_normal_output_is_damped_particular (K : SolverMacros)
    (pinv_calc_ : PInvCalculator Ω D n) (s : StackOfTasksSolver Ω D σ n) (v : Vec 6)
    (js : JointStates n) (now1 now2 : ℚ)
    (hN : ∀ c ∈ (solve K pinv_calc_ s v js now1 now2).solver.constraints_,
      c.getState c.self = ⟨EN_ConstraintStates.NORMAL, EN_ConstraintStates.NORMAL⟩)
    (hS : onlyMainActive s.task_stack_controller_) :
    (solve K pinv_calc_ s v js now1 now2).qdots_out
      = (pinv_calc_ s.params_ s.damping_ 6 s.jacobian_data_).mulVec
          ((1 / (solve K pinv_calc_ s v js now1 now2).solver.in_cart_vel_damping_ ^ 2) • v)
    ∧ (solve K pinv_calc_ s v js now1 now2).solver.in_cart_vel_damping_
      = (if s.in_cart_vel_damping_ > 1 then s.in_cart_vel_damping_ - 1 else 1)
    ∧ ((s.in_cart_vel_damping_ ≤ 1 ∨ s.in_cart_vel_damping_ = 2) →
        (solve K pinv_calc_ s v js now1 now2).qdots_out
          = (solve K pinv_calc_ s v js now1 now2).particular_solution) := by
  have hnc : anyCritical (solve K pinv_calc_ s v js now1 now2).solver.constraints_ = false := by
    simp only [anyCritical, List.any_eq_false, decide_eq_true_eq]
    intro c hc
    simp [currentOf, hN c hc, ConstraintState.getCurrent]
  have hd := solve_damping_noncritical K pinv_calc_ s v js now1 now2 hnc
  have hq := solve_all_normal K pinv_calc_ s v js now1 now2 hN hS
  refine ⟨hq, hd, fun h => ?_⟩
  have h1 : (solve K pinv_calc_ s v js now1 now2).solver.in_cart_vel_damping_ = 1 := by
    rw [hd]
    rcases h with h | h
    · rw [if_neg (not_lt.mpr h)]
    · rw [h]
      norm_num
  rw [hq, h1, solve_particular]
  simp

/-- Witness for C1 (amended): identity 6x6 Jacobian, command [1,0,0,0,0,0], no constraints,
damping counter 1.0. -/
theorem all_normal_output_is_damped_particular_witness :
    (solve macros40 (pinvT 6) (solver6 1) twistX rest6 0 0).qdots_out
      = (solve macros40 (pinvT 6) (solver6 1) twistX rest6 0 0).particular_solution :=
  (all_normal_output_is_damped_particular macros40 (pinvT 6) (solver6 1) twistX rest6 0 0
    (by rw [solve_constraints]; simp [solver6])
    (by simp [onlyMainActive, solver6])).2.2 (Or.inl (by simp [solver6]))

/-- Counterexample to C1 as stated: a constraint is CRITICAL in the first cycle and NORMAL
in the second and third (START_CNT = 40). In the third cycle every constraint stays NORMAL
(current = previous = NORMAL), yet the damping counter is 38 and the returned joint velocity
is 1/1444, while the particular solution pinv(J) * in_cart_velocities is 1. -/
theorem all_normal_output_differs_while_damped :
    (∀ c ∈ (cycleStep macros40 (pinvT 1)
          (runCycles macros40 (pinvT 1) critThenNormal [input1 0, input1 0])
          (input1 0)).solver.constraints_,
        c.getState c.self = ⟨EN_ConstraintStates.NORMAL, EN_ConstraintStates.NORMAL⟩)
    ∧ (cycleStep macros40 (pinvT 1)
          (runCycles macros40 (pinvT 1) critThenNormal [input1 0, input1 0])
          (input1 0)).particular_solution 0 = 1
    ∧ (cycleStep macros40 (pinvT 1)
          (runCycles macros40 (pinvT 1) critThenNormal [input1 0, input1 0])
          (input1 0)).qdots_out 0 = 1 / 1444 := by
  have hcs : (runCycles macros40 (pinvT 1) critThenNormal [input1 0, input1 0]).constraints_
      = [{ scripted "c" 1 1 1 [] with
            self := (⟨EN_ConstraintStates.NORMAL, EN_ConstraintStates.CRITICAL⟩,
              [EN_ConstraintStates.NORMAL]) }] := by
    simp [runCycles, cycleStep, solve_constraints, critThenNormal, solver1, scripted, updated]
  have hN : ∀ c ∈ (cycleStep macros40 (pinvT 1)
          (runCycles macros40 (pinvT 1) critThenNormal [input1 0, input1 0])
          (input1 0)).solver.constraints_,
        c.getState c.self = ⟨EN_ConstraintStates.NORMAL, EN_ConstraintStates.NORMAL⟩ := by
    unfold cycleStep
    rw [solve_constraints]
    simp [hcs, scripted, updated]
  have hd : (runCycles macros40 (pinvT 1) critThenNormal
      [input1 0, input1 0]).in_cart_vel_damping_ = 39 := by
    simp [runCycles, cycleStep, solve_damping, solve_global, solve_constraints, updated,
      currentOf, scripted, critThenNormal, solver1, macros40, maxSeverity, sevMax,
      updateDamping, ConstraintState.getCurrent, EN_ConstraintStates.toNat]
    norm_num
  have hS : onlyMainActive (runCycles macros40 (pinvT 1) critThenNormal
      [input1 0, input1 0]).task_stack_controller_ := by
    simp [runCycles, cycleStep, solve_stack, solve_constraints, critThenNormal, solver1,
      scripted, updated, secondIteration, processState, currentOf, afterFirstPass,
      ConstraintState.isTransition, ConstraintState.getCurrent, onlyMainActive,
      TaskStackController.addTask, TaskStackController.activateTask,
      TaskStackController.deactivateTask,
      TaskStackController.insertByPrio, mainTaskOf, mainTaskId]
  have hp : (cycleStep macros40 (pinvT 1)
          (runCycles macros40 (pinvT 1) critThenNormal [input1 0, input1 0])
          (input1 0)).particular_solution 0 = 1 := by
    simp [cycleStep, solve_particular, input1, pinvT, jac1, twistX, Matrix.mulVec,
      Matrix.dotProduct, Fin.sum_univ_succ]
  refine ⟨hN, hp, ?_⟩
  have hq := solve_all_normal macros40 (pinvT 1)
    { runCycles macros40 (pinvT 1) critThenNormal [input1 0, input1 0] with
      jacobian_data_ := (input1 0).jacobian }
    (input1 0).in_cart_velocities (input1 0).joint_states (input1 0).now1 (input1 0).now2
    hN hS
  have hd2 : (cycleStep macros40 (pinvT 1)
          (runCycles macros40 (pinvT 1) critThenNormal [input1 0, input1 0])
          (input1 0)).solver.in_cart_vel_damping_ = 38 := by
    unfold cycleStep
    rw [solve_damping_noncritical _ _ _ _ _ _ _ (by
      simp only [anyCritical, List.any_eq_false, decide_eq_true_eq]
      intro c hc
      simp [currentOf, hN c hc, ConstraintState.getCurrent])]
    simp [hd]
    norm_num
  unfold cycleStep at hd2 ⊢
  rw [hq, hd2]
  simp [input1, pinvT, jac1, twistX, Matrix.mulVec, Matrix.dotProduct, Fin.sum_univ_succ]
  norm_num

/-- C2: priority invariant of the active-task loop. Let A be the task resolved first and
let the pseudo-inverse calculator return the exact pseudo-inverse for the matrices the loop
hands to it, and let A be attainable (J_A * pinv(J_A) * v_A = v_A). Then for every list of
active tasks resolved after A, with any Jacobians and targets, the final solution satisfies
J_A * q_final = v_A; and for every task B of that list, the running solution after B's
iteration satisfies J_A * q = v_A and B's correction matrix pinv(J_B * N), N the projector
before B's iteration, lies in the null space of J_A. -/
theorem higher_priority_task_is_kept (pinv_calc_ : PInvCalculator Ω D n) (A : Task Ω D n)
    (rest : List (Task Ω D n))
    (hex : exactOnStack pinv_calc_ (0, 1) (A :: rest))
    (hatt : A.task_jacobian_.mulVec
        ((pinv_calc_ A.tcp_ A.db_ A.rows A.task_jacobian_).mulVec A.task_) = A.task_) :
    A.task_jacobian_.mulVec (resolveStack pinv_calc_ (A :: rest)).1 = A.task_
    ∧ (∀ (before : List (Task Ω D n)) (B : Task Ω D n) (after : List (Task Ω D n)),
        rest = before ++ B :: after →
        A.task_jacobian_.mulVec (resolveStack pinv_calc_ (A :: (before ++ [B]))).1 = A.task_
        ∧ A.task_jacobian_
            * pinv_calc_ B.tcp_ B.db_ B.rows
                (B.task_jacobian_ * (resolveStack pinv_calc_ (A :: before)).2)
          = 0) := by
  obtain ⟨hA, hrest⟩ := hex
  have h1 := keepsTask_first pinv_calc_ A hA hatt
  constructor
  · exact (keepsTask_foldl pinv_calc_ _ _ rest _ h1 hrest).1
  · intro before B after hsplit
    rw [hsplit] at hrest
    obtain ⟨hb, hB, _⟩ := exactOnStack_append pinv_calc_ before (B :: after) _ hrest
    have h2 := keepsTask_foldl pinv_calc_ _ _ before _ h1 hb
    have h3 := keepsTask_resolveTask pinv_calc_ _ _ _ B h2 hB
    refine ⟨?_, h3.2⟩
    have hfold : resolveStack pinv_calc_ (A :: (before ++ [B]))
        = resolveTask pinv_calc_
            (before.foldl (resolveTask pinv_calc_) (resolveTask pinv_calc_ (0, 1) A)) B := by
      simp [resolveStack, List.foldl_append]
    rw [hfold]
    exact h3.1.1

/-- Witness for C2: three joints and three tasks; A drives the first joint (velocity 3), B
asks for the sum 5 of the first two velocities, C for the sum 7 of all three. The calculator
is exact on the three matrices of the loop, and after all iterations the first joint
velocity is still 3. -/
theorem higher_priority_task_is_kept_witness :
    stackA.task_jacobian_.mulVec (resolveStack (pinvT 3) [stackA, stackB, stackC]).1
      = stackA.task_ :=
  (higher_priority_task_is_kept (pinvT 3) stackA [stackB, stackC] exactOnStack_example
    (by
      ext i
      fin_cases i
      simp [pinvT, stackA, Matrix.mulVec, Matrix.dotProduct, Fin.sum_univ_succ])).1

/-- C3: after one call of `solve`, whatever `global_constraint_state_` held before,
`global_constraint_state_` is the maximum (under `NORMAL < DANGER < CRITICAL`) of the current
severities of the constraints updated in that call: it bounds every one of them, it is
`NORMAL` or the severity of one of them, and the constraints are exactly the old ones
after their `update` with the predicted joint states of this cycle. -/
theorem global_state_is_cycle_maximum (K : SolverMacros) (pinv_calc_ : PInvCalculator Ω D n)
    (s : StackOfTasksSolver Ω D σ n) (v : Vec 6) (js : JointStates n) (now1 now2 : ℚ) :
    (solve K pinv_calc_ s v js now1 now2).solver.global_constraint_state_
        = maxSeverity ((solve K pinv_calc_ s v js now1 now2).solver.constraints_.map currentOf)
    ∧ (∀ c ∈ (solve K pinv_calc_ s v js now1 now2).solver.constraints_,
        (currentOf c).toNat
          ≤ (solve K pinv_calc_ s v js now1 now2).solver.global_constraint_state_.toNat)
    ∧ ((solve K pinv_calc_ s v js now1 now2).solver.global_constraint_state_
          = EN_ConstraintStates.NORMAL
        ∨ ∃ c ∈ (solve K pinv_calc_ s v js now1 now2).solver.constraints_,
            currentOf c
              = (solve K pinv_calc_ s v js now1 now2).solver.global_constraint_state_)
    ∧ (solve K pinv_calc_ s v js now1 now2).solver.constraints_
        = s.constraints_.map
            (updated js (solve K pinv_calc_ s v js now1 now2).predict_jnts_vel
              s.jacobian_data_) := by
  refine ⟨solve_global K pinv_calc_ s v js now1 now2, ?_, ?_,
    solve_constraints K pinv_calc_ s v js now1 now2⟩
  · intro c hc
    rw [solve_global]
    exact le_maxSeverity _ _ (List.mem_map_of_mem _ hc)
  · rw [solve_global]
    rcases maxSeverity_mem
      ((solve K pinv_calc_ s v js now1 now2).solver.constraints_.map currentOf) with h | h
    · exact Or.inl h
    · obtain ⟨c, hc, hcc⟩ := List.mem_map.mp h
      exact Or.inr ⟨c, hc, hcc⟩

/-- C4 (amended): for every whole-number start value START_CNT >= 1 and every sequence of
solve cycles (any mix of CRITICAL and non-CRITICAL cycles) that begins with the counter at
1.0, the damping counter `in_cart_vel_damping_` is >= 1.0 after every cycle. -/
theorem damping_counter_ge_one_whole_start (K : SolverMacros) (pinv_calc_ : PInvCalculator Ω D n)
    (s : StackOfTasksSolver Ω D σ n) (N : ℕ) (hN : 1 ≤ N) (hK : K.START_CNT = N)
    (hs : s.in_cart_vel_damping_ = 1) (inputs : List (CycleInput n)) :
    1 ≤ (runCycles K pinv_calc_ s inputs).in_cart_vel_damping_ := by
  obtain ⟨M1, hM1, h1⟩ := runCycles_whole K pinv_calc_ N hN hK inputs s 1 (le_refl _)
    (by simp [hs])
  rw [h1]
  exact_mod_cast hM1

/-- Witness for C4 (amended): start count 40, one constraint that is CRITICAL in the first
cycle and NORMAL in the second. -/
theorem damping_counter_ge_one_whole_start_witness :
    1 ≤ (runCycles macros40 (pinvT 1)
      (solver1 [scripted "c" 1 1 1 [EN_ConstraintStates.CRITICAL, EN_ConstraintStates.NORMAL]])
      [input1 0, input1 0]).in_cart_vel_damping_ :=
  damping_counter_ge_one_whole_start macros40 (pinvT 1) _ 40 (by decide) (by simp [macros40]) rfl _

/-- Counterexample to C4 as stated: with START_CNT = 1.5 (which is >= 1.0) and the counter
at 1.0, a CRITICAL cycle sets the counter to 1.5 and the following non-CRITICAL cycle
leaves it at 0.5, below 1.0. -/
theorem damping_counter_below_one_fractional_start :
    (1 : ℚ) ≤ macrosFrac.START_CNT
    ∧ (solver1 [scripted "c" 1 1 1
        [EN_ConstraintStates.CRITICAL, EN_ConstraintStates.NORMAL]]).in_cart_vel_damping_ = 1
    ∧ (runCycles macrosFrac (pinvT 1)
        (solver1 [scripted "c" 1 1 1 [EN_ConstraintStates.CRITICAL, EN_ConstraintStates.NORMAL]])
        [input1 0]).in_cart_vel_damping_ = 3 / 2
    ∧ (runCycles macrosFrac (pinvT 1)
        (solver1 [scripted "c" 1 1 1 [EN_ConstraintStates.CRITICAL, EN_ConstraintStates.NORMAL]])
        [input1 0, input1 0]).in_cart_vel_damping_ = 1 / 2 := by
  refine ⟨by norm_num [macrosFrac], rfl, ?_, ?_⟩
  · simp [runCycles, cycleStep, solve_damping, solve_global, solve_constraints, updated,
      currentOf, scripted, solver1, macrosFrac, maxSeverity, sevMax, updateDamping,
      ConstraintState.getCurrent, EN_ConstraintStates.toNat]
  · simp [runCycles, cycleStep, solve_damping, solve_global, solve_constraints, updated,
      currentOf, scripted, solver1, macrosFrac, maxSeverity, sevMax, updateDamping,
      ConstraintState.getCurrent, EN_ConstraintStates.toNat]
    norm_num

/-- C5 (amended): for every counter value c >= 1.0 held before a cycle, the value after the
cycle is START_CNT if some constraint is CRITICAL in that cycle, and otherwise c - 1.0 when
c > 1.0 and 1.0 when c <= 1.0; this is max(c - 1.0, 1.0) whenever c = 1.0 or c >= 2.0, in
particular for every whole-number c. Hence over k consecutive non-CRITICAL cycles a
whole-number counter c becomes max(c - k, 1): it strictly decreases until it equals 1.0 and
is 1.0 in every later cycle. -/
theorem damping_counter_update_rule (K : SolverMacros) (pinv_calc_ : PInvCalculator Ω D n)
    (s : StackOfTasksSolver Ω D σ n) (hc : 1 ≤ s.in_cart_vel_damping_) :
    (∀ (v : Vec 6) (js : JointStates n) (now1 now2 : ℚ),
      (anyCritical (solve K pinv_calc_ s v js now1 now2).solver.constraints_ = true →
        (solve K pinv_calc_ s v js now1 now2).solver.in_cart_vel_damping_ = K.START_CNT)
      ∧ (anyCritical (solve K pinv_calc_ s v js now1 now2).solver.constraints_ = false →
        (solve K pinv_calc_ s v js now1 now2).solver.in_cart_vel_damping_
          = if s.in_cart_vel_damping_ > 1 then s.in_cart_vel_damping_ - 1 else 1)
      ∧ (anyCritical (solve K pinv_calc_ s v js now1 now2).solver.constraints_ = false →
        (s.in_cart_vel_damping_ = 1 ∨ 2 ≤ s.in_cart_vel_damping_) →
        (solve K pinv_calc_ s v js now1 now2).solver.in_cart_vel_damping_
          = max (s.in_cart_vel_damping_ - 1) 1))
    ∧ (∀ (N : ℕ) (inputs : List (CycleInput n)), s.in_cart_vel_damping_ = N →
        noCriticalRun K pinv_calc_ s inputs = true →
        (runCycles K pinv_calc_ s inputs).in_cart_vel_damping_
          = max ((N : ℚ) - inputs.length) 1) := by
  refine ⟨fun v js now1 now2 => ⟨solve_damping_critical K pinv_calc_ s v js now1 now2,
    solve_damping_noncritical K pinv_calc_ s v js now1 now2, ?_⟩, ?_⟩
  · intro h hw
    rw [solve_damping_noncritical K pinv_calc_ s v js now1 now2 h]
    rcases hw with hw | hw
    · rw [hw]; simp
    · rw [if_pos (by linarith), max_eq_left (by linarith)]
  · intro N inputs hs hrun
    have hN : 1 ≤ N := by
      rw [hs] at hc
      exact_mod_cast hc
    exact runCycles_decay K pinv_calc_ inputs s N hN hs hrun

/-- Witness for C5 (amended): from 1.0 the counter is still 1.0 after 10 cycles without
constraints. -/
theorem damping_counter_update_rule_witness :
    (runCycles macros40 (pinvT 1) (solver1 []) (List.replicate 10 (input1 0))).in_cart_vel_damping_
      = 1 := by
  have h := (damping_counter_update_rule macros40 (pinvT 1) (solver1 []) (by simp [solver1])).2 1
    (List.replicate 10 (input1 0)) (by simp [solver1])
    (by simp [List.replicate, noCriticalRun, cycleStep, solve_constraints, anyCritical, solver1])
  simpa using h

/-- Counterexample to C5 as stated: from the counter value 1.5 (>= 1.0) a cycle without
any CRITICAL constraint leaves the counter at 0.5, not at max(1.5 - 1.0, 1.0) = 1.0. -/
theorem damping_counter_not_max_at_three_halves :
    (1 : ℚ) ≤ ({ solver1 [] with in_cart_vel_damping_ := 3 / 2 } :
        StackOfTasksSolver Unit Unit Scripted 1).in_cart_vel_damping_
    ∧ anyCritical (solve macrosFrac (pinvT 1) { solver1 [] with in_cart_vel_damping_ := 3 / 2 }
        twistX ⟨fun _ => 0, fun _ => 0⟩ 0 0).solver.constraints_ = false
    ∧ (solve macrosFrac (pinvT 1) { solver1 [] with in_cart_vel_damping_ := 3 / 2 }
        twistX ⟨fun _ => 0, fun _ => 0⟩ 0 0).solver.in_cart_vel_damping_ = 1 / 2
    ∧ (solve macrosFrac (pinvT 1) { solver1 [] with in_cart_vel_damping_ := 3 / 2 }
        twistX ⟨fun _ => 0, fun _ => 0⟩ 0 0).solver.in_cart_vel_damping_
        ≠ max ((3 / 2 : ℚ) - 1) 1 := by
  have h : (solve macrosFrac (pinvT 1) { solver1 [] with in_cart_vel_damping_ := 3 / 2 }
        twistX ⟨fun _ => 0, fun _ => 0⟩ 0 0).solver.in_cart_vel_damping_ = 1 / 2 := by
    simp [solve_damping, solve_global, solve_constraints, solver1, maxSeverity, updateDamping]
    norm_num
  refine ⟨by norm_num, by simp [solve_constraints, solver1, anyCritical], h, ?_⟩
  rw [h]
  norm_num

/-- C6: CRITICAL rows of the transition table. For every constraint whose current severity
is CRITICAL, `processState` adds to the task stack the task returned by `createTask` with its
task vector multiplied by activationGain * |magnitude| (the factor is 1.0, so the vector is
unchanged, for activationGain = 2 and magnitude = 0.5 or -0.5); it calls `activateTask` for
the constraint's task id exactly when the state is a transition; it never calls
`deactivateTask` and adds nothing to the gradient. When the state is no transition and the
task is already in the stack, no active flag of the stack changes and the task carries the
refreshed values. -/
theorem critical_rows_add_scaled_task (K : SolverMacros) (s : StackOfTasksSolver Ω D σ n)
    (c : ConstraintBase Ω D σ n) (P : Mat n n) (ps : Vec n) (w : ℚ) (g : Vec n)
    (hC : currentOf c = EN_ConstraintStates.CRITICAL) :
    ((c.getState c.self).isTransition = true →
      (processState K s c P ps w g).1.task_stack_controller_
        = TaskStackController.activateTask c.getTaskId
            (TaskStackController.addTask (scaledTask c P ps) s.task_stack_controller_))
    ∧ ((c.getState c.self).isTransition = false →
      (processState K s c P ps w g).1.task_stack_controller_
        = TaskStackController.addTask (scaledTask c P ps) s.task_stack_controller_)
    ∧ (processState K s c P ps w g).2 = g
    ∧ (c.getActivationGain c.self = 2 →
        (c.getSelfMotionMagnitude c.self ps (P.mulVec (c.getPartialValues c.self)) = 1 / 2
          ∨ c.getSelfMotionMagnitude c.self ps (P.mulVec (c.getPartialValues c.self)) = -(1 / 2)) →
        scaledTask c P ps = c.createTask c.self)
    ∧ ((c.getState c.self).isTransition = false →
        (∃ u ∈ s.task_stack_controller_, u.id_ = (c.createTask c.self).id_) →
        (processState K s c P ps w g).1.task_stack_controller_.map
            (fun u => (u.id_, u.is_active_))
          = s.task_stack_controller_.map (fun u => (u.id_, u.is_active_))
        ∧ ∀ u ∈ (processState K s c P ps w g).1.task_stack_controller_,
            u.id_ = (c.createTask c.self).id_ →
            u = { scaledTask c P ps with is_active_ := u.is_active_ }) := by
  have hstack := processState_stack_critical K s c P ps w g hC
  refine ⟨fun hT => ?_, fun hT => ?_, ?_, ?_, fun hT hex => ?_⟩
  · rw [hstack, if_pos hT]
  · rw [hstack, hT]
    simp
  · rw [processState_gradient, hC]
    simp
  · intro hg hm
    have habs : |c.getSelfMotionMagnitude c.self ps (P.mulVec (c.getPartialValues c.self))|
        = 1 / 2 := by
      rcases hm with hm | hm
      · rw [hm]
        norm_num [abs_of_pos]
      · rw [hm, abs_neg]
        norm_num [abs_of_pos]
    unfold scaledTask
    rw [hg, habs]
    norm_num
  · have hstack2 : (processState K s c P ps w g).1.task_stack_controller_
        = TaskStackController.addTask (scaledTask c P ps) s.task_stack_controller_ := by
      rw [hstack, hT]
      simp
    rw [hstack2]
    exact ⟨addTask_keeps_flags _ _ hex, addTask_refreshes _ _ hex⟩

/-- Witness for C6: a constraint that has just become CRITICAL with activationGain 2 and
magnitude 0.5; the task is added with its vector unchanged and is activated. -/
theorem critical_rows_add_scaled_task_witness :
    currentOf critNow = EN_ConstraintStates.CRITICAL
    ∧ (processState macros40 (solver1 []) critNow 1 0 1 0).1.task_stack_controller_
        = TaskStackController.activateTask critNow.getTaskId
            (TaskStackController.addTask (scaledTask critNow 1 0)
              (solver1 []).task_stack_controller_)
    ∧ scaledTask critNow 1 0 = critNow.createTask critNow.self :=
  ⟨rfl,
    (critical_rows_add_scaled_task macros40 (solver1 []) critNow 1 0 1 0 rfl).1 (by decide),
    (critical_rows_add_scaled_task macros40 (solver1 []) critNow 1 0 1 0 rfl).2.2.2.1
      (by simp [critNow, scripted]) (Or.inl (by simp [critNow, scripted]))⟩

/-- C7 (amended): for every constraint set, the gradient vector used in the output of `solve`
equals k_H times the sum, over exactly the constraints whose current severity is DANGER, of
(inverse priority_i / inv_sum_of_prionums) * activationGain_i * magnitude_i * partialSolution_i,
where the inverse priority is 1/priorityNumber_i when priorityNumber_i > ZERO_THRESHOLD and
1/DIV0_SAFE otherwise, and inv_sum_of_prionums is the sum of these inverse priorities over the
DANGER constraints. The term does not depend on the state being a transition; NORMAL and
CRITICAL constraints add nothing. When every DANGER constraint has a priority number above
ZERO_THRESHOLD this is the formula with the plain 1/priorityNumber_i. -/
theorem gradient_is_weighted_danger_sum (K : SolverMacros) (pinv_calc_ : PInvCalculator Ω D n)
    (s : StackOfTasksSolver Ω D σ n) (v : Vec 6) (js : JointStates n) (now1 now2 : ℚ) :
    (solve K pinv_calc_ s v js now1 now2).sum_of_gradient
      = s.params_.k_H •
          ((dangerOnes (solve K pinv_calc_ s v js now1 now2).solver.constraints_).map
            (gradientTerm K (projectorOf pinv_calc_ s)
              (solve K pinv_calc_ s v js now1 now2).particular_solution
              (solve K pinv_calc_ s v js now1 now2).inv_sum_of_prionums)).sum
    ∧ (solve K pinv_calc_ s v js now1 now2).inv_sum_of_prionums
      = ((dangerOnes (solve K pinv_calc_ s v js now1 now2).solver.constraints_).map
          (invPrio K)).sum
    ∧ (solve K pinv_calc_ s v js now1 now2).qdots_out
      = (resolveStack pinv_calc_ (TaskStackController.activeTasks
            (solve K pinv_calc_ s v js now1 now2).solver.task_stack_controller_)).1
        + (resolveStack pinv_calc_ (TaskStackController.activeTasks
            (solve K pinv_calc_ s v js now1 now2).solver.task_stack_controller_)).2.mulVec
          (solve K pinv_calc_ s v js now1 now2).sum_of_gradient
    ∧ ((∀ c ∈ dangerOnes (solve K pinv_calc_ s v js now1 now2).solver.constraints_,
          K.ZERO_THRESHOLD < c.getPriorityAsNum c.self) →
        (solve K pinv_calc_ s v js now1 now2).sum_of_gradient
          = s.params_.k_H •
              ((dangerOnes (solve K pinv_calc_ s v js now1 now2).solver.constraints_).map
                (literalGradientTerm (projectorOf pinv_calc_ s)
                  (solve K pinv_calc_ s v js now1 now2).particular_solution
                  ((dangerOnes (solve K pinv_calc_ s v js now1 now2).solver.constraints_).map
                    (fun c => 1 / c.getPriorityAsNum c.self)).sum)).sum) := by
  refine ⟨solve_gradient K pinv_calc_ s v js now1 now2,
    solve_inv_sum K pinv_calc_ s v js now1 now2, rfl, ?_⟩
  intro h
  rw [solve_gradient, solve_inv_sum]
  have h1 : (dangerOnes (solve K pinv_calc_ s v js now1 now2).solver.constraints_).map
        (invPrio K)
      = (dangerOnes (solve K pinv_calc_ s v js now1 now2).solver.constraints_).map
        (fun c => 1 / c.getPriorityAsNum c.self) :=
    List.map_congr_left (fun c hc => by simp only [invPrio, if_pos (h c hc)])
  rw [h1]
  congr 2
  exact List.map_congr_left
    (fun c hc => by simp only [gradientTerm, literalGradientTerm, invPrio, if_pos (h c hc)])

/-- Witness for C7 (amended): two DANGER constraints with priority numbers 1 and 2, both
above the zero threshold. -/
theorem gradient_is_weighted_danger_sum_witness :
    (solve macros40 (pinvT 1) twoDangerAbove twistX rest1 0 0).sum_of_gradient
      = twoDangerAbove.params_.k_H •
          ((dangerOnes
              (solve macros40 (pinvT 1) twoDangerAbove twistX rest1 0 0).solver.constraints_).map
            (literalGradientTerm (projectorOf (pinvT 1) twoDangerAbove)
              (solve macros40 (pinvT 1) twoDangerAbove twistX rest1 0 0).particular_solution
              ((dangerOnes
                (solve macros40 (pinvT 1) twoDangerAbove twistX rest1 0 0).solver.constraints_).map
                  (fun c => 1 / c.getPriorityAsNum c.self)).sum)).sum :=
  (gradient_is_weighted_danger_sum macros40 (pinvT 1) twoDangerAbove twistX rest1 0 0).2.2.2
    (by
      rw [solve_constraints]
      simp [twoDangerAbove, solver1, scripted, dangerOnes, updated, currentOf, macros40,
        ConstraintState.getCurrent]
      norm_num)

/-- Counterexample to C7 as stated: a DANGER constraint with priority number 1e-10 (below the
zero threshold 1e-9, DIV0_SAFE = 1e-6, gain 1) next to a DANGER constraint with priority
number 1 and gain 0. The code's gradient is 1000000/1000001; the formula with the plain
1/priorityNumber gives 10000000000/1000001 with the code's divisor and
10000000000/10000000001 with the sum of the plain inverses as divisor. -/
theorem gradient_differs_below_zero_threshold :
    (solve macros40 (pinvT 1) twoDanger twistX rest1 0 0).sum_of_gradient 0
      = 1000000 / 1000001
    ∧ (solve macros40 (pinvT 1) twoDanger twistX rest1 0 0).sum_of_gradient
      ≠ twoDanger.params_.k_H •
        ((dangerOnes (solve macros40 (pinvT 1) twoDanger twistX rest1 0 0).solver.constraints_).map
          (literalGradientTerm (projectorOf (pinvT 1) twoDanger)
            (solve macros40 (pinvT 1) twoDanger twistX rest1 0 0).particular_solution
            (solve macros40 (pinvT 1) twoDanger twistX rest1 0 0).inv_sum_of_prionums)).sum
    ∧ (solve macros40 (pinvT 1) twoDanger twistX rest1 0 0).sum_of_gradient
      ≠ twoDanger.params_.k_H •
        ((dangerOnes (solve macros40 (pinvT 1) twoDanger twistX rest1 0 0).solver.constraints_).map
          (literalGradientTerm (projectorOf (pinvT 1) twoDanger)
            (solve macros40 (pinvT 1) twoDanger twistX rest1 0 0).particular_solution
            (((dangerOnes
              (solve macros40 (pinvT 1) twoDanger twistX rest1 0 0).solver.constraints_).map
                (fun c => 1 / c.getPriorityAsNum c.self)).sum))).sum := by
  have h1 : (solve macros40 (pinvT 1) twoDanger twistX rest1 0 0).sum_of_gradient 0
      = 1000000 / 1000001 := by
    rw [solve_gradient, solve_inv_sum, solve_constraints]
    simp [twoDanger, solver1, scripted, dangerOnes, updated, currentOf, gradientTerm, invPrio,
      macros40, ConstraintState.getCurrent]
    norm_num
  refine ⟨h1, fun h => ?_, fun h => ?_⟩
  · have h2 := congrFun h 0
    rw [h1, solve_inv_sum, solve_constraints] at h2
    simp [twoDanger, solver1, scripted, dangerOnes, updated, currentOf, literalGradientTerm,
      invPrio, macros40, ConstraintState.getCurrent] at h2
    norm_num at h2
  · have h2 := congrFun h 0
    rw [h1, solve_constraints] at h2
    simp [twoDanger, solver1, scripted, dangerOnes, updated, currentOf, literalGradientTerm,
      ConstraintState.getCurrent] at h2
    norm_num at h2

/-- C8: divide-by-zero guard, assuming ZERO_THRESHOLD >= 0 and DIV0_SAFE > 0. For every
constraint of a cycle whose priority number is at or below ZERO_THRESHOLD (in particular 0):
the first pass of `solve` adds 1/DIV0_SAFE to `inv_sum_of_prionums` for it when it is in
DANGER, `processState` uses 1/DIV0_SAFE as its inverse priority in the gradient term, and
whenever the constraint is in DANGER the divisor `inv_sum_of_prionums` of the cycle is
strictly positive, so the term added to `sum_of_gradient` is a proper quotient. -/
theorem div0_guard_uses_safe_divisor (K : SolverMacros) (hZ : 0 ≤ K.ZERO_THRESHOLD)
    (hD : 0 < K.DIV0_SAFE) (pinv_calc_ : PInvCalculator Ω D n)
    (s : StackOfTasksSolver Ω D σ n) (v : Vec 6) (js : JointStates n) (now1 now2 : ℚ)
    (c : ConstraintBase Ω D σ n)
    (hc : c ∈ (solve K pinv_calc_ s v js now1 now2).solver.constraints_)
    (hp : c.getPriorityAsNum c.self ≤ K.ZERO_THRESHOLD) :
    (∀ (c0 : ConstraintBase Ω D σ n) (js1 : JointStates n) (p : JntArrayVel n) (J : Mat 6 n)
        (acc : ℚ), updated js1 p J c0 = c → currentOf c = EN_ConstraintStates.DANGER →
        (firstIteration K js1 p J [c0] acc).2 = acc + 1 / K.DIV0_SAFE)
    ∧ (∀ (s1 : StackOfTasksSolver Ω D σ n) (P : Mat n n) (ps : Vec n) (w : ℚ) (g : Vec n),
        currentOf c = EN_ConstraintStates.DANGER →
        (processState K s1 c P ps w g).2
          = g + (1 / K.DIV0_SAFE / w * c.getActivationGain c.self
                  * c.getSelfMotionMagnitude c.self ps (P.mulVec (c.getPartialValues c.self)))
                • c.getPartialValues c.self)
    ∧ (currentOf c = EN_ConstraintStates.DANGER →
        0 < (solve K pinv_calc_ s v js now1 now2).inv_sum_of_prionums) := by
  have hi : invPrio K c = 1 / K.DIV0_SAFE := by
    unfold invPrio
    rw [if_neg (not_lt.mpr hp)]
  refine ⟨?_, ?_, ?_⟩
  · intro c0 js1 p J acc hu hd
    rw [firstIteration_eq]
    simp [dangerOnes, hu, hd, hi]
  · intro s1 P ps w g hd
    rw [processState_gradient, if_pos hd, gradientTerm, hi]
  · intro hd
    rw [solve_inv_sum]
    refine sum_invPrio_pos K hZ hD _ c ?_
    simp [dangerOnes, hc, hd]

/-- Witness for C8: one DANGER constraint with priority number 0; the divisor of the cycle is
positive. -/
theorem div0_guard_uses_safe_divisor_witness :
    (0 : ℚ) ≤ macros40.ZERO_THRESHOLD ∧ (0 : ℚ) < macros40.DIV0_SAFE
    ∧ 0 < (solve macros40 (pinvT 1) (solver1 [zeroPrio]) twistX rest1 0 0).inv_sum_of_prionums :=
  ⟨by norm_num [macros40], by norm_num [macros40],
    (div0_guard_uses_safe_divisor macros40 (by norm_num [macros40]) (by norm_num [macros40])
      (pinvT 1) (solver1 [zeroPrio]) twistX rest1 0 0
      (updated rest1
        (solve macros40 (pinvT 1) (solver1 [zeroPrio]) twistX rest1 0 0).predict_jnts_vel
        jac1 zeroPrio)
      (by rw [solve_constraints]; simp [solver1])
      (by simp [updated, zeroPrio, scripted, macros40])).2.2
      (by simp [updated, zeroPrio, scripted, currentOf, ConstraintState.getCurrent])⟩

/-- C9: no stale active constraint tasks. Assume the constraints have pairwise distinct task
ids, the task a constraint creates carries the constraint's task id, each constraint's
previous severity after an `update` is its current severity before it, and no constraint
task is active initially. Then after every sequence of solve cycles a task of the stack that
carries a constraint's task id (the main task apart) is active only if that constraint's
current severity is CRITICAL. In particular every transition into NORMAL or DANGER makes
`processState` call `deactivateTask` for the constraint's task id. -/
theorem constraint_task_active_only_if_critical (K : SolverMacros)
    (pinv_calc_ : PInvCalculator Ω D n) (s : StackOfTasksSolver Ω D σ n)
    (hids : (s.constraints_.map (fun c => c.getTaskId)).Nodup)
    (hown : ∀ c ∈ s.constraints_, ∀ st, (c.createTask st).id_ = c.getTaskId)
    (hprev : ∀ c ∈ s.constraints_, ∀ st js p J,
      (c.getState (c.update st js p J)).previous_ = (c.getState st).current_)
    (hinit : ∀ c ∈ s.constraints_, hasActive c.getTaskId s.task_stack_controller_ = false)
    (inputs : List (CycleInput n)) :
    (∀ c ∈ (runCycles K pinv_calc_ s inputs).constraints_, c.getTaskId ≠ mainTaskId →
      hasActive c.getTaskId (runCycles K pinv_calc_ s inputs).task_stack_controller_ = true →
      currentOf c = EN_ConstraintStates.CRITICAL)
    ∧ (∀ (s1 : StackOfTasksSolver Ω D σ n) (c : ConstraintBase Ω D σ n) (P : Mat n n)
        (ps : Vec n) (w : ℚ) (g : Vec n),
        (c.getState c.self).isTransition = true →
        currentOf c ≠ EN_ConstraintStates.CRITICAL →
        (processState K s1 c P ps w g).1.task_stack_controller_
          = TaskStackController.deactivateTask c.getTaskId s1.task_stack_controller_) := by
  constructor
  · refine runCycles_noStaleTasks K pinv_calc_ inputs s hids
      (fun c hc => ⟨hown c hc, hprev c hc⟩) ?_
    intro c hc _ hact
    rw [hinit c hc] at hact
    cases hact
  · intro s1 c P ps w g hT hC
    rw [processState_stack_noncritical K s1 c P ps w g hC, if_pos hT]

/-- Witness for C9: one constraint that is CRITICAL in the first cycle and DANGER in the
second; its task is active after the first cycle and not active after the second. -/
theorem constraint_task_active_only_if_critical_witness :
    hasActive "c" (runCycles macros40 (pinvT 1) critThenDanger
        [input1 0]).task_stack_controller_ = true
    ∧ hasActive "c" (runCycles macros40 (pinvT 1) critThenDanger
        [input1 0, input1 0]).task_stack_controller_ = false := by
  constructor
  · simp [runCycles, cycleStep, solve_stack, solve_constraints, critThenDanger, solver1,
      scripted, updated, secondIteration, processState, currentOf, afterFirstPass,
      ConstraintState.isTransition, ConstraintState.getCurrent, hasActive,
      TaskStackController.addTask, TaskStackController.activateTask,
      TaskStackController.insertByPrio, mainTaskOf, mainTaskId]
  · have h := (constraint_task_active_only_if_critical macros40 (pinvT 1) critThenDanger
      (by simp [critThenDanger, solver1])
      (by
        intro c hc st
        simp only [critThenDanger, solver1, List.mem_singleton] at hc
        subst hc
        rfl)
      (by
        intro c hc st js p J
        simp only [critThenDanger, solver1, List.mem_singleton] at hc
        subst hc
        obtain ⟨cs, l⟩ := st
        cases l <;> rfl)
      (by simp [critThenDanger, solver1, hasActive])
      [input1 0, input1 0]).1
    have hcs : (runCycles macros40 (pinvT 1) critThenDanger [input1 0, input1 0]).constraints_
        = [{ scripted "c" 1 1 1 [] with
              self := (⟨EN_ConstraintStates.DANGER, EN_ConstraintStates.CRITICAL⟩, []) }] := by
      simp [runCycles, cycleStep, solve_constraints, critThenDanger, solver1, scripted, updated]
    rw [hcs] at h
    have h1 := h _ (List.mem_singleton.mpr rfl) (by decide)
    cases hA : hasActive "c" (runCycles macros40 (pinvT 1) critThenDanger
        [input1 0, input1 0]).task_stack_controller_
    · rfl
    · exact absurd (h1 hA) (by decide)

/-- C10 (amended): the predicted joint state that `solve` passes to every constraint's
`update` has, for each joint, predicted position particular_solution * cycle + current
position with cycle = now - last_time_ taken as read (a negative reading is not clamped),
and predicted velocity equal to the particular solution pinv(J) * in_cart_velocities. For the
elapsed-time reading cycle = 0 the predicted position equals the current joint position. -/
theorem predicted_state_at_zero_cycle (K : SolverMacros) (pinv_calc_ : PInvCalculator Ω D n)
    (s : StackOfTasksSolver Ω D σ n) (v : Vec 6) (js : JointStates n) (now1 now2 : ℚ)
    (h0 : now1 - s.last_time_ = 0) :
    (solve K pinv_calc_ s v js now1 now2).predict_jnts_vel.q = js.current_q_
    ∧ (solve K pinv_calc_ s v js now1 now2).predict_jnts_vel.qdot
        = (solve K pinv_calc_ s v js now1 now2).particular_solution
    ∧ (solve K pinv_calc_ s v js now1 now2).particular_solution
        = (pinv_calc_ s.params_ s.damping_ 6 s.jacobian_data_).mulVec v
    ∧ (∀ (t1 : ℚ) (i : Fin n),
        (solve K pinv_calc_ s v js t1 now2).predict_jnts_vel.q i
          = (solve K pinv_calc_ s v js t1 now2).particular_solution i * (t1 - s.last_time_)
            + js.current_q_ i)
    ∧ (solve K pinv_calc_ s v js now1 now2).solver.constraints_
        = s.constraints_.map
            (updated js (solve K pinv_calc_ s v js now1 now2).predict_jnts_vel
              s.jacobian_data_) := by
  refine ⟨?_, rfl, rfl, fun t1 i => rfl, solve_constraints K pinv_calc_ s v js now1 now2⟩
  funext i
  show (solve K pinv_calc_ s v js now1 now2).particular_solution i * (now1 - s.last_time_)
      + js.current_q_ i = js.current_q_ i
  rw [h0]
  simp

/-- Witness for C10 (amended): clock reading equal to `last_time_`. -/
theorem predicted_state_at_zero_cycle_witness :
    (solve macros40 (pinvT 1) (solver1 []) twistX rest1 0 0).predict_jnts_vel.q
      = rest1.current_q_ :=
  (predicted_state_at_zero_cycle macros40 (pinvT 1) (solver1 []) twistX rest1 0 0
    (by simp [solver1])).1

/-- Counterexample to C10 as stated: `last_time_` = 1 and clock reading 0 give the elapsed
time -1 <= 0; with particular solution 1 and current position 0 the predicted position
handed to the constraint is -1, not the current position 0. -/
theorem predicted_position_moves_at_negative_cycle :
    (0 : ℚ) - ({ solver1 [zeroPrio] with last_time_ := 1 } :
        StackOfTasksSolver Unit Unit Scripted 1).last_time_ ≤ 0
    ∧ (solve macros40 (pinvT 1) { solver1 [zeroPrio] with last_time_ := 1 }
        twistX rest1 0 0).particular_solution 0 = 1
    ∧ (solve macros40 (pinvT 1) { solver1 [zeroPrio] with last_time_ := 1 }
        twistX rest1 0 0).predict_jnts_vel.q 0 = -1
    ∧ rest1.current_q_ 0 = 0
    ∧ (solve macros40 (pinvT 1) { solver1 [zeroPrio] with last_time_ := 1 }
        twistX rest1 0 0).solver.constraints_
      = [updated rest1 ⟨fun _ => -1, fun _ => 1⟩ jac1 zeroPrio] := by
  have hp : (solve macros40 (pinvT 1) { solver1 [zeroPrio] with last_time_ := 1 }
        twistX rest1 0 0).particular_solution = fun _ => 1 := by
    funext i
    simp [solve_particular, solver1, pinvT, jac1, twistX, Matrix.mulVec, Matrix.dotProduct,
      Fin.sum_univ_succ]
  have hq : (solve macros40 (pinvT 1) { solver1 [zeroPrio] with last_time_ := 1 }
        twistX rest1 0 0).predict_jnts_vel = ⟨fun _ => -1, fun _ => 1⟩ := by
    show predictJointStates (solve macros40 (pinvT 1) { solver1 [zeroPrio] with last_time_ := 1 }
        twistX rest1 0 0).particular_solution (0 - 1) rest1 = _
    rw [hp]
    simp [predictJointStates, rest1]
  refine ⟨by norm_num, by rw [hp], by rw [hq], rfl, ?_⟩
  rw [solve_constraints, hq]
  simp [solver1]

/-- C13: for every parameter set, `KinematicExtensionBuilder::create_extension` returns the
base-active variant exactly when `params.base_active` is true and the none variant
otherwise; for either variant `adjust_jacobian(J)` returns J unchanged for every chain
Jacobian J, and `process_result_extension` has no effect. -/
theorem create_extension_variants_pass_through (params : InvDiffKinSolverParams Ω) :
    (KinematicExtensionBuilder.create_extension params
        = KinematicExtensionBase.KinematicExtensionBaseActive params
      ↔ params.base_active = true)
    ∧ (KinematicExtensionBuilder.create_extension params
        = KinematicExtensionBase.KinematicExtensionNone params
      ↔ params.base_active = false)
    ∧ (∀ (keb : KinematicExtensionBase Ω) (jac_chain : Jacobian),
        keb.adjust_jacobian jac_chain = jac_chain)
    ∧ (∀ (W : Type) (keb : KinematicExtensionBase Ω) (q_dot_ik : JntArray) (w : W),
        keb.process_result_extension q_dot_ik w = w) := by
  refine ⟨?_, ?_, ?_, ?_⟩
  · cases h : params.base_active <;> simp [KinematicExtensionBuilder.create_extension, h]
  · cases h : params.base_active <;> simp [KinematicExtensionBuilder.create_extension, h]
  · intro keb jac_chain
    cases keb <;> rfl
  · intro W keb q_dot_ik w
    cases keb <;> rfl

/-- C14 (amended): bounded gradient budget, assuming ZERO_THRESHOLD >= 0 and
DIV0_SAFE > 0, in every solve cycle with at least one constraint in DANGER and for every
combination of priority numbers, those at or below ZERO_THRESHOLD included.
In exact arithmetic the weight gpm_weighting = inverse priority / inv_sum_of_prios that
`processState` uses for a DANGER constraint lies in (0, 1] and the weights of all DANGER
constraints sum to exactly 1.
With doubles, that is with every division and addition of lines 61-70 and 125-128 rounded by
a rounding `fl` of relative error at most `u < 1` that is monotone, leaves rounded values
alone and keeps 1, every weight still lies in (0, 1], but the weights sum to 1 only up to
rounding: with `N` constraints in DANGER their sum lies between `(1 - u) / (1 + u)^N` and
`(1 + u) / (1 - u)^N`. With no rounding (`fl` the identity) the rounded accumulation is the
`inv_sum_of_prionums` of `solve`. -/
theorem gpm_weights_sum_to_one_up_to_rounding (K : SolverMacros) (hZ : 0 ≤ K.ZERO_THRESHOLD)
    (hD : 0 < K.DIV0_SAFE) (pinv_calc_ : PInvCalculator Ω D n)
    (s : StackOfTasksSolver Ω D σ n) (v : Vec 6) (js : JointStates n) (now1 now2 : ℚ)
    (hex : ∃ c ∈ (solve K pinv_calc_ s v js now1 now2).solver.constraints_,
      currentOf c = EN_ConstraintStates.DANGER)
    (fl : ℚ → ℚ) (u : ℚ) (hu0 : 0 ≤ u) (hu1 : u < 1)
    (hfl : ∀ x, 0 < x → (1 - u) * x ≤ fl x ∧ fl x ≤ (1 + u) * x)
    (hmono : ∀ x y, 0 < x → x ≤ y → fl x ≤ fl y) (hidem : ∀ x, 0 < x → fl (fl x) = fl x)
    (hone : fl 1 = 1) :
    (∀ c ∈ (solve K pinv_calc_ s v js now1 now2).solver.constraints_,
      currentOf c = EN_ConstraintStates.DANGER →
        0 < gpmWeighting K (solve K pinv_calc_ s v js now1 now2).inv_sum_of_prionums c
        ∧ gpmWeighting K (solve K pinv_calc_ s v js now1 now2).inv_sum_of_prionums c ≤ 1)
    ∧ ((dangerOnes (solve K pinv_calc_ s v js now1 now2).solver.constraints_).map
        (gpmWeighting K (solve K pinv_calc_ s v js now1 now2).inv_sum_of_prionums)).sum = 1
    ∧ (∀ c ∈ (solve K pinv_calc_ s v js now1 now2).solver.constraints_,
      currentOf c = EN_ConstraintStates.DANGER →
        ∀ (s1 : StackOfTasksSolver Ω D σ n) (P : Mat n n) (ps : Vec n) (g : Vec n),
          (processState K s1 c P ps
              (solve K pinv_calc_ s v js now1 now2).inv_sum_of_prionums g).2
            = g + (gpmWeighting K (solve K pinv_calc_ s v js now1 now2).inv_sum_of_prionums c
                    * c.getActivationGain c.self
                    * c.getSelfMotionMagnitude c.self ps
                        (P.mulVec (c.getPartialValues c.self)))
                  • c.getPartialValues c.self)
    ∧ (∀ c ∈ (solve K pinv_calc_ s v js now1 now2).solver.constraints_,
      currentOf c = EN_ConstraintStates.DANGER →
        0 < gpmWeightingRounded fl K
              (invSumRounded fl K (solve K pinv_calc_ s v js now1 now2).solver.constraints_ 0) c
        ∧ gpmWeightingRounded fl K
              (invSumRounded fl K (solve K pinv_calc_ s v js now1 now2).solver.constraints_ 0) c
            ≤ 1)
    ∧ (1 - u)
          / (1 + u) ^ (dangerOnes (solve K pinv_calc_ s v js now1 now2).solver.constraints_).length
        ≤ (roundedWeights fl K (solve K pinv_calc_ s v js now1 now2).solver.constraints_).sum
    ∧ (roundedWeights fl K (solve K pinv_calc_ s v js now1 now2).solver.constraints_).sum
        ≤ (1 + u)
          / (1 - u) ^ (dangerOnes (solve K pinv_calc_ s v js now1 now2).solver.constraints_).length
    ∧ invSumRounded (fun x => x) K (solve K pinv_calc_ s v js now1 now2).solver.constraints_ 0
        = (solve K pinv_calc_ s v js now1 now2).inv_sum_of_prionums
    ∧ (∀ c : ConstraintBase Ω D σ n,
        gpmWeightingRounded (fun x => x) K
            (solve K pinv_calc_ s v js now1 now2).inv_sum_of_prionums c
          = gpmWeighting K (solve K pinv_calc_ s v js now1 now2).inv_sum_of_prionums c) := by
  have hmem : ∀ c ∈ (solve K pinv_calc_ s v js now1 now2).solver.constraints_,
      currentOf c = EN_ConstraintStates.DANGER →
      c ∈ dangerOnes (solve K pinv_calc_ s v js now1 now2).solver.constraints_ := by
    intro c hc hd
    simp [dangerOnes, hc, hd]
  have hne : dangerOnes (solve K pinv_calc_ s v js now1 now2).solver.constraints_ ≠ [] := by
    obtain ⟨c, hc, hd⟩ := hex
    exact List.ne_nil_of_mem (hmem c hc hd)
  obtain ⟨r1, r2, r3⟩ := gpmWeightingRounded_bounds fl u hu0 hu1 hfl hmono hidem hone K hZ hD
    (solve K pinv_calc_ s v js now1 now2).solver.constraints_ hne
  refine ⟨?_, ?_, ?_, fun c hc hd => r1 c (hmem c hc hd), r2, r3, ?_, ?_⟩
  · rw [solve_inv_sum]
    exact fun c hc hd => gpmWeighting_pos_le_one K hZ hD _ c (hmem c hc hd)
  · rw [solve_inv_sum]
    exact gpmWeighting_sum K hZ hD _ hne
  · intro c _ hd s1 P ps g
    rw [processState_gradient, if_pos hd]
    rfl
  · rw [solve_inv_sum]
    exact invSumRounded_id K _
  · exact fun c => gpmWeightingRounded_id K _ c

/-- Witness for C14 (amended): three DANGER constraints with priority numbers 0, 1 and 4 (the first one
at the zero-threshold guard) and binary64 rounding, `u = 2^-53`: the sum of the three binary64
weights is 1 up to the rounding factors. -/
theorem gpm_weights_sum_to_one_up_to_rounding_witness :
    (1 - 1 / 2 ^ 53 : ℚ)
        / (1 + 1 / 2 ^ 53) ^ (dangerOnes
            (solve macros40 (pinvT 1) threeDanger twistX rest1 0 0).solver.constraints_).length
      ≤ (roundedWeights roundBinary64 macros40
          (solve macros40 (pinvT 1) threeDanger twistX rest1 0 0).solver.constraints_).sum
    ∧ (roundedWeights roundBinary64 macros40
          (solve macros40 (pinvT 1) threeDanger twistX rest1 0 0).solver.constraints_).sum
      ≤ (1 + 1 / 2 ^ 53 : ℚ)
        / (1 - 1 / 2 ^ 53) ^ (dangerOnes
            (solve macros40 (pinvT 1) threeDanger twistX rest1 0 0).solver.constraints_).length :=
  ⟨(gpm_weights_sum_to_one_up_to_rounding macros40 (by norm_num [macros40])
      (by norm_num [macros40]) (pinvT 1) threeDanger twistX rest1 0 0
      ⟨updated rest1 (solve macros40 (pinvT 1) threeDanger twistX rest1 0 0).predict_jnts_vel
          jac1 (scripted "z" 0 1 1 [EN_ConstraintStates.DANGER]),
        by rw [solve_constraints]; simp [threeDanger, solver1],
        by simp [updated, scripted, currentOf, ConstraintState.getCurrent]⟩
      roundBinary64 (1 / 2 ^ 53) (by norm_num) (by norm_num) roundBinary64_rel_error
      roundBinary64_mono roundBinary64_idem roundBinary64_one).2.2.2.2.1,
   (gpm_weights_sum_to_one_up_to_rounding macros40 (by norm_num [macros40])
      (by norm_num [macros40]) (pinvT 1) threeDanger twistX rest1 0 0
      ⟨updated rest1 (solve macros40 (pinvT 1) threeDanger twistX rest1 0 0).predict_jnts_vel
          jac1 (scripted "z" 0 1 1 [EN_ConstraintStates.DANGER]),
        by rw [solve_constraints]; simp [threeDanger, solver1],
        by simp [updated, scripted, currentOf, ConstraintState.getCurrent]⟩
      roundBinary64 (1 / 2 ^ 53) (by norm_num) (by norm_num) roundBinary64_rel_error
      roundBinary64_mono roundBinary64_idem roundBinary64_one).2.2.2.2.2.1⟩

/-- Counterexample to C14 as stated: with binary64 arithmetic the weights of the DANGER constraints do
not sum to exactly 1. Three constraints in DANGER with the priority numbers 1, 2 and 3
(ZERO_THRESHOLD = 1e-9): the sum of the three binary64 weights is `1 + 2^-53`, and summed
as doubles from left to right it is `1 + 2^-52`. With the priority numbers 3, 5 and 7 the sum
is `1 - 3 * 2^-55`, as doubles `1 - 2^-53`. -/
theorem gpm_weights_binary64_sum_is_not_one :
    (∀ c ∈ (solve macros40 (pinvT 1) prio123 twistX rest1 0 0).solver.constraints_,
      currentOf c = EN_ConstraintStates.DANGER)
    ∧ (roundedWeights roundBinary64 macros40
        (solve macros40 (pinvT 1) prio123 twistX rest1 0 0).solver.constraints_).sum
      = 1 + 1 / 2 ^ 53
    ∧ roundedSum roundBinary64
        (roundedWeights roundBinary64 macros40
          (solve macros40 (pinvT 1) prio123 twistX rest1 0 0).solver.constraints_) 0
      = 1 + 1 / 2 ^ 52
    ∧ (∀ c ∈ (solve macros40 (pinvT 1) prio357 twistX rest1 0 0).solver.constraints_,
      currentOf c = EN_ConstraintStates.DANGER)
    ∧ (roundedWeights roundBinary64 macros40
        (solve macros40 (pinvT 1) prio357 twistX rest1 0 0).solver.constraints_).sum
      = 1 - 3 / 2 ^ 55
    ∧ roundedSum roundBinary64
        (roundedWeights roundBinary64 macros40
          (solve macros40 (pinvT 1) prio357 twistX rest1 0 0).solver.constraints_) 0
      = 1 - 1 / 2 ^ 53 := by
  refine ⟨all_danger_prio 1 2 3, ?_, ?_, all_danger_prio 3 5 7, ?_, ?_⟩
  · rw [roundedWeights_prio123]
    norm_num
  · rw [roundedWeights_prio123, roundedSum_prio123]
    norm_num
  · rw [roundedWeights_prio357]
    norm_num
  · rw [roundedWeights_prio357, roundedSum_prio357]
    norm_num

end CobTwist

namespace CobOmniDrive

open Example

/-! ## Wheel parsing: what the parser returns -/

theorem read_optional_fst {T : Type} (read_typed : XmlRpcValue → Option T) (v1 v2 : T)
    (name : String) (wheel : XmlRpcValue) :
    (read_optional read_typed v1 name wheel).1 = (read_optional read_typed v2 name wheel).1 := by
  unfold read_optional
  split_ifs
  · cases read_typed (wheel.member name) <;> rfl
  · rfl

/-- Without a resolved steer joint `parseWheelGeom` returns false when one of the three
reads fails, and otherwise dereferences the null pointer. -/
theorem parseWheelGeom_no_joint (sqrt : ℚ → ℚ) (geom : WheelGeom) (wheel : XmlRpcValue)
    (merged : MergedXmlRpcStruct) (buffer : Buffer) (model : Option Model)
    (h : steerJointOf geom wheel model = none) :
    (allThreeRead wheel merged = true →
      parseWheelGeom sqrt geom wheel merged buffer model = .error Fault.nullDereference)
    ∧ (allThreeRead wheel merged = false →
      ∃ g, parseWheelGeom sqrt geom wheel merged buffer model = .ok (false, g)) := by
  have h1 : getJointIfNamed model
      (read_with_default read_typed_string geom.steer_name "steer" wheel "").2 = none := h
  unfold allThreeRead
  constructor
  · intro ha
    simp only [Bool.and_eq_true] at ha
    obtain ⟨⟨ha1, ha2⟩, ha3⟩ := ha
    simp only [parseWheelGeom, h1]
    rw [read_optional_fst read_typed_double _ 0 "x_pos" wheel, ha1,
      read_optional_fst read_typed_double _ 0 "y_pos" wheel, ha2,
      read_optional_fst read_typed_double _ 0 "wheel_radius" (.TypeStruct merged), ha3]
    simp
  · intro ha
    simp only [parseWheelGeom, h1]
    rw [read_optional_fst read_typed_double _ 0 "x_pos" wheel,
      read_optional_fst read_typed_double _ 0 "y_pos" wheel,
      read_optional_fst read_typed_double _ 0 "wheel_radius" (.TypeStruct merged)]
    cases hx1 : (read_optional read_typed_double 0 "x_pos" wheel).1
    · simp
    · cases hy1 : (read_optional read_typed_double 0 "y_pos" wheel).1
      · simp
      · cases hz1 : (read_optional read_typed_double 0 "wheel_radius"
            (XmlRpcValue.TypeStruct merged)).1
        · simp
        · simp [hx1, hy1, hz1] at ha

/-- With a resolved steer joint, a transform for its parent link and a translation `z` of
that transform: `parseWheelGeom` returns false when `z = 0`; when it returns true, the
stored wheel radius is `|z * 1000|`. -/
theorem parseWheelGeom_joint (sqrt : ℚ → ℚ) (geom : WheelGeom) (wheel : XmlRpcValue)
    (merged : MergedXmlRpcStruct) (buffer : Buffer) (model : Option Model) (j : Joint)
    (t : TransformStamped) (h : steerJointOf geom wheel model = some j)
    (ht : buffer.lookupTransform j.parent_link_name "base_link" = some t) :
    (t.transform.translation.z = 0 →
      ∃ g, parseWheelGeom sqrt geom wheel merged buffer model = .ok (false, g))
    ∧ (∀ g, parseWheelGeom sqrt geom wheel merged buffer model = .ok (true, g) →
        t.transform.translation.z ≠ 0
        ∧ g.dRadiusWheelMM = |t.transform.translation.z * 1000|) := by
  have h1 : getJointIfNamed model
      (read_with_default read_typed_string geom.steer_name "steer" wheel "").2 = some j := h
  constructor
  · intro hz
    simp only [parseWheelGeom, h1, ht, hz]
    simp
  · intro g hg
    simp only [parseWheelGeom, h1, ht] at hg
    simp only [Option.isNone_some, Bool.and_false, Bool.false_eq_true, if_false] at hg
    by_cases hz : t.transform.translation.z = 0
    · rw [if_pos hz] at hg
      simp at hg
    · rw [if_neg hz] at hg
      refine ⟨hz, ?_⟩
      split_ifs at hg with h2
      · split at hg
        · simp only [Except.ok.injEq, Prod.mk.injEq, true_and] at hg
          rw [← hg]
        · simp at hg
      · simp only [Except.ok.injEq, Prod.mk.injEq, true_and] at hg
        rw [← hg]

/-- A call of `parseWheelGeom` that returns true has resolved the steer joint and found the
transform. -/
theorem parseWheelGeom_true (sqrt : ℚ → ℚ) (geom : WheelGeom) (wheel : XmlRpcValue)
    (merged : MergedXmlRpcStruct) (buffer : Buffer) (model : Option Model) (g : WheelGeom)
    (hg : parseWheelGeom sqrt geom wheel merged buffer model = .ok (true, g)) :
    ∃ j t, steerJointOf geom wheel model = some j
      ∧ buffer.lookupTransform j.parent_link_name "base_link" = some t := by
  cases h : steerJointOf geom wheel model with
  | none =>
    obtain ⟨h1, h2⟩ := parseWheelGeom_no_joint sqrt geom wheel merged buffer model h
    cases ha : allThreeRead wheel merged
    · obtain ⟨g1, hg1⟩ := h2 ha
      rw [hg1] at hg
      simp at hg
    · rw [h1 ha] at hg
      simp at hg
  | some j =>
    cases ht : buffer.lookupTransform j.parent_link_name "base_link" with
    | none =>
      have h1 : getJointIfNamed model
          (read_with_default read_typed_string geom.steer_name "steer" wheel "").2 = some j := h
      simp only [parseWheelGeom, h1, ht] at hg
      simp at hg
    | some t => exact ⟨j, t, rfl, ht⟩

theorem parseWheelGeom_jointWheel (z : ℚ) (hz : z ≠ 0) (hz2 : |z * 1000| = 100) :
    parseWheelGeom (fun x => x) geom0 (.TypeStruct jointWheel) jointWheel (bufferZ z)
      (some model1) = .ok (true, jointWheelGeom) := by
  simp [parseWheelGeom, read_with_default, read_optional, XmlRpcValue.hasMember,
    XmlRpcValue.member, read_typed_string, read_typed_double, getJointIfNamed, geom0,
    jointWheel, model1, bufferZ, jointWheelGeom, hz, hz2]
  norm_num

theorem parseWheelsLoop_false {W : Type} (parseWheel : ParseWheel W) (init : W)
    (defaults : XmlRpcValue) (tfBuffer : Buffer) (model : Option Model)
    (entries : List (String × XmlRpcValue)) (acc ps : List W)
    (h : parseWheelsLoop parseWheel init defaults tfBuffer model entries acc = .ok (false, ps)) :
    (entries = [] ∧ acc = [] ∧ ps = [])
    ∨ ∃ before failing after parsed, entries = before ++ failing :: after
        ∧ ps = acc ++ parsed
        ∧ List.Forall₂ (parsesTo parseWheel init defaults tfBuffer model) before parsed
        ∧ failsToParse parseWheel init defaults tfBuffer model failing := by
  induction entries generalizing acc with
  | nil =>
    simp only [parseWheelsLoop, Except.ok.injEq, Prod.mk.injEq] at h
    obtain ⟨h1, h2⟩ := h
    have hacc : acc = [] := by simpa using h1
    exact Or.inl ⟨rfl, hacc, by rw [← h2, hacc]⟩
  | cons it rest ih =>
    right
    unfold parseWheelsLoop at h
    cases hm : MergedXmlRpcStruct.merged it.2 defaults with
    | error f => simp [hm] at h
    | ok merged =>
      simp only [hm] at h
      cases hp : parseWheel init it.2 merged tfBuffer model with
      | error f => simp [hp] at h
      | ok r =>
        obtain ⟨b, params⟩ := r
        cases b with
        | false =>
          simp only [hp, Except.ok.injEq, Prod.mk.injEq, true_and] at h
          exact ⟨[], it, rest, [], rfl, by simp [h], List.Forall₂.nil, merged, params, hm, hp⟩
        | true =>
          simp only [hp] at h
          rcases ih (acc ++ [params]) h with ⟨_, h2, _⟩ | ⟨before, failing, after, parsed, h1, h2, h3, h4⟩
          · simp at h2
          · refine ⟨it :: before, failing, after, params :: parsed, by simp [h1], by simp [h2],
              List.Forall₂.cons ⟨merged, hm, hp⟩ h3, h4⟩

theorem make_wheel_struct_true (wheel_list v : XmlRpcValue)
    (h : make_wheel_struct wheel_list = .ok (true, v)) : v.members ≠ [] := by
  unfold make_wheel_struct at h
  split at h
  · split at h
    · simp at h
    · simp only [Except.ok.injEq, Prod.mk.injEq, decide_eq_true_eq] at h
      obtain ⟨h1, h2⟩ := h
      rw [← h2]
      exact List.ne_nil_of_length_pos h1
  · simp only [Except.ok.injEq, Prod.mk.injEq, decide_eq_true_eq] at h
    obtain ⟨h1, h2⟩ := h
    rw [← h2]
    exact List.ne_nil_of_length_pos h1
  · simp at h

theorem parseWheelGeom_emptyWheel (buffer : Buffer) (model : Option Model) :
    parseWheelGeom (fun x => x) geom0 (.TypeStruct []) [] buffer model = .ok (false, geom0) := by
  cases model <;>
    simp [parseWheelGeom, read_with_default, read_optional, XmlRpcValue.hasMember,
      getJointIfNamed, geom0]

theorem parseWheelParams_nhTwoWheels (wheel_params : List UndercarriageGeom.WheelParams) :
    parseWheelParams (fun x => x) ⟨geom0⟩ wheel_params nhTwoWheels bufferUp true
      = .ok (false, [⟨jointWheelGeom⟩]) := by
  have h0 : toString (0 : Nat) = "0" := by decide
  have h1 : toString (1 : Nat) = "1" := by decide
  have hlt : ¬ ("1" : String) < "0" := by
    rw [String.lt_iff_toList_lt]
    decide
  have hne : ¬ ("1" : String) = "0" := by decide
  have hs : make_wheel_struct (.TypeArray [.TypeStruct jointWheel, .TypeStruct []])
      = .ok (true, .TypeStruct [("0", .TypeStruct jointWheel), ("1", .TypeStruct [])]) := by
    simp [make_wheel_struct, arrayToStruct, mapAssign, h0, h1, hlt, hne]
  have hm1 : MergedXmlRpcStruct.merged (.TypeStruct jointWheel) (.TypeStruct [])
      = .ok jointWheel := by
    simp [MergedXmlRpcStruct.merged, mergeMembers]
  have hm2 : MergedXmlRpcStruct.merged (.TypeStruct []) (.TypeStruct []) = .ok [] := by
    simp [MergedXmlRpcStruct.merged, mergeMembers]
  have hg : parseWheelGeom (fun x => x) geom0 (.TypeStruct jointWheel) jointWheel bufferUp
      (some model1) = .ok (true, jointWheelGeom) :=
    parseWheelGeom_jointWheel (1 / 10) (by norm_num) (by norm_num [abs_of_pos])
  simp [parseWheelParams, parseWheels, nhTwoWheels, hs, XmlRpcValue.members, parseWheelsLoop,
    hm1, hm2, parseWheelUndercarriageGeom, hg, parseWheelGeom_emptyWheel]

/-! ## Claims on wheel parsing -/

/-- C11 (amended): `parseWheelGeom` fails (returns false) for every wheel whose value
steer_pos.z, from which dRadiusWheelMM is computed (the z translation of the transform
looked up for the parent link of the steer joint), is zero. It returns true only with a
non-zero steer_pos.z; a negative value is accepted, and the stored wheel radius
dRadiusWheelMM = |steer_pos.z * 1000| is then strictly positive. -/
theorem wheel_geom_rejects_zero_radius_only (sqrt : ℚ → ℚ) (geom : WheelGeom)
    (wheel : XmlRpcValue) (merged : MergedXmlRpcStruct) (buffer : Buffer)
    (model : Option Model) :
    (∀ (j : Joint) (t : TransformStamped), steerJointOf geom wheel model = some j →
      buffer.lookupTransform j.parent_link_name "base_link" = some t →
      t.transform.translation.z = 0 →
      ∃ g, parseWheelGeom sqrt geom wheel merged buffer model = .ok (false, g))
    ∧ (∀ g, parseWheelGeom sqrt geom wheel merged buffer model = .ok (true, g) →
      ∃ (j : Joint) (t : TransformStamped), steerJointOf geom wheel model = some j
        ∧ buffer.lookupTransform j.parent_link_name "base_link" = some t
        ∧ t.transform.translation.z ≠ 0
        ∧ g.dRadiusWheelMM = |t.transform.translation.z * 1000|
        ∧ 0 < g.dRadiusWheelMM) := by
  constructor
  · intro j t hj ht hz
    exact (parseWheelGeom_joint sqrt geom wheel merged buffer model j t hj ht).1 hz
  · intro g hg
    obtain ⟨j, t, hj, ht⟩ := parseWheelGeom_true sqrt geom wheel merged buffer model g hg
    obtain ⟨hz, hr⟩ := (parseWheelGeom_joint sqrt geom wheel merged buffer model j t hj ht).2 g hg
    refine ⟨j, t, hj, ht, hz, hr, ?_⟩
    rw [hr]
    exact abs_pos.mpr (mul_ne_zero hz (by norm_num))

/-- Witness for C11 (amended): the transform translation z = 0 makes `parseWheelGeom` return
false; with z = 0.1 it returns true and the stored radius is positive. -/
theorem wheel_geom_rejects_zero_radius_only_witness :
    (∃ g, parseWheelGeom (fun x => x) geom0 (.TypeStruct jointWheel) jointWheel (bufferZ 0)
        (some model1) = .ok (false, g))
    ∧ 0 < jointWheelGeom.dRadiusWheelMM := by
  constructor
  · exact (wheel_geom_rejects_zero_radius_only (fun x => x) geom0 (.TypeStruct jointWheel)
      jointWheel (bufferZ 0) (some model1)).1 ⟨"leg_1", ⟨⟨0, 0, 0⟩⟩⟩ ⟨⟨⟨1 / 5, 1 / 10, 0⟩⟩⟩
      (by simp [steerJointOf, steerNameOf, getJointIfNamed, read_with_default, read_optional,
        XmlRpcValue.hasMember, XmlRpcValue.member, read_typed_string, jointWheel, model1])
      (by simp [bufferZ]) rfl
  · obtain ⟨_, _, _, _, _, _, h⟩ :=
      (wheel_geom_rejects_zero_radius_only (fun x => x) geom0 (.TypeStruct jointWheel)
        jointWheel (bufferZ (1 / 10)) (some model1)).2 jointWheelGeom
        (parseWheelGeom_jointWheel (1 / 10) (by norm_num) (by norm_num [abs_of_pos]))
    exact h

/-- Counterexample to C11 as stated: the transform of the steer joint's parent link has the
translation z = -0.1, so steer_pos.z is negative; `parseWheelGeom` returns true and stores
dRadiusWheelMM = 100. -/
theorem wheel_geom_accepts_negative_radius :
    (bufferZ (-(1 / 10))).lookupTransform "leg_1" "base_link" = some ⟨⟨⟨1 / 5, 1 / 10, -(1 / 10)⟩⟩⟩
    ∧ (-(1 / 10) : ℚ) ≤ 0
    ∧ parseWheelGeom (fun x => x) geom0 (.TypeStruct jointWheel) jointWheel
        (bufferZ (-(1 / 10))) (some model1) = .ok (true, jointWheelGeom)
    ∧ jointWheelGeom.dRadiusWheelMM = 100 :=
  ⟨by simp [bufferZ], by norm_num,
    parseWheelGeom_jointWheel (-(1 / 10)) (by norm_num) (by norm_num [abs_of_pos]), rfl⟩

/-- C12 (amended): whenever `parseWheels` (and hence `parseWheelParams`) returns false, the
output vector `wheel_params` holds exactly the parameters of the wheels parsed before the
failing one, in order: the vector is cleared on entry, not on failure. It is empty when the
wheel list is missing or invalid or when the first wheel fails to parse; earlier wheels that
parsed remain in it when a later wheel fails. -/
theorem parse_wheels_failure_leaves_earlier_wheels {W : Type} (parseWheel : ParseWheel W) (init : W)
    (wheel_params : List W) (nh : NodeHandle) (tfBuffer : Buffer) (read_urdf : Bool)
    (ps : List W)
    (h : parseWheels parseWheel init wheel_params nh tfBuffer read_urdf = .ok (false, ps)) :
    leftOnFailure parseWheel init nh tfBuffer read_urdf ps := by
  unfold parseWheels at h
  cases hw : nh.getParam "wheels" with
  | none =>
    simp only [hw, Except.ok.injEq, Prod.mk.injEq, true_and] at h
    exact Or.inl ⟨h.symm, Or.inl hw⟩
  | some wheel_list =>
    simp only [hw] at h
    cases hs : make_wheel_struct wheel_list with
    | error f => simp [hs] at h
    | ok r =>
      obtain ⟨b, v⟩ := r
      cases b with
      | false =>
        simp only [hs, Except.ok.injEq, Prod.mk.injEq, true_and] at h
        exact Or.inl ⟨h.symm, Or.inr ⟨wheel_list, v, hw, hs⟩⟩
      | true =>
        simp only [hs] at h
        rcases parseWheelsLoop_false _ _ _ _ _ _ _ _ h with ⟨h1, _, _⟩ | ⟨before, failing, after, parsed, h1, h2, h3, h4⟩
        · exact absurd h1 (make_wheel_struct_true wheel_list v hs)
        · refine Or.inr ⟨wheel_list, v, before, failing, after, hw, hs, h1, ?_, h4⟩
          rw [h2]
          exact h3

/-- Witness for C12 (amended): two wheels, the second one fails; the parameters of the first
wheel are what is left. -/
theorem parse_wheels_failure_leaves_earlier_wheels_witness :
    leftOnFailure (parseWheelUndercarriageGeom (fun x => x)) ⟨geom0⟩ nhTwoWheels
      bufferUp true [⟨jointWheelGeom⟩] :=
  parse_wheels_failure_leaves_earlier_wheels (parseWheelUndercarriageGeom (fun x => x))
    ⟨geom0⟩ [] nhTwoWheels bufferUp true [⟨jointWheelGeom⟩]
    (parseWheelParams_nhTwoWheels [])

/-- Counterexample to C12 as stated: with a list of two wheels of which the second fails to
parse, `parseWheelParams` returns false and `wheel_params` still holds the parameters of the
first wheel. -/
theorem parse_wheels_failure_keeps_first_wheel :
    parseWheelParams (fun x => x) ⟨geom0⟩ [] nhTwoWheels bufferUp true
      = .ok (false, [⟨jointWheelGeom⟩])
    ∧ ([⟨jointWheelGeom⟩] : List UndercarriageGeom.WheelParams) ≠ [] :=
  ⟨parseWheelParams_nhTwoWheels [], by simp⟩

/-- C15 (failing input): the wheel gives `x_pos`, `y_pos` and `wheel_radius` as numbers and
there is no URDF model, so the steer joint is a null pointer; none of the three checks
returns, and control reaches `steer_joint->parent_link_name` with the null pointer. -/
theorem wheel_geom_reaches_lookup_with_null_joint :
    steerJointOf geom0 (.TypeStruct numbersWheel) none = none
    ∧ parseWheelGeom (fun x => x) geom0 (.TypeStruct numbersWheel) numbersWheel (bufferZ 0) none
      = .error Fault.nullDereference := by
  have h : steerJointOf geom0 (.TypeStruct numbersWheel) none = none := rfl
  refine ⟨h, (parseWheelGeom_no_joint (fun x => x) geom0 (.TypeStruct numbersWheel)
    numbersWheel (bufferZ 0) none h).1 ?_⟩
  simp [allThreeRead, read_optional, XmlRpcValue.hasMember, XmlRpcValue.member,
    read_typed_double, numbersWheel]

end CobOmniDrive
